import Mathlib

/-!
LightController: `Point` and `Channel` (ChannelManager.cpp)

Shallow embedding of `src/Arduino/LightController/ChannelManager.cpp`.

Modelling conventions.

* `int` and `long` values are `Int`.  Every integer the code computes from times of day
  (`_minutes * 60`, `time + 24 * 60 * 60`, differences of those) stays far below `2 ^ 31`,
  so no wrap-around is modelled for them.  A `byte` parameter is reduced `% 256`.
* A finite `float` value is the rational it denotes.  Every binary32 operation of
  `Channel` (the subtraction, division, multiplications and addition of
  `UpdateCurrentLightValue`, the product of `CorrectForFadeMode`, the conversions of `long`
  to `float`) rounds its exact result to the nearest binary32 value, ties to even, with
  gradual underflow (`roundBinary32`); a result that overflows, or a division whose divisor
  is zero, has no finite value (an infinity or a NaN, and so is everything computed from
  it): it is `none` (`toFloat`, `floatDiv`), and the conversion of such a value to `int` is
  undefined.
* `Point._intensity` is kept as the rational the constructor computes; the float the member
  holds is its binary32 rounding, which the arithmetic of `Channel` takes where it reads an
  intensity (`interpolate`).  `roundBinary32` is the identity on binary32 values
  (`roundBinary32_idem`).  The accessors and the validity test of `Point` are evaluated on
  the rational.
* The conversion of a finite `float` to an integer type truncates toward zero
  (`floatToInt`).
* `_storage` is a raw pointer indexed by `int`; it is a total function `Int → Point`.
* `while (true)` in `GoToCurrentPosition` is modelled with a fuel argument that bounds the
  number of `MoveForward` calls; `none` means the fuel ran out before a `break`.
-/

namespace LightController

/-- Enumeration `FadeMode` of ChannelManager.h. -/
inductive FadeMode where
  | fademode_linear
  | fademode_exponential
deriving DecidableEq, Repr

/-- Class `Point`: the private members `_minutes` (long) and `_intensity` (float). -/
structure Point where
  _minutes : Int
  _intensity : ℚ
deriving DecidableEq, Repr

/-- Conversion of a finite float to an integer type: truncation toward zero. -/
def floatToInt (x : ℚ) : Int :=
  if 0 ≤ x then Int.floor x else Int.ceil x

/-- Rounding of a rational to the nearest integer, ties to the even one. -/
def roundTiesEven (q : ℚ) : Int :=
  if q - (Int.floor q : ℚ) < 1 / 2 then Int.floor q
  else if 1 / 2 < q - (Int.floor q : ℚ) then Int.floor q + 1
  else if Int.floor q % 2 = 0 then Int.floor q
  else Int.floor q + 1

/-- Exponent of the unit in the last place of binary32 at the magnitude of `x`: 24
significant bits, smallest normal exponent `-126`. -/
def ulpExponent (x : ℚ) : Int := max (Int.log 2 |x|) (-126) - 23

/-- The binary32 value nearest to `x`, ties to even, with gradual underflow; the exponent
is not bounded above here (see `toFloat`). -/
def roundBinary32 (x : ℚ) : ℚ :=
  (roundTiesEven (x / (2 : ℚ) ^ ulpExponent x) : ℚ) * (2 : ℚ) ^ ulpExponent x

/-- Result of a binary32 operation whose exact value is `x`: the rounded value, or `none`
when it overflows (the float result is an infinity). -/
def toFloat (x : ℚ) : Option ℚ :=
  if |roundBinary32 x| < (2 : ℚ) ^ (128 : Nat) then some (roundBinary32 x) else none

/-- Float division `x / d` by an integer divisor converted to float; a zero divisor gives
no finite value. -/
def floatDiv (x : ℚ) (d : Int) : Option ℚ :=
  if d = 0 then none else toFloat (x / roundBinary32 (d : ℚ))

/-- Lines 267-268 of `Channel::UpdateCurrentLightValue` on the values read from the cached
waypoints: `intensityDiff = nextPointIntensity - prevPointIntensity`, then
`prevPointIntensity + (progress * (intensityDiff / timeDiff))`, every operation in
binary32. -/
def interpolate (prevPointIntensity nextPointIntensity : ℚ) (progress timeDiff : Int) :
    Option ℚ :=
  (toFloat (roundBinary32 nextPointIntensity - roundBinary32 prevPointIntensity)).bind
    fun intensityDiff =>
  (floatDiv intensityDiff timeDiff).bind fun slope =>
  (toFloat (roundBinary32 (progress : ℚ) * slope)).bind fun step =>
  toFloat (roundBinary32 prevPointIntensity + step)

/-- Conversion of an integer to `byte`. -/
def toByte (x : Int) : Int := x % 256

namespace Point

/-- Source `Point::Point()`. -/
def zero : Point :=
  { _minutes := 0, _intensity := 0 }

/-- Source `Point::Point(byte h, byte m, float intensity)`. -/
def ofHM (h m : Int) (intensity : ℚ) : Point :=
  { _minutes := 60 * toByte h + toByte m
    _intensity := if intensity > 0 then intensity / 255 else intensity }

/-- Source `Point::GetTimeSeconds`. -/
def GetTimeSeconds (p : Point) : Int := p._minutes * 60

/-- Source `Point::GetHours`. -/
def GetHours (p : Point) : Int := toByte (Int.tdiv p._minutes 60)

/-- Source `Point::GetMinutes`. -/
def GetMinutes (p : Point) : Int := toByte (Int.tmod p._minutes 60)

/-- Source `Point::GetIntensity`. -/
def GetIntensity (p : Point) : ℚ := p._intensity

/-- Source `Point::GetIntensityInt`. -/
def GetIntensityInt (p : Point) : Int := toByte (floatToInt (255 * p._intensity))

/-- Source `Point::GetIntensityPercent`. -/
def GetIntensityPercent (p : Point) : Int := toByte (floatToInt (100 * p._intensity))

/-- Source `Point::IsValid`. -/
def IsValid (p : Point) : Bool :=
  decide (p._minutes ≥ 0) && decide (p._minutes < 60 * 24) &&
    decide (p._intensity ≥ 0) && decide (p._intensity ≤ 1)

/-- Source `Point::IsZero`. -/
def IsZero (p : Point) : Bool :=
  decide (p._minutes = 0) && decide (p._intensity = 0)

end Point

/-- Class `Channel`: its private members. -/
structure Channel where
  _pin : Int
  _lightValue : Int
  _fadeMode : FadeMode
  _currentPosition : Int
  _length : Int
  _maxLength : Int
  _previous : Point
  _next : Point
  _storage : Int → Point

namespace Channel

/-- Source `Channel::Channel(int pin, int maxLength, FadeMode fadeMode, Point* m)`; the members
`_previous` and `_next` are default-constructed. -/
def init (pin maxLength : Int) (fadeMode : FadeMode) (m : Int → Point) : Channel :=
  { _pin := pin
    _lightValue := 0
    _fadeMode := fadeMode
    _maxLength := maxLength
    _length := 0
    _currentPosition := 1
    _previous := Point.zero
    _next := Point.zero
    _storage := m }

/-- Source `Channel::SetPoint(int index, Point p)`. -/
def SetPoint (ch : Channel) (index : Int) (p : Point) : Channel :=
  { ch with _storage := fun i => if i = index then p else ch._storage i }

/-- Source `Channel::ClearPoint`. -/
def ClearPoint (ch : Channel) (index : Int) : Channel :=
  ch.SetPoint index Point.zero

/-- Source `Channel::GetPoint`. -/
def GetPoint (ch : Channel) (index : Int) : Point :=
  ch._storage index

/-- Source `Channel::AddPoint(int h, int m, float intensity)`. -/
def AddPoint (ch : Channel) (h m : Int) (intensity : ℚ) : Channel :=
  let p := Point.ofHM h m intensity
  let ch1 : Channel :=
    if ch._length = 0 then
      { ch with _previous := p, _next := p, _currentPosition := 1, _length := 1 }
    else
      { ch with _previous := p, _currentPosition := ch._currentPosition + 1,
                _length := ch._length + 1 }
  ch1.SetPoint ch1._currentPosition p

/-- Source `Channel::MoveForward`. -/
def MoveForward (ch : Channel) : Channel :=
  if ch._currentPosition < ch._length - 1 then
    { ch with _currentPosition := ch._currentPosition + 1
              _previous := ch._storage (ch._currentPosition + 1)
              _next := ch._storage (ch._currentPosition + 1 + 1) }
  else if ch._currentPosition = ch._length - 1 then
    { ch with _currentPosition := ch._currentPosition + 1
              _previous := ch._storage (ch._currentPosition + 1)
              _next := ch._storage 1 }
  else if ch._currentPosition = ch._length then
    { ch with _currentPosition := 1
              _previous := ch._storage 1
              _next := ch._storage (1 + 1) }
  else
    { ch with _previous := ch._storage ch._currentPosition
              _next := ch._storage 1 }

/-- The three `break` conditions of the loop of `Channel::GoToCurrentPosition`, for the
cached waypoints `previous` and `next`. -/
def inBracket (previous next : Point) (time : Int) : Bool :=
  (decide (previous.GetTimeSeconds ≤ time) && decide (next.GetTimeSeconds > time))
  || (decide (previous.GetTimeSeconds ≤ time)
        && decide (next.GetTimeSeconds < previous.GetTimeSeconds))
  || (decide (previous.GetTimeSeconds > time) && decide (next.GetTimeSeconds > time)
        && decide (previous.GetTimeSeconds > next.GetTimeSeconds))

/-- The loop of `Channel::GoToCurrentPosition` breaks in this state. -/
def bracketFound (ch : Channel) (time : Int) : Bool :=
  inBracket ch._previous ch._next time

/-- The `while (true)` loop of `Channel::GoToCurrentPosition`; `fuel` bounds the number of
`MoveForward` calls. -/
def searchLoop : Nat → Channel → Int → Option Channel
  | fuel, ch, time =>
    if bracketFound ch time then some ch
    else
      match fuel with
      | 0 => none
      | fuel + 1 => searchLoop fuel ch.MoveForward time

/-- Source `Channel::GoToCurrentPosition`. -/
def GoToCurrentPosition (fuel : Nat) (ch : Channel) (time : Int) : Option Channel :=
  if ch._length ≤ 1 then some ch else searchLoop fuel ch time

/-- Source `Channel::CorrectForFadeMode`. -/
def CorrectForFadeMode (ch : Channel) (intensity : ℚ) : Option ℚ :=
  match ch._fadeMode with
  | FadeMode.fademode_exponential => toFloat (intensity * intensity)
  | _ => some intensity

/-- Local `timeDiff` of `Channel::UpdateCurrentLightValue`. -/
def timeDiff (ch : Channel) : Int :=
  if ch._previous.GetTimeSeconds > ch._next.GetTimeSeconds then
    (ch._next.GetTimeSeconds + 24 * 60 * 60) - ch._previous.GetTimeSeconds
  else
    ch._next.GetTimeSeconds - ch._previous.GetTimeSeconds

/-- Local `progress` of `Channel::UpdateCurrentLightValue`. -/
def progress (ch : Channel) (time : Int) : Int :=
  if time ≥ ch._previous.GetTimeSeconds then
    time - ch._previous.GetTimeSeconds
  else
    (time + 24 * 60 * 60) - ch._previous.GetTimeSeconds

/-- Local `intensity` of `Channel::UpdateCurrentLightValue`, computed from the cached
bracket. -/
def currentIntensity (ch : Channel) (time : Int) : Option ℚ :=
  interpolate ch._previous.GetIntensity ch._next.GetIntensity (ch.progress time) ch.timeDiff

/-- The part of `Channel::UpdateCurrentLightValue` after the call of
`GoToCurrentPosition`; line 269 is `_lightValue = 255 * CorrectForFadeMode(intensity)`. -/
def storeLightValue (ch : Channel) (time : Int) : Option Channel :=
  match ch.currentIntensity time with
  | none => none
  | some intensity =>
    match ch.CorrectForFadeMode intensity with
    | none => none
    | some corrected =>
      match toFloat (255 * corrected) with
      | none => none
      | some value => some { ch with _lightValue := floatToInt value }

/-- Source `Channel::UpdateCurrentLightValue`. -/
def UpdateCurrentLightValue (fuel : Nat) (ch : Channel) (time : Int) : Option Channel :=
  match ch.GoToCurrentPosition fuel time with
  | none => none
  | some ch1 => ch1.storeLightValue time

/-- Source `Channel::GetLightIntensityInt`: the channel after the call and the returned level. -/
def GetLightIntensityInt (fuel : Nat) (ch : Channel) (time : Int) : Option (Channel × Int) :=
  match ch.UpdateCurrentLightValue fuel time with
  | none => none
  | some ch1 => some (ch1, ch1._lightValue)

/-- The `for` loop of `Channel::UpdateData`, entered with `_length = len`; `k` is the
number of values of `_length` below `_maxLength` that remain, `(_maxLength - len).toNat`.
The result is the final `_length`. -/
def scanFrom (storage : Int → Point) (maxLength : Int) : Nat → Int → Int
  | 0, len => len
  | k + 1, len =>
    if len < maxLength then
      let _c := storage len
      if !_c.IsValid || decide (len = maxLength) then len
      else
        let _n := storage (len + 1)
        if !_n.IsValid || decide (_n.GetTimeSeconds < _c.GetTimeSeconds)
            || (_c.IsZero && _n.IsZero) then len
        else scanFrom storage maxLength k (len + 1)
    else len

/-- Source `Channel::UpdateData`. -/
def UpdateData (ch : Channel) : Channel :=
  { ch with _length := scanFrom ch._storage ch._maxLength (ch._maxLength - 1).toNat 1 }

/-- Source `Channel::GetLength`. -/
def GetLength (ch : Channel) : Int := ch._length

/-- Source `Channel::Reset`. -/
def Reset (ch : Channel) : Channel :=
  { ch with _currentPosition := 1, _previous := ch.GetPoint 1, _next := ch.GetPoint 1 }

end Channel

/-- Storage holding the given points in slots `1, 2, ...` and the default-constructed
point in every other slot. -/
def storageOf (ps : List Point) : Int → Point :=
  fun i => if 1 ≤ i then (ps.get? (i - 1).toNat).getD Point.zero else Point.zero

/-- The stopping condition of the scan of `validate()` at position `L`, in the words of the
specification: slot `L` is invalid, or slot `L + 1` is invalid, or slot `L + 1` is earlier
in the day than slot `L`, or both slots are the zero sentinel. -/
def StopCondition (storage : Int → Point) (L : Int) : Prop :=
  (storage L).IsValid = false ∨ (storage (L + 1)).IsValid = false ∨
    (storage (L + 1)).GetTimeSeconds < (storage L).GetTimeSeconds ∨
    ((storage L).IsZero = true ∧ (storage (L + 1)).IsZero = true)

instance (storage : Int → Point) (L : Int) : Decidable (StopCondition storage L) := by
  unfold StopCondition
  infer_instance

/-- The schedule of the specification's examples: 0:00 0%, 6:00 0%, 8:00 100%, 20:00 100%,
22:00 0%. -/
def daySchedule : List Point :=
  [Point.ofHM 0 0 0, Point.ofHM 6 0 0, Point.ofHM 8 0 255, Point.ofHM 20 0 255,
    Point.ofHM 22 0 0]

/-- The wrap schedule of the specification's examples: 22:00 100%, 2:00 0%. -/
def wrapSchedule : List Point :=
  [Point.ofHM 22 0 255, Point.ofHM 2 0 0]

/-- A linear channel of capacity 10 provisioned with `daySchedule` by `AddPoint` calls. -/
def dayChannel : Channel :=
  (((((Channel.init 0 10 FadeMode.fademode_linear (storageOf [])).AddPoint 0 0 0).AddPoint
    6 0 0).AddPoint 8 0 255).AddPoint 20 0 255).AddPoint 22 0 0

/-- A linear channel of capacity 10 provisioned with `wrapSchedule` by `AddPoint` calls. -/
def wrapChannel : Channel :=
  ((Channel.init 0 10 FadeMode.fademode_linear (storageOf [])).AddPoint 22 0 255).AddPoint
    2 0 0

/-- A linear channel provisioned with 0:00 0% and 23:59 0% by `AddPoint` calls, whose slots
1 and 2 are then overwritten with `wrapSchedule` by `SetPoint`; the bracket caches still hold
the earlier waypoints. -/
def staleChannel : Channel :=
  ((((Channel.init 0 10 FadeMode.fademode_linear (storageOf [])).AddPoint 0 0 0).AddPoint
    23 59 0).SetPoint 1 (Point.ofHM 22 0 255)).SetPoint 2 (Point.ofHM 2 0 0)

/-- A linear channel of capacity 10 on a storage whose slots 1 and 2 hold 6:00 0% and
6:00 100%, validated and reset. -/
def stepChannel : Channel :=
  ((Channel.init 0 10 FadeMode.fademode_linear
    (storageOf [Point.ofHM 6 0 0, Point.ofHM 6 0 255])).UpdateData).Reset

/-- A freshly constructed linear channel of capacity 10 with no points. -/
def emptyChannel : Channel :=
  Channel.init 0 10 FadeMode.fademode_linear (storageOf [])

/-- A linear channel of capacity 10 with the single point 6:00 100%, reset. -/
def singleChannel : Channel :=
  ((Channel.init 0 10 FadeMode.fademode_linear (storageOf [])).AddPoint 6 0 255).Reset

/-- An exponential channel of capacity 10 provisioned with 6:00 0% and 8:00 100% by
`AddPoint` calls. -/
def expChannel : Channel :=
  ((Channel.init 0 10 FadeMode.fademode_exponential (storageOf [])).AddPoint 6 0 0).AddPoint
    8 0 255

/-- A schedule with a single empty slot between two waypoints: 6:00 100%, the zero
sentinel, 8:00 100%. -/
def gapSchedule : List Point :=
  [Point.ofHM 6 0 255, Point.zero, Point.ofHM 8 0 255]

/-- A linear channel of capacity 2 filled to capacity by two `AddPoint` calls: 6:00 0% and
8:00 100%. -/
def fullChannel : Channel :=
  ((Channel.init 0 2 FadeMode.fademode_linear (storageOf [])).AddPoint 6 0 0).AddPoint
    8 0 255

/-- The position `AddPoint` writes to: 1 on a channel of length 0, the position after the
cursor otherwise. -/
def Channel.addPosition (ch : Channel) : Int :=
  if ch._length = 0 then 1 else ch._currentPosition + 1

/-- A linear channel of capacity 10 provisioned with 0:00 at raw level 197 and 23:58 at
raw level 0 by `AddPoint` calls. -/
def roundingChannel : Channel :=
  ((Channel.init 0 10 FadeMode.fademode_linear (storageOf [])).AddPoint 0 0 197).AddPoint
    23 58 0

/-- A linear channel of capacity 10 provisioned with 0:02 at raw level 197 and 0:00 at raw
level 0 by `AddPoint` calls. -/
def wrapRoundingChannel : Channel :=
  ((Channel.init 0 10 FadeMode.fademode_linear (storageOf [])).AddPoint 0 2 197).AddPoint
    0 0 0

/-- An exponential channel of capacity 10 provisioned with 6:00 0% and 6:22 100% by
`AddPoint` calls. -/
def shortFadeChannel : Channel :=
  ((Channel.init 0 10 FadeMode.fademode_exponential (storageOf [])).AddPoint 6 0 0).AddPoint
    6 22 255

/-- An exponential channel of capacity 10 provisioned with 6:00 at raw level
`206.361328125` (`105657 / 512`, a binary32 value) and 8:00 at raw level 0 by `AddPoint`
calls. -/
def fractionalChannel : Channel :=
  ((Channel.init 0 10 FadeMode.fademode_exponential (storageOf [])).AddPoint 6 0
    (105657 / 512)).AddPoint 8 0 0

/-- The fade curve in the words of the specification, in exact arithmetic: the identity
for linear, the square for exponential. -/
def fadeCurve (mode : FadeMode) (x : ℚ) : ℚ :=
  match mode with
  | FadeMode.fademode_linear => x
  | FadeMode.fademode_exponential => x * x

/-- Circular successor of position `c` on `1..length`. -/
def Channel.succPos (ch : Channel) (c : Int) : Int :=
  if c < ch._length then c + 1 else 1

/-- The cursor is in `1..length` and the bracket caches are the waypoints stored at the
cursor and at its circular successor. -/
def Channel.CachesInSync (ch : Channel) : Prop :=
  1 ≤ ch._currentPosition ∧ ch._currentPosition ≤ ch._length ∧
    ch._previous = ch._storage ch._currentPosition ∧
    ch._next = ch._storage (ch.succPos ch._currentPosition)

/-- The cursor and caches as `Reset` leaves them. -/
def Channel.AfterReset (ch : Channel) : Prop :=
  ch._currentPosition = 1 ∧ ch._previous = ch._storage 1 ∧ ch._next = ch._storage 1

/-- Provisioned state of the cursor and the bracket caches: in sync with the storage, as
`AddPoint` calls on a fresh channel leave them (cursor on the last slot), or as `Reset`
leaves them. -/
def Channel.Provisioned (ch : Channel) : Prop :=
  ch.CachesInSync ∨ ch.AfterReset

/-- Number of `MoveForward` calls that take the cursor from `c` to `i` on `1..n`. -/
def cyclicDist (n c i : Int) : Nat :=
  if c ≤ i then (i - c).toNat else (n - c + i).toNat

/-! ## The scan of `UpdateData` -/

theorem scanFrom_spec (storage : Int → Point) (maxLength : Int) :
    ∀ (k : Nat) (len : Int), k = (maxLength - len).toNat →
      len ≤ Channel.scanFrom storage maxLength k len ∧
      (Channel.scanFrom storage maxLength k len ≤ maxLength ∨
        Channel.scanFrom storage maxLength k len = len) ∧
      (∀ L, len ≤ L → L < Channel.scanFrom storage maxLength k len → ¬ StopCondition storage L) ∧
      (Channel.scanFrom storage maxLength k len < maxLength →
        StopCondition storage (Channel.scanFrom storage maxLength k len)) := by
  intro k
  induction k with
  | zero =>
    intro len hk
    have hle : maxLength ≤ len := by omega
    have hr : Channel.scanFrom storage maxLength 0 len = len := rfl
    rw [hr]
    refine ⟨le_refl _, Or.inr rfl, ?_, ?_⟩
    · intro L h1 h2; omega
    · intro h; omega
  | succ k ih =>
    intro len hk
    have hlt : len < maxLength := by omega
    have hk2 : k = (maxLength - (len + 1)).toNat := by omega
    obtain ⟨i1, i2, i3, i4⟩ := ih (len + 1) hk2
    by_cases hstop : StopCondition storage len
    · have hr : Channel.scanFrom storage maxLength (k + 1) len = len := by
        unfold StopCondition at hstop
        simp only [Channel.scanFrom, hlt, if_true]
        rcases hstop with h | h | h | ⟨h, h2⟩ <;> simp [h, *]
      rw [hr]
      refine ⟨le_refl _, Or.inr rfl, ?_, fun _ => hstop⟩
      intro L h1 h2; omega
    · have hr : Channel.scanFrom storage maxLength (k + 1) len
          = Channel.scanFrom storage maxLength k (len + 1) := by
        unfold StopCondition at hstop
        push_neg at hstop
        obtain ⟨h1, h2, h3, h4⟩ := hstop
        have h1 : (storage len).IsValid = true := by simpa using h1
        have h2 : (storage (len + 1)).IsValid = true := by simpa using h2
        have hne : len ≠ maxLength := by omega
        have h3 : ¬ (storage (len + 1)).GetTimeSeconds < (storage len).GetTimeSeconds := by
          omega
        have h5 : ((storage len).IsZero && (storage (len + 1)).IsZero) = false := by
          cases hz : (storage len).IsZero
          · simp
          · simpa using h4 hz
        simp [Channel.scanFrom, hlt, h1, h2, hne, h3, h5]
      rw [hr]
      refine ⟨by omega, ?_, ?_, i4⟩
      · rcases i2 with h | h
        · exact Or.inl h
        · left; omega
      · intro L h1 h2
        by_cases hL : L = len
        · subst hL; exact hstop
        · exact i3 L (by omega) h2

theorem updateData_length (ch : Channel) :
    ch.UpdateData._length
      = Channel.scanFrom ch._storage ch._maxLength (ch._maxLength - 1).toNat 1 := rfl

/-- C4: for capacity at least 1, `validate()` leaves `length` at the smallest position `L`
in `1..capacity-1` where the stopping condition holds (slot `L` invalid, slot `L + 1`
invalid, slot `L + 1` earlier than slot `L`, or both zero), and at `capacity` when there is
no such position. -/
theorem validate_first_stopping_position (ch : Channel) (hcap : 1 ≤ ch._maxLength) :
    (∀ L, 1 ≤ L → L < ch._maxLength → StopCondition ch._storage L →
        (∀ L', 1 ≤ L' → L' < L → ¬ StopCondition ch._storage L') →
        ch.UpdateData._length = L) ∧
    ((∀ L, 1 ≤ L → L < ch._maxLength → ¬ StopCondition ch._storage L) →
        ch.UpdateData._length = ch._maxLength) := by
  obtain ⟨h1, h2, h3, h4⟩ :=
    scanFrom_spec ch._storage ch._maxLength (ch._maxLength - 1).toNat 1 rfl
  rw [← updateData_length] at h1 h2 h3 h4
  have hle : ch.UpdateData._length ≤ ch._maxLength := by
    rcases h2 with h | h
    · exact h
    · omega
  constructor
  · intro L hL1 hL2 hstop hmin
    by_contra hne
    rcases lt_or_gt_of_ne hne with hlt | hgt
    · exact hmin _ h1 hlt (h4 (by omega))
    · exact h3 L hL1 hgt hstop
  · intro hnone
    by_contra hne
    have hlt : ch.UpdateData._length < ch._maxLength := lt_of_le_of_ne hle hne
    exact hnone _ h1 hlt (h4 hlt)

theorem validate_first_stopping_position_witness :
    (Channel.init 0 10 FadeMode.fademode_linear (storageOf daySchedule)).UpdateData._length
      = 5 := by
  refine (validate_first_stopping_position
    (Channel.init 0 10 FadeMode.fademode_linear (storageOf daySchedule)) (by decide)).1
    5 (by decide) (by decide)
    (by simp [StopCondition, Channel.init, storageOf, daySchedule, Point.ofHM, Point.IsValid,
      Point.IsZero, Point.GetTimeSeconds, Point.zero, toByte]) ?_
  intro L h1 h2
  interval_cases L <;>
    simp [StopCondition, Channel.init, storageOf, daySchedule, Point.ofHM, Point.IsValid,
      Point.IsZero, Point.GetTimeSeconds, Point.zero, toByte]

/-- C5: if slots `1..n` (`1 ≤ n < capacity`) hold valid waypoints with non-decreasing
times, no two adjacent ones both zero, `time(n) > 0`, and slot `n + 1` is the zero
sentinel, then `validate()` yields `length = n`. -/
theorem validate_monotonic_scan (ch : Channel) (n : Int) (h1 : 1 ≤ n)
    (hn : n < ch._maxLength)
    (hvalid : ∀ i, 1 ≤ i → i ≤ n → (ch._storage i).IsValid = true)
    (hmono : ∀ i, 1 ≤ i → i < n →
      (ch._storage i).GetTimeSeconds ≤ (ch._storage (i + 1)).GetTimeSeconds)
    (hpair : ∀ i, 1 ≤ i → i < n →
      ¬ ((ch._storage i).IsZero = true ∧ (ch._storage (i + 1)).IsZero = true))
    (hpos : 0 < (ch._storage n).GetTimeSeconds)
    (hzero : (ch._storage (n + 1)).IsZero = true) :
    ch.UpdateData._length = n := by
  obtain ⟨h1', h2, h3, h4⟩ :=
    scanFrom_spec ch._storage ch._maxLength (ch._maxLength - 1).toNat 1 rfl
  rw [← updateData_length] at h1' h2 h3 h4
  have hstopn : StopCondition ch._storage n := by
    right; right; left
    have hz : (ch._storage (n + 1)).GetTimeSeconds = 0 := by
      simp only [Point.IsZero, Bool.and_eq_true, decide_eq_true_eq] at hzero
      simp [Point.GetTimeSeconds, hzero.1]
    omega
  have hnostop : ∀ i, 1 ≤ i → i < n → ¬ StopCondition ch._storage i := by
    intro i hi1 hi2 hs
    rcases hs with h | h | h | h
    · rw [hvalid i hi1 (by omega)] at h; exact Bool.noConfusion h
    · rw [hvalid (i + 1) (by omega) (by omega)] at h; exact Bool.noConfusion h
    · have := hmono i hi1 hi2; omega
    · exact hpair i hi1 hi2 h
  by_contra hne
  rcases lt_or_gt_of_ne hne with hlt | hgt
  · exact hnostop _ h1' hlt (h4 (by omega))
  · exact h3 n h1 hgt hstopn

theorem validate_monotonic_scan_witness :
    (Channel.init 0 10 FadeMode.fademode_linear (storageOf daySchedule)).UpdateData._length
      = 5 := by
  refine validate_monotonic_scan
    (Channel.init 0 10 FadeMode.fademode_linear (storageOf daySchedule)) 5 (by decide)
    (by decide) ?_ ?_ ?_ ?_ ?_
  · intro i h1 h2
    interval_cases i <;>
      simp [Channel.init, storageOf, daySchedule, Point.ofHM, Point.IsValid, toByte]
  · intro i h1 h2
    interval_cases i <;>
      simp [Channel.init, storageOf, daySchedule, Point.ofHM, Point.GetTimeSeconds, toByte]
  · intro i h1 h2
    interval_cases i <;>
      simp [Channel.init, storageOf, daySchedule, Point.ofHM, Point.IsZero, toByte]
  · simp [Channel.init, storageOf, daySchedule, Point.ofHM, Point.GetTimeSeconds, toByte]
  · simp [Channel.init, storageOf, daySchedule, Point.IsZero, Point.zero]

/-- C6 (as stated, refuted): with 22:00 100% in slot 1, 2:00 0% in slot 2 and the
following slots empty, `validate()` yields length 1, not 2. -/
theorem validate_wrap_schedule_length :
    (Channel.init 0 10 FadeMode.fademode_linear (storageOf wrapSchedule)).UpdateData._length
        = 1 ∧
    (Channel.init 0 10 FadeMode.fademode_linear (storageOf wrapSchedule)).UpdateData._length
        ≠ 2 := by
  have h : (Channel.init 0 10 FadeMode.fademode_linear
      (storageOf wrapSchedule)).UpdateData._length = 1 := by
    simp [Channel.UpdateData, Channel.init, Channel.scanFrom, storageOf, wrapSchedule,
      Point.ofHM, Point.IsValid, Point.GetTimeSeconds, toByte]
  rw [h]
  exact ⟨rfl, by decide⟩

/-- C6 (amended): when the slot-2 waypoint is earlier in the day than the slot-1 waypoint
(both valid or not), `validate()` yields length 1: the scan stops at the descent in time,
which ends the counted schedule. -/
theorem validate_stops_at_descent (ch : Channel)
    (hlt : (ch._storage 2).GetTimeSeconds < (ch._storage 1).GetTimeSeconds) :
    ch.UpdateData._length = 1 := by
  obtain ⟨h1, h2, h3, h4⟩ :=
    scanFrom_spec ch._storage ch._maxLength (ch._maxLength - 1).toNat 1 rfl
  rw [← updateData_length] at h1 h2 h3 h4
  have hstop : StopCondition ch._storage 1 := by
    right; right; left
    exact hlt
  by_contra hne
  exact h3 1 (le_refl _) (lt_of_le_of_ne h1 (Ne.symm hne)) hstop

theorem validate_stops_at_descent_witness :
    (Channel.init 0 10 FadeMode.fademode_linear (storageOf wrapSchedule)).UpdateData._length
      = 1 :=
  validate_stops_at_descent
    (Channel.init 0 10 FadeMode.fademode_linear (storageOf wrapSchedule))
    (by simp [Channel.init, storageOf, wrapSchedule, Point.ofHM, Point.GetTimeSeconds,
      toByte])

/-! ## The bracket search -/

theorem inBracket_iff (p n : Point) (t : Int) :
    Channel.inBracket p n t = true ↔
      (p.GetTimeSeconds ≤ t ∧ t < n.GetTimeSeconds) ∨
      (p.GetTimeSeconds ≤ t ∧ n.GetTimeSeconds < p.GetTimeSeconds) ∨
      (t < p.GetTimeSeconds ∧ t < n.GetTimeSeconds ∧
        n.GetTimeSeconds < p.GetTimeSeconds) := by
  simp only [Channel.inBracket, Bool.or_eq_true, Bool.and_eq_true, decide_eq_true_eq,
    gt_iff_lt]
  tauto

theorem inBracket_same (p : Point) (t : Int) : Channel.inBracket p p t = false := by
  cases h : Channel.inBracket p p t
  · rfl
  · rw [inBracket_iff] at h
    omega

theorem searchLoop_of_found (k : Nat) (ch : Channel) (t : Int)
    (h : ch.bracketFound t = true) : Channel.searchLoop k ch t = some ch := by
  cases k <;> simp [Channel.searchLoop, h]

theorem searchLoop_zero_of_not (ch : Channel) (t : Int)
    (h : ch.bracketFound t = false) : Channel.searchLoop 0 ch t = none := by
  simp [Channel.searchLoop, h]

theorem searchLoop_succ_of_not (k : Nat) (ch : Channel) (t : Int)
    (h : ch.bracketFound t = false) :
    Channel.searchLoop (k + 1) ch t = Channel.searchLoop k ch.MoveForward t := by
  simp [Channel.searchLoop, h]

theorem searchLoop_mono (t : Int) :
    ∀ (k m : Nat) (ch ch' : Channel), Channel.searchLoop k ch t = some ch' →
      Channel.searchLoop (k + m) ch t = some ch' := by
  intro k
  induction k with
  | zero =>
    intro m ch ch' h
    cases hb : ch.bracketFound t
    · rw [searchLoop_zero_of_not ch t hb] at h
      exact Option.noConfusion h
    · rw [searchLoop_of_found _ ch t hb] at h
      rw [searchLoop_of_found _ ch t hb]
      exact h
  | succ k ih =>
    intro m ch ch' h
    cases hb : ch.bracketFound t
    · rw [searchLoop_succ_of_not k ch t hb] at h
      have e : k + 1 + m = (k + m) + 1 := by omega
      rw [e, searchLoop_succ_of_not (k + m) ch t hb]
      exact ih m _ _ h
    · rw [searchLoop_of_found _ ch t hb] at h
      rw [searchLoop_of_found _ ch t hb]
      exact h

theorem searchLoop_found (t : Int) :
    ∀ (k : Nat) (ch ch' : Channel), Channel.searchLoop k ch t = some ch' →
      ch'.bracketFound t = true := by
  intro k
  induction k with
  | zero =>
    intro ch ch' h
    cases hb : ch.bracketFound t
    · rw [searchLoop_zero_of_not ch t hb] at h
      exact Option.noConfusion h
    · rw [searchLoop_of_found _ ch t hb] at h
      cases h
      exact hb
  | succ k ih =>
    intro ch ch' h
    cases hb : ch.bracketFound t
    · rw [searchLoop_succ_of_not k ch t hb] at h
      exact ih _ _ h
    · rw [searchLoop_of_found _ ch t hb] at h
      cases h
      exact hb

theorem moveForward_frame (ch : Channel) :
    ch.MoveForward._storage = ch._storage ∧ ch.MoveForward._length = ch._length ∧
    ch.MoveForward._fadeMode = ch._fadeMode ∧ ch.MoveForward._maxLength = ch._maxLength ∧
    ch.MoveForward._lightValue = ch._lightValue ∧ ch.MoveForward._pin = ch._pin := by
  unfold Channel.MoveForward
  split_ifs <;> simp

theorem moveForward_sync (ch : Channel) (h1 : 1 ≤ ch._currentPosition)
    (h2 : ch._currentPosition ≤ ch._length) (hn : 2 ≤ ch._length) :
    ch.MoveForward.CachesInSync ∧
      ch.MoveForward._currentPosition = ch.succPos ch._currentPosition := by
  by_cases c1 : ch._currentPosition < ch._length - 1
  · have hm : ch.MoveForward =
        { ch with _currentPosition := ch._currentPosition + 1
                  _previous := ch._storage (ch._currentPosition + 1)
                  _next := ch._storage (ch._currentPosition + 1 + 1) } := by
      unfold Channel.MoveForward
      rw [if_pos c1]
    have e1 : ch._currentPosition < ch._length := by omega
    have e2 : ch._currentPosition + 1 < ch._length := by omega
    rw [hm]
    unfold Channel.CachesInSync Channel.succPos
    dsimp only
    rw [if_pos e1, if_pos e2]
    exact ⟨⟨by omega, by omega, rfl, rfl⟩, rfl⟩
  · by_cases c2 : ch._currentPosition = ch._length - 1
    · have hm : ch.MoveForward =
          { ch with _currentPosition := ch._currentPosition + 1
                    _previous := ch._storage (ch._currentPosition + 1)
                    _next := ch._storage 1 } := by
        unfold Channel.MoveForward
        rw [if_neg c1, if_pos c2]
      have e1 : ch._currentPosition < ch._length := by omega
      have e2 : ¬ ch._currentPosition + 1 < ch._length := by omega
      rw [hm]
      unfold Channel.CachesInSync Channel.succPos
      dsimp only
      rw [if_pos e1, if_neg e2]
      exact ⟨⟨by omega, by omega, rfl, rfl⟩, rfl⟩
    · have c3 : ch._currentPosition = ch._length := by omega
      have hm : ch.MoveForward =
          { ch with _currentPosition := 1
                    _previous := ch._storage 1
                    _next := ch._storage (1 + 1) } := by
        unfold Channel.MoveForward
        rw [if_neg c1, if_neg c2, if_pos c3]
      have e1 : ¬ ch._currentPosition < ch._length := by omega
      have e2 : (1 : Int) < ch._length := by omega
      rw [hm]
      unfold Channel.CachesInSync Channel.succPos
      dsimp only
      rw [if_neg e1, if_pos e2]
      exact ⟨⟨by omega, by omega, rfl, rfl⟩, rfl⟩

theorem succPos_congr (ch ch' : Channel) (h : ch'._length = ch._length) (c : Int) :
    ch'.succPos c = ch.succPos c := by
  unfold Channel.succPos
  rw [h]

theorem cyclicDist_eq_zero (n c i : Int) (hc2 : c ≤ n) (hi1 : 1 ≤ i)
    (h : cyclicDist n c i = 0) : c = i := by
  unfold cyclicDist at h
  split_ifs at h <;> omega

theorem cyclicDist_succ (n c i : Int) (k : Nat) (hc1 : 1 ≤ c) (hc2 : c ≤ n) (hi1 : 1 ≤ i)
    (hi2 : i ≤ n) (h : cyclicDist n c i = k + 1) :
    cyclicDist n (if c < n then c + 1 else 1) i = k := by
  unfold cyclicDist at h ⊢
  split_ifs at h ⊢ <;> omega

theorem cyclicDist_lt (n c i : Int) (hc1 : 1 ≤ c) (hc2 : c ≤ n) (hi1 : 1 ≤ i)
    (hi2 : i ≤ n) : (cyclicDist n c i : Int) ≤ n - 1 := by
  unfold cyclicDist
  split_ifs <;> omega

/-- From a state whose caches are in sync, the loop reaches a bracket within
`cyclicDist` advances when some position of `1..length` brackets the time. -/
theorem searchLoop_reaches (t i : Int) :
    ∀ (k : Nat) (ch : Channel), ch.CachesInSync → 2 ≤ ch._length → 1 ≤ i →
      i ≤ ch._length →
      Channel.inBracket (ch._storage i) (ch._storage (ch.succPos i)) t = true →
      cyclicDist ch._length ch._currentPosition i = k →
      ∃ ch', Channel.searchLoop k ch t = some ch' ∧ ch'.CachesInSync ∧
        ch'.bracketFound t = true ∧ ch'._storage = ch._storage ∧
        ch'._length = ch._length ∧ ch'._fadeMode = ch._fadeMode := by
  intro k
  induction k with
  | zero =>
    intro ch hs hn hi1 hi2 hb hd
    have hc : ch._currentPosition = i := cyclicDist_eq_zero _ _ _ hs.2.1 hi1 hd
    have hf : ch.bracketFound t = true := by
      unfold Channel.bracketFound
      rw [hs.2.2.1, hs.2.2.2, hc]
      exact hb
    exact ⟨ch, searchLoop_of_found 0 ch t hf, hs, hf, rfl, rfl, rfl⟩
  | succ k ih =>
    intro ch hs hn hi1 hi2 hb hd
    cases hf : ch.bracketFound t
    · obtain ⟨hs2, hc2⟩ := moveForward_sync ch hs.1 hs.2.1 hn
      obtain ⟨f1, f2, f3, -, -, -⟩ := moveForward_frame ch
      have hd2 : cyclicDist ch.MoveForward._length ch.MoveForward._currentPosition i = k := by
        rw [f2, hc2]
        exact cyclicDist_succ _ _ _ _ hs.1 hs.2.1 hi1 hi2 hd
      have hb2 : Channel.inBracket (ch.MoveForward._storage i)
          (ch.MoveForward._storage (ch.MoveForward.succPos i)) t = true := by
        rw [f1, succPos_congr ch ch.MoveForward f2]
        exact hb
      obtain ⟨ch', r1, r2, r3, r4, r5, r6⟩ :=
        ih ch.MoveForward hs2 (by rw [f2]; exact hn) hi1 (by rw [f2]; exact hi2) hb2 hd2
      refine ⟨ch', ?_, r2, r3, by rw [r4, f1], by rw [r5, f2], by rw [r6, f3]⟩
      rw [searchLoop_succ_of_not k ch t hf]
      exact r1
    · exact ⟨ch, searchLoop_of_found _ ch t hf, hs, hf, rfl, rfl, rfl⟩

/-- The state left by `Reset` is a provisioned one. -/
theorem reset_provisioned (ch : Channel) : ch.Reset.Provisioned :=
  Or.inr ⟨rfl, rfl, rfl⟩

/-- From a provisioned state the search ends, within `length` advances, in a state whose
caches are in sync and bracket the time, when some position of `1..length` does. -/
theorem search_from_provisioned (ch : Channel) (t i : Int) (hp : ch.Provisioned)
    (hn : 2 ≤ ch._length) (hi1 : 1 ≤ i) (hi2 : i ≤ ch._length)
    (hb : Channel.inBracket (ch._storage i) (ch._storage (ch.succPos i)) t = true) :
    ∃ ch', (∀ fuel : Nat, ch._length.toNat ≤ fuel →
        ch.GoToCurrentPosition fuel t = some ch') ∧
      ch'.CachesInSync ∧ ch'.bracketFound t = true ∧ ch'._storage = ch._storage ∧
      ch'._length = ch._length ∧ ch'._fadeMode = ch._fadeMode := by
  have hgo : ∀ fuel, ch.GoToCurrentPosition fuel t = Channel.searchLoop fuel ch t := by
    intro fuel
    unfold Channel.GoToCurrentPosition
    rw [if_neg (by omega)]
  rcases hp with hs | hr
  · obtain ⟨ch', r1, r2, r3, r4, r5, r6⟩ :=
      searchLoop_reaches t i _ ch hs hn hi1 hi2 hb rfl
    refine ⟨ch', ?_, r2, r3, r4, r5, r6⟩
    intro fuel hfuel
    have hd := cyclicDist_lt ch._length ch._currentPosition i hs.1 hs.2.1 hi1 hi2
    obtain ⟨m, hm⟩ : ∃ m, fuel = cyclicDist ch._length ch._currentPosition i + m :=
      ⟨fuel - cyclicDist ch._length ch._currentPosition i, by omega⟩
    rw [hgo, hm]
    exact searchLoop_mono t _ m ch ch' r1
  · obtain ⟨hc, hprev, hnext⟩ := hr
    have hf : ch.bracketFound t = false := by
      unfold Channel.bracketFound
      rw [hprev, hnext]
      exact inBracket_same _ t
    obtain ⟨hs2, hc2⟩ := moveForward_sync ch (by omega) (by omega) hn
    obtain ⟨f1, f2, f3, -, -, -⟩ := moveForward_frame ch
    have hb2 : Channel.inBracket (ch.MoveForward._storage i)
        (ch.MoveForward._storage (ch.MoveForward.succPos i)) t = true := by
      rw [f1, succPos_congr ch ch.MoveForward f2]
      exact hb
    obtain ⟨ch', r1, r2, r3, r4, r5, r6⟩ :=
      searchLoop_reaches t i _ ch.MoveForward hs2 (by rw [f2]; exact hn) hi1
        (by rw [f2]; exact hi2) hb2 rfl
    refine ⟨ch', ?_, r2, r3, by rw [r4, f1], by rw [r5, f2], by rw [r6, f3]⟩
    intro fuel hfuel
    have hd := cyclicDist_lt ch.MoveForward._length ch.MoveForward._currentPosition i
      hs2.1 hs2.2.1 hi1 (by rw [f2]; exact hi2)
    rw [f2] at hd
    obtain ⟨m, hm⟩ : ∃ m, fuel =
        (cyclicDist ch.MoveForward._length ch.MoveForward._currentPosition i + m) + 1 :=
      ⟨fuel - cyclicDist ch.MoveForward._length ch.MoveForward._currentPosition i - 1, by
        rw [f2]; omega⟩
    rw [hgo, hm, searchLoop_succ_of_not _ ch t hf]
    exact searchLoop_mono t _ m ch.MoveForward ch' r1

/-- When exactly one position `i` of `1..length` brackets the time, the search ends with
the cursor on `i` and the caches holding slots `i` and its circular successor. -/
theorem search_unique (ch : Channel) (t i : Int) (hp : ch.Provisioned)
    (hn : 2 ≤ ch._length) (hi1 : 1 ≤ i) (hi2 : i ≤ ch._length)
    (hb : Channel.inBracket (ch._storage i) (ch._storage (ch.succPos i)) t = true)
    (huniq : ∀ j, 1 ≤ j → j ≤ ch._length →
      Channel.inBracket (ch._storage j) (ch._storage (ch.succPos j)) t = true → j = i) :
    ∃ ch', (∀ fuel : Nat, ch._length.toNat ≤ fuel →
        ch.GoToCurrentPosition fuel t = some ch') ∧
      ch'._currentPosition = i ∧ ch'._previous = ch._storage i ∧
      ch'._next = ch._storage (ch.succPos i) ∧ ch'._fadeMode = ch._fadeMode ∧
      ch'._storage = ch._storage ∧ ch'._length = ch._length := by
  obtain ⟨ch', r1, r2, r3, r4, r5, r6⟩ := search_from_provisioned ch t i hp hn hi1 hi2 hb
  have hcur : ch'._currentPosition = i := by
    apply huniq _ r2.1 (by rw [← r5]; exact r2.2.1)
    unfold Channel.bracketFound at r3
    rw [r2.2.2.1, r2.2.2.2, r4, succPos_congr ch ch' r5] at r3
    exact r3
  refine ⟨ch', r1, hcur, ?_, ?_, r6, r4, r5⟩
  · rw [r2.2.2.1, r4, hcur]
  · rw [r2.2.2.2, r4, succPos_congr ch ch' r5, hcur]

theorem mono_of_adjacent (f : Int → Int) (n : Int)
    (h : ∀ j, 1 ≤ j → j < n → f j ≤ f (j + 1)) :
    ∀ (d : Nat) (a b : Int), 1 ≤ a → b = a + d → b ≤ n → f a ≤ f b := by
  intro d
  induction d with
  | zero =>
    intro a b _ hb _
    have : b = a := by omega
    rw [this]
  | succ d ih =>
    intro a b ha hb hbn
    have h1 := ih a (b - 1) ha (by omega) (by omega)
    have h2 := h (b - 1) (by omega) (by omega)
    have e : b - 1 + 1 = b := by omega
    rw [e] at h2
    omega

theorem exists_adjacent_bracket (f : Int → Int) (t : Int) :
    ∀ (d : Nat) (b : Int), b = 1 + d → f 1 ≤ t → t < f b →
      ∃ i, 1 ≤ i ∧ i < b ∧ f i ≤ t ∧ t < f (i + 1) := by
  intro d
  induction d with
  | zero =>
    intro b hb h1 h2
    have : b = 1 := by omega
    rw [this] at h2
    omega
  | succ d ih =>
    intro b hb h1 h2
    by_cases hlt : t < f (b - 1)
    · obtain ⟨i, i1, i2, i3, i4⟩ := ih (b - 1) (by omega) h1 hlt
      exact ⟨i, i1, by omega, i3, i4⟩
    · refine ⟨b - 1, by omega, by omega, by omega, ?_⟩
      have e : b - 1 + 1 = b := by omega
      rw [e]
      exact h2

theorem floatToInt_within (x : ℚ) : |((floatToInt x : Int) : ℚ) - x| < 1 := by
  unfold floatToInt
  rw [abs_lt]
  split_ifs with h
  · have h1 := Int.floor_le x
    have h2 := Int.lt_floor_add_one x
    constructor <;> linarith
  · have h1 := Int.le_ceil x
    have h2 := Int.ceil_lt_add_one x
    constructor <;> linarith

theorem floatToInt_of_nonneg (x : ℚ) (h : 0 ≤ x) : floatToInt x = Int.floor x := by
  unfold floatToInt
  rw [if_pos h]


/-! ## Binary32 rounding -/

theorem roundTiesEven_error (q : ℚ) : |((roundTiesEven q : Int) : ℚ) - q| ≤ 1 / 2 := by
  have h1 := Int.floor_le q
  have h2 := Int.lt_floor_add_one q
  unfold roundTiesEven
  rw [abs_le]
  split_ifs with a b c
  · constructor <;> linarith
  · push_cast
    constructor <;> linarith
  · constructor <;> linarith
  · push_cast
    constructor <;> linarith

theorem roundTiesEven_eq (q : ℚ) (n : Int) (h : |q - (n : ℚ)| < 1 / 2) :
    roundTiesEven q = n := by
  rw [abs_lt] at h
  obtain ⟨h1, h2⟩ := h
  have hf : Int.floor q = n ∨ Int.floor q = n - 1 := by
    have a1 : n - 1 ≤ Int.floor q := by
      rw [Int.le_floor]
      push_cast
      linarith
    have a2 : Int.floor q < n + 1 := by
      rw [Int.floor_lt]
      push_cast
      linarith
    omega
  unfold roundTiesEven
  rcases hf with hf | hf
  · rw [hf]
    rw [if_pos (by linarith)]
  · rw [hf]
    have e : (((n - 1 : Int)) : ℚ) = (n : ℚ) - 1 := by push_cast; ring
    rw [e, if_neg (by linarith), if_pos (by linarith)]
    ring

theorem roundTiesEven_intCast (n : Int) : roundTiesEven (n : ℚ) = n :=
  roundTiesEven_eq _ n (by simp)

theorem two_zpow_pos (e : Int) : (0 : ℚ) < (2 : ℚ) ^ e := zpow_pos (by norm_num) e

theorem roundBinary32_error (x : ℚ) :
    |roundBinary32 x - x| ≤ (2 : ℚ) ^ ulpExponent x / 2 := by
  have hpos := two_zpow_pos (ulpExponent x)
  have h := roundTiesEven_error (x / (2 : ℚ) ^ ulpExponent x)
  unfold roundBinary32
  have e : ((roundTiesEven (x / (2 : ℚ) ^ ulpExponent x) : Int) : ℚ) * (2 : ℚ) ^ ulpExponent x - x
      = (((roundTiesEven (x / (2 : ℚ) ^ ulpExponent x) : Int) : ℚ)
          - x / (2 : ℚ) ^ ulpExponent x) * (2 : ℚ) ^ ulpExponent x := by
    field_simp
  rw [e, abs_mul, abs_of_pos hpos]
  calc _ ≤ 1 / 2 * (2 : ℚ) ^ ulpExponent x := mul_le_mul_of_nonneg_right h (le_of_lt hpos)
    _ = _ := by ring

theorem log_two_abs (x : ℚ) (hx : x ≠ 0) :
    (2 : ℚ) ^ Int.log 2 |x| ≤ |x| ∧ |x| < (2 : ℚ) ^ (Int.log 2 |x| + 1) := by
  have hpos : 0 < |x| := abs_pos.mpr hx
  have h1 := Int.zpow_log_le_self (b := 2) (by norm_num) hpos
  have h2 := Int.lt_zpow_succ_log_self (b := 2) (by norm_num) |x|
  exact ⟨by exact_mod_cast h1, by exact_mod_cast h2⟩

theorem log_two_abs_eq (x : ℚ) (e : Int) (h1 : (2 : ℚ) ^ e ≤ |x|)
    (h2 : |x| < (2 : ℚ) ^ (e + 1)) : Int.log 2 |x| = e := by
  have hpos : 0 < |x| := lt_of_lt_of_le (two_zpow_pos e) h1
  have a1 : e ≤ Int.log 2 |x| := by
    rw [← Int.zpow_le_iff_le_log (b := 2) (by norm_num) hpos]
    exact_mod_cast h1
  have a2 : Int.log 2 |x| < e + 1 := by
    rw [← Int.lt_zpow_iff_log_lt (b := 2) (by norm_num) hpos]
    exact_mod_cast h2
  omega

theorem roundBinary32_zero : roundBinary32 0 = 0 := by
  simp [roundBinary32, roundTiesEven]

/-- Rounding error against a bound of the magnitude. -/
theorem roundBinary32_close (x B : ℚ) (hB : (2 : ℚ) ^ (-126 : Int) ≤ B) (hx : |x| ≤ B) :
    |roundBinary32 x - x| ≤ B / 16777216 := by
  by_cases h0 : x = 0
  · rw [h0, roundBinary32_zero]
    have : (0 : ℚ) ≤ B := le_trans (le_of_lt (two_zpow_pos _)) hB
    simp only [sub_zero, abs_zero]
    positivity
  · have h := roundBinary32_error x
    obtain ⟨l1, -⟩ := log_two_abs x h0
    have hmax : (2 : ℚ) ^ (max (Int.log 2 |x|) (-126)) ≤ B := by
      rcases le_total (Int.log 2 |x|) (-126) with c | c
      · rw [max_eq_right c]; exact hB
      · rw [max_eq_left c]; exact le_trans l1 hx
    have e : (2 : ℚ) ^ ulpExponent x
        = (2 : ℚ) ^ (max (Int.log 2 |x|) (-126)) / 8388608 := by
      unfold ulpExponent
      rw [zpow_sub₀ (by norm_num)]
      norm_num
    rw [e] at h
    linarith

theorem roundBinary32_eq (x : ℚ) (e n : Int) (he : -126 ≤ e) (h1 : (2 : ℚ) ^ e ≤ |x|)
    (h2 : |x| < (2 : ℚ) ^ (e + 1)) (h3 : |x / (2 : ℚ) ^ (e - 23) - (n : ℚ)| < 1 / 2) :
    roundBinary32 x = (n : ℚ) * (2 : ℚ) ^ (e - 23) := by
  have hu : ulpExponent x = e - 23 := by
    unfold ulpExponent
    rw [log_two_abs_eq x e h1 h2, max_eq_left he]
  unfold roundBinary32
  rw [hu, roundTiesEven_eq _ n h3]

theorem roundBinary32_eq_pos (x : ℚ) (e n : Int) (he : -126 ≤ e) (h1 : (2 : ℚ) ^ e ≤ x)
    (h2 : x < (2 : ℚ) ^ (e + 1)) (h3 : (n : ℚ) - 1 / 2 < x / (2 : ℚ) ^ (e - 23))
    (h4 : x / (2 : ℚ) ^ (e - 23) < (n : ℚ) + 1 / 2) :
    roundBinary32 x = (n : ℚ) * (2 : ℚ) ^ (e - 23) := by
  have hpos : 0 < x := lt_of_lt_of_le (two_zpow_pos e) h1
  apply roundBinary32_eq x e n he
  · rw [abs_of_pos hpos]; exact h1
  · rw [abs_of_pos hpos]; exact h2
  · rw [abs_lt]; constructor <;> linarith

theorem roundBinary32_eq_neg (x : ℚ) (e n : Int) (he : -126 ≤ e) (h1 : (2 : ℚ) ^ e ≤ -x)
    (h2 : -x < (2 : ℚ) ^ (e + 1)) (h3 : (n : ℚ) - 1 / 2 < x / (2 : ℚ) ^ (e - 23))
    (h4 : x / (2 : ℚ) ^ (e - 23) < (n : ℚ) + 1 / 2) :
    roundBinary32 x = (n : ℚ) * (2 : ℚ) ^ (e - 23) := by
  have hneg : x < 0 := by
    have := lt_of_lt_of_le (two_zpow_pos e) h1
    linarith
  apply roundBinary32_eq x e n he
  · rw [abs_of_neg hneg]; exact h1
  · rw [abs_of_neg hneg]; exact h2
  · rw [abs_lt]; constructor <;> linarith

/-- A tie between two integers goes to the even one. -/
theorem roundTiesEven_half_even (m : Int) (hm : m % 2 = 0) :
    roundTiesEven ((m : ℚ) + 1 / 2) = m := by
  have hf : Int.floor ((m : ℚ) + 1 / 2) = m := by
    rw [Int.floor_eq_iff]
    constructor <;> linarith
  unfold roundTiesEven
  rw [hf, if_neg (by linarith), if_neg (by linarith), if_pos hm]

/-- Evaluation of a rounding at a tie, positive argument, even lower neighbour. -/
theorem roundBinary32_eq_tie_pos (x : ℚ) (e m : Int) (he : -126 ≤ e) (h1 : (2 : ℚ) ^ e ≤ x)
    (h2 : x < (2 : ℚ) ^ (e + 1)) (h3 : x / (2 : ℚ) ^ (e - 23) = (m : ℚ) + 1 / 2)
    (hm : m % 2 = 0) : roundBinary32 x = (m : ℚ) * (2 : ℚ) ^ (e - 23) := by
  have hpos : 0 < x := lt_of_lt_of_le (two_zpow_pos e) h1
  have hu : ulpExponent x = e - 23 := by
    unfold ulpExponent
    rw [log_two_abs_eq x e (by rw [abs_of_pos hpos]; exact h1)
      (by rw [abs_of_pos hpos]; exact h2), max_eq_left he]
  unfold roundBinary32
  rw [hu, h3, roundTiesEven_half_even m hm]

/-- Integers below `2 ^ 24` in magnitude are binary32 values. -/
theorem roundBinary32_intCast (n : Int) (hn : |n| < 16777216) :
    roundBinary32 (n : ℚ) = (n : ℚ) := by
  by_cases h0 : n = 0
  · rw [h0]; simp [roundBinary32_zero]
  · have hx : (n : ℚ) ≠ 0 := by exact_mod_cast h0
    obtain ⟨l1, l2⟩ := log_two_abs (n : ℚ) hx
    have habs : (1 : ℚ) ≤ |(n : ℚ)| := by
      have : (1 : Int) ≤ |n| := Int.one_le_abs h0
      exact_mod_cast this
    have habs2 : |(n : ℚ)| < (2 : ℚ) ^ (24 : Int) := by
      have : ((|n| : Int) : ℚ) < ((16777216 : Int) : ℚ) := by exact_mod_cast hn
      push_cast at this
      norm_num
      exact this
    have e0 : 0 ≤ Int.log 2 |(n : ℚ)| := by
      by_contra hc
      have hc' : Int.log 2 |(n : ℚ)| + 1 ≤ 0 := by omega
      have := zpow_le_zpow_right₀ (show (1 : ℚ) ≤ 2 by norm_num) hc'
      simp only [zpow_zero] at this
      linarith
    have e1 : Int.log 2 |(n : ℚ)| < 24 := by
      by_contra hc
      have hc' : (24 : Int) ≤ Int.log 2 |(n : ℚ)| := by omega
      have := zpow_le_zpow_right₀ (show (1 : ℚ) ≤ 2 by norm_num) hc'
      linarith
    have hu : ulpExponent (n : ℚ) = -((23 - Int.log 2 |(n : ℚ)|).toNat : Int) := by
      unfold ulpExponent
      rw [max_eq_left (by omega)]
      omega
    unfold roundBinary32
    rw [hu, zpow_neg, zpow_natCast]
    have hq : (n : ℚ) / ((2 : ℚ) ^ (23 - Int.log 2 |(n : ℚ)|).toNat)⁻¹
        = ((n * 2 ^ (23 - Int.log 2 |(n : ℚ)|).toNat : Int) : ℚ) := by
      push_cast
      field_simp
    rw [hq, roundTiesEven_intCast]
    push_cast
    field_simp

/-- The integer mantissa of a rounding is at most `2 ^ 24` in magnitude. -/
theorem mantissa_le (x : ℚ) :
    |((roundTiesEven (x / (2 : ℚ) ^ ulpExponent x) : Int) : ℚ)| ≤ 16777216 := by
  have hpos := two_zpow_pos (ulpExponent x)
  have hq : |x / (2 : ℚ) ^ ulpExponent x| < 16777216 := by
    rw [abs_div, abs_of_pos hpos, div_lt_iff₀ hpos]
    by_cases h0 : x = 0
    · rw [h0, abs_zero]
      positivity
    · obtain ⟨-, l2⟩ := log_two_abs x h0
      have hle : (2 : ℚ) ^ (Int.log 2 |x| + 1) ≤ (2 : ℚ) ^ (ulpExponent x + 24) := by
        apply zpow_le_zpow_right₀ (by norm_num)
        unfold ulpExponent
        have := le_max_left (Int.log 2 |x|) (-126)
        omega
      have e : (2 : ℚ) ^ (ulpExponent x + 24) = 16777216 * (2 : ℚ) ^ ulpExponent x := by
        rw [zpow_add₀ (by norm_num)]
        norm_num
        ring
      linarith
  have herr := roundTiesEven_error (x / (2 : ℚ) ^ ulpExponent x)
  have hlt : |((roundTiesEven (x / (2 : ℚ) ^ ulpExponent x) : Int) : ℚ)| < 16777217 := by
    rw [abs_lt] at hq ⊢
    rw [abs_le] at herr
    constructor <;> linarith [hq.1, hq.2, herr.1, herr.2]
  have hlt' : |roundTiesEven (x / (2 : ℚ) ^ ulpExponent x)| < 16777217 := by
    have : ((|roundTiesEven (x / (2 : ℚ) ^ ulpExponent x)| : Int) : ℚ)
        < ((16777217 : Int) : ℚ) := by
      push_cast
      exact hlt
    exact_mod_cast this
  have hle' : |roundTiesEven (x / (2 : ℚ) ^ ulpExponent x)| ≤ 16777216 := by omega
  have : ((|roundTiesEven (x / (2 : ℚ) ^ ulpExponent x)| : Int) : ℚ)
      ≤ ((16777216 : Int) : ℚ) := by exact_mod_cast hle'
  push_cast at this
  exact this

/-- A multiple `n * 2 ^ E` of a unit in the last place (`E ≥ -149`, `|n| ≤ 2 ^ 24`) is a
binary32 value: rounding leaves it unchanged. -/
theorem roundBinary32_of_mantissa (n E : Int) (hE : -149 ≤ E) (hn : |n| ≤ 16777216) :
    roundBinary32 ((n : ℚ) * (2 : ℚ) ^ E) = (n : ℚ) * (2 : ℚ) ^ E := by
  by_cases h0 : n = 0
  · rw [h0]
    simp [roundBinary32_zero]
  have hposE := two_zpow_pos E
  have hx : (n : ℚ) * (2 : ℚ) ^ E ≠ 0 := by
    have : (n : ℚ) ≠ 0 := by exact_mod_cast h0
    exact mul_ne_zero this (ne_of_gt hposE)
  obtain ⟨l1, l2⟩ := log_two_abs _ hx
  have habs : |(n : ℚ) * (2 : ℚ) ^ E| = |(n : ℚ)| * (2 : ℚ) ^ E := by
    rw [abs_mul, abs_of_pos hposE]
  have hnq : |(n : ℚ)| ≤ 16777216 := by
    have : ((|n| : Int) : ℚ) ≤ ((16777216 : Int) : ℚ) := by exact_mod_cast hn
    push_cast at this
    exact this
  have l1' : (2 : ℚ) ^ Int.log 2 |(n : ℚ) * (2 : ℚ) ^ E| ≤ |(n : ℚ)| * (2 : ℚ) ^ E :=
    le_of_le_of_eq l1 habs
  have hmul : |(n : ℚ)| * (2 : ℚ) ^ E ≤ 16777216 * (2 : ℚ) ^ E :=
    mul_le_mul_of_nonneg_right hnq (le_of_lt hposE)
  have hlog : Int.log 2 |(n : ℚ) * (2 : ℚ) ^ E| ≤ E + 24 := by
    by_contra hc
    have hc' : E + 25 ≤ Int.log 2 |(n : ℚ) * (2 : ℚ) ^ E| := by omega
    have h := zpow_le_zpow_right₀ (show (1 : ℚ) ≤ 2 by norm_num) hc'
    have e : (2 : ℚ) ^ (E + 25) = 33554432 * (2 : ℚ) ^ E := by
      rw [zpow_add₀ (by norm_num)]
      norm_num
      ring
    linarith
  have key : ∃ m : Int, (n : ℚ) * (2 : ℚ) ^ E
      = (m : ℚ) * (2 : ℚ) ^ ulpExponent ((n : ℚ) * (2 : ℚ) ^ E) := by
    by_cases hc : ulpExponent ((n : ℚ) * (2 : ℚ) ^ E) ≤ E
    · refine ⟨n * 2 ^ (E - ulpExponent ((n : ℚ) * (2 : ℚ) ^ E)).toNat, ?_⟩
      have e : E = ulpExponent ((n : ℚ) * (2 : ℚ) ^ E)
          + ((E - ulpExponent ((n : ℚ) * (2 : ℚ) ^ E)).toNat : Int) := by omega
      push_cast
      nth_rewrite 1 [e]
      rw [zpow_add₀ (by norm_num), zpow_natCast]
      ring
    · have hu : ulpExponent ((n : ℚ) * (2 : ℚ) ^ E) = E + 1 := by
        unfold ulpExponent at hc ⊢
        have := max_le hlog (show (-126 : Int) ≤ E + 24 by omega)
        omega
      have hlog2 : Int.log 2 |(n : ℚ) * (2 : ℚ) ^ E| = E + 24 := by
        unfold ulpExponent at hu
        rcases le_total (Int.log 2 |(n : ℚ) * (2 : ℚ) ^ E|) (-126) with c | c
        · rw [max_eq_right c] at hu
          omega
        · rw [max_eq_left c] at hu
          omega
      rw [hlog2] at l1'
      have e24 : (2 : ℚ) ^ (E + 24) = 16777216 * (2 : ℚ) ^ E := by
        rw [zpow_add₀ (by norm_num)]
        norm_num
        ring
      rw [e24] at l1'
      have hge : (16777216 : ℚ) ≤ |(n : ℚ)| := le_of_mul_le_mul_right l1' hposE
      have habsn : |(n : ℚ)| = 16777216 := le_antisymm hnq hge
      have e1 : (2 : ℚ) ^ (E + 1) = 2 * (2 : ℚ) ^ E := by
        rw [zpow_add₀ (by norm_num)]
        norm_num
        ring
      rw [hu, e1]
      rcases abs_choice (n : ℚ) with hs | hs
      · refine ⟨8388608, ?_⟩
        rw [hs] at habsn
        rw [habsn]
        push_cast
        ring
      · refine ⟨-8388608, ?_⟩
        rw [hs] at habsn
        have : (n : ℚ) = -16777216 := by linarith
        rw [this]
        push_cast
        ring
  obtain ⟨m, hm⟩ := key
  have hposU := two_zpow_pos (ulpExponent ((n : ℚ) * (2 : ℚ) ^ E))
  unfold roundBinary32
  have hq : (n : ℚ) * (2 : ℚ) ^ E / (2 : ℚ) ^ ulpExponent ((n : ℚ) * (2 : ℚ) ^ E)
      = (m : ℚ) := by
    rw [div_eq_iff (ne_of_gt hposU)]
    exact hm
  rw [hq, roundTiesEven_intCast]
  exact hm.symm

/-- Rounding to binary32 is idempotent. -/
theorem roundBinary32_idem (x : ℚ) : roundBinary32 (roundBinary32 x) = roundBinary32 x := by
  have hE : -149 ≤ ulpExponent x := by
    unfold ulpExponent
    have := le_max_right (Int.log 2 |x|) (-126)
    omega
  have hn : |roundTiesEven (x / (2 : ℚ) ^ ulpExponent x)| ≤ 16777216 := by
    have h := mantissa_le x
    have : ((|roundTiesEven (x / (2 : ℚ) ^ ulpExponent x)| : Int) : ℚ)
        ≤ ((16777216 : Int) : ℚ) := by
      push_cast
      exact h
    exact_mod_cast this
  have h := roundBinary32_of_mantissa _ _ hE hn
  unfold roundBinary32 at h ⊢
  exact h

theorem toFloat_zero : toFloat 0 = some 0 := by
  simp [toFloat, roundBinary32_zero]

theorem toFloat_eq_some (x y : ℚ) (h : toFloat x = some y) : y = roundBinary32 x := by
  unfold toFloat at h
  split_ifs at h
  simp only [Option.some.injEq] at h
  exact h.symm

/-- No overflow for a value of bounded magnitude. -/
theorem toFloat_of_bound (x B : ℚ) (hB : (2 : ℚ) ^ (-126 : Int) ≤ B) (hx : |x| ≤ B)
    (hB2 : B ≤ 1000) : toFloat x = some (roundBinary32 x) := by
  have h := roundBinary32_close x B hB hx
  have hB0 : (0 : ℚ) ≤ B := le_trans (le_of_lt (two_zpow_pos _)) hB
  unfold toFloat
  rw [if_pos]
  rw [abs_le] at h hx
  rw [abs_lt]
  have e : (1000 : ℚ) + 1000 / 16777216 < (2 : ℚ) ^ (128 : Nat) := by norm_num
  have hdiv : B / 16777216 ≤ 1000 / 16777216 := by
    apply div_le_div_of_nonneg_right hB2
    norm_num
  constructor <;> linarith [h.1, h.2, hx.1, hx.2]

theorem small_power : (2 : ℚ) ^ (-126 : Int) ≤ 1 / 16777216 := by
  norm_num

theorem small_power_le (B : ℚ) (hB : 1 / 16777216 ≤ B) : (2 : ℚ) ^ (-126 : Int) ≤ B :=
  le_trans small_power hB

theorem scaled_le (a d c : ℚ) (hd : 0 < d) (had : a ≤ d) (hc : 0 ≤ c) :
    a * (c / d) ≤ c := by
  have h : a * (c / d) = c * (a / d) := by ring
  rw [h]
  have hf : a / d ≤ 1 := by
    rw [div_le_one hd]
    exact had
  calc c * (a / d) ≤ c * 1 := mul_le_mul_of_nonneg_left hf hc
    _ = c := by ring

/-- A blend of two intensities of `[0, 1]` at a progress of `[0, timeDiff)` lies in
`[0, 1]`. -/
theorem blend_bounds (p q : ℚ) (a d : Int) (hp0 : 0 ≤ p) (hp1 : p ≤ 1) (hq0 : 0 ≤ q)
    (hq1 : q ≤ 1) (hd : 0 < d) (ha0 : 0 ≤ a) (ha1 : a < d) :
    0 ≤ p + (a : ℚ) * ((q - p) / (d : ℚ)) ∧ p + (a : ℚ) * ((q - p) / (d : ℚ)) ≤ 1 := by
  have hd' : (0 : ℚ) < (d : ℚ) := by exact_mod_cast hd
  have ha0' : (0 : ℚ) ≤ (a : ℚ) := by exact_mod_cast ha0
  have ha1' : (a : ℚ) < (d : ℚ) := by exact_mod_cast ha1
  have hf0 : 0 ≤ (a : ℚ) / (d : ℚ) := div_nonneg ha0' (le_of_lt hd')
  have hf1 : (a : ℚ) / (d : ℚ) ≤ 1 := by
    rw [div_le_one hd']
    exact le_of_lt ha1'
  have e : p + (a : ℚ) * ((q - p) / (d : ℚ)) = p + (a : ℚ) / (d : ℚ) * (q - p) := by ring
  rw [e]
  constructor
  · nlinarith [mul_nonneg hf0 hq0, mul_nonneg (sub_nonneg.mpr hf1) hp0]
  · nlinarith [mul_nonneg hf0 (sub_nonneg.mpr hq1),
      mul_nonneg (sub_nonneg.mpr hf1) (sub_nonneg.mpr hp1)]

/-- The binary32 interpolation of two intensities of `[0, 1]` at a progress of
`[0, timeDiff)`, `timeDiff < 2 ^ 24`, has a finite value within `2 ^ -20` of the exact
blend. -/
theorem interpolate_close (p q : ℚ) (a d : Int) (hp0 : 0 ≤ p) (hp1 : p ≤ 1) (hq0 : 0 ≤ q)
    (hq1 : q ≤ 1) (hd : 0 < d) (ha0 : 0 ≤ a) (ha1 : a < d) (hd2 : d < 16777216) :
    ∃ y, interpolate p q a d = some y ∧
      |y - (p + (a : ℚ) * ((q - p) / (d : ℚ)))| ≤ 1 / 1048576 := by
  have hd' : (0 : ℚ) < (d : ℚ) := by exact_mod_cast hd
  have ha0' : (0 : ℚ) ≤ (a : ℚ) := by exact_mod_cast ha0
  have ha1' : (a : ℚ) ≤ (d : ℚ) := by exact_mod_cast le_of_lt ha1
  have hd2' : (d : ℚ) < 16777216 := by exact_mod_cast hd2
  obtain ⟨i0, i1⟩ := blend_bounds p q a d hp0 hp1 hq0 hq1 hd ha0 ha1
  -- the two intensities as read
  have hpR := roundBinary32_close p 1 (small_power_le _ (by norm_num)) (by rw [abs_le]; constructor <;> linarith)
  have hqR := roundBinary32_close q 1 (small_power_le _ (by norm_num)) (by rw [abs_le]; constructor <;> linarith)
  rw [abs_le] at hpR hqR
  -- intensityDiff
  have hx1 : |roundBinary32 q - roundBinary32 p| ≤ 2 := by
    rw [abs_le]; constructor <;> linarith [hpR.1, hpR.2, hqR.1, hqR.2]
  have hs1 := roundBinary32_close _ 2 (small_power_le _ (by norm_num)) hx1
  have ht1 := toFloat_of_bound _ 2 (small_power_le _ (by norm_num)) hx1 (by norm_num)
  rw [abs_le] at hs1 hx1
  have hs1b : |roundBinary32 (roundBinary32 q - roundBinary32 p)| ≤ 2 := by
    rw [abs_le]; constructor <;> linarith [hpR.1, hpR.2, hqR.1, hqR.2, hs1.1, hs1.2]
  -- the conversions of the integers
  have hdR : roundBinary32 (d : ℚ) = (d : ℚ) :=
    roundBinary32_intCast d (by rw [abs_lt]; constructor <;> omega)
  have haR : roundBinary32 (a : ℚ) = (a : ℚ) :=
    roundBinary32_intCast a (by rw [abs_lt]; constructor <;> omega)
  -- slope
  have hB2 : (2 : ℚ) ^ (-126 : Int) ≤ 2 / (d : ℚ) := by
    apply small_power_le
    rw [div_le_div_iff₀ (by norm_num) hd']
    linarith
  have hx2 : |roundBinary32 (roundBinary32 q - roundBinary32 p) / (d : ℚ)| ≤ 2 / (d : ℚ) := by
    rw [abs_div, abs_of_pos hd']
    exact div_le_div_of_nonneg_right hs1b (le_of_lt hd')
  have hs2 := roundBinary32_close _ _ hB2 hx2
  have ht2 := toFloat_of_bound _ _ hB2 hx2 (by
    rw [div_le_iff₀ hd']
    have : (1 : ℚ) ≤ (d : ℚ) := by exact_mod_cast hd
    linarith)
  -- step
  have e2 : 2 / (d : ℚ) / 16777216 = (2 / 16777216) / (d : ℚ) := by ring
  rw [e2] at hs2
  have hstep1 : |(a : ℚ) * (roundBinary32 (roundBinary32 (roundBinary32 q - roundBinary32 p)
        / (d : ℚ)) - roundBinary32 (roundBinary32 q - roundBinary32 p) / (d : ℚ))|
      ≤ 2 / 16777216 := by
    rw [abs_mul, abs_of_nonneg ha0']
    calc (a : ℚ) * _ ≤ (a : ℚ) * ((2 / 16777216) / (d : ℚ)) :=
          mul_le_mul_of_nonneg_left hs2 ha0'
      _ ≤ 2 / 16777216 := scaled_le _ _ _ hd' ha1' (by norm_num)
  have hstep2 : |(a : ℚ) * (roundBinary32 (roundBinary32 q - roundBinary32 p) / (d : ℚ))
      - (a : ℚ) * ((q - p) / (d : ℚ))| ≤ 4 / 16777216 := by
    have e : (a : ℚ) * (roundBinary32 (roundBinary32 q - roundBinary32 p) / (d : ℚ))
        - (a : ℚ) * ((q - p) / (d : ℚ))
        = (a : ℚ) * ((roundBinary32 (roundBinary32 q - roundBinary32 p) - (q - p))
            / (d : ℚ)) := by ring
    have hnum : |roundBinary32 (roundBinary32 q - roundBinary32 p) - (q - p)|
        ≤ 4 / 16777216 := by
      rw [abs_le]; constructor <;> linarith [hpR.1, hpR.2, hqR.1, hqR.2, hs1.1, hs1.2]
    rw [e, abs_mul, abs_of_nonneg ha0', abs_div, abs_of_pos hd']
    calc (a : ℚ) * _ ≤ (a : ℚ) * ((4 / 16777216) / (d : ℚ)) :=
          mul_le_mul_of_nonneg_left (div_le_div_of_nonneg_right hnum (le_of_lt hd')) ha0'
      _ ≤ 4 / 16777216 := scaled_le _ _ _ hd' ha1' (by norm_num)
  rw [abs_le] at hstep1 hstep2
  have hblend : |(a : ℚ) * ((q - p) / (d : ℚ))| ≤ 1 := by
    rw [abs_le]; constructor <;> linarith
  rw [abs_le] at hblend
  have hx3 : |(a : ℚ) * roundBinary32 (roundBinary32 (roundBinary32 q - roundBinary32 p)
      / (d : ℚ))| ≤ 3 := by
    rw [abs_le]
    constructor <;> linarith [hstep1.1, hstep1.2, hstep2.1, hstep2.2, hblend.1, hblend.2]
  have hs3 := roundBinary32_close _ 3 (small_power_le _ (by norm_num)) hx3
  have ht3 := toFloat_of_bound _ 3 (small_power_le _ (by norm_num)) hx3 (by norm_num)
  rw [abs_le] at hs3
  -- the sum
  have hx4 : |roundBinary32 p + roundBinary32 ((a : ℚ) * roundBinary32
      (roundBinary32 (roundBinary32 q - roundBinary32 p) / (d : ℚ)))| ≤ 2 := by
    rw [abs_le]
    constructor <;>
      linarith [hstep1.1, hstep1.2, hstep2.1, hstep2.2, hs3.1, hs3.2, hpR.1, hpR.2]
  have hs4 := roundBinary32_close _ 2 (small_power_le _ (by norm_num)) hx4
  have ht4 := toFloat_of_bound _ 2 (small_power_le _ (by norm_num)) hx4 (by norm_num)
  rw [abs_le] at hs4
  refine ⟨roundBinary32 (roundBinary32 p + roundBinary32 ((a : ℚ) * roundBinary32
      (roundBinary32 (roundBinary32 q - roundBinary32 p) / (d : ℚ)))), ?_, ?_⟩
  · unfold interpolate floatDiv
    rw [ht1, Option.some_bind, if_neg (by omega), hdR, ht2, Option.some_bind, haR, ht3,
      Option.some_bind, ht4]
  · rw [abs_le]
    constructor <;>
      linarith [hstep1.1, hstep1.2, hstep2.1, hstep2.2, hs3.1, hs3.2, hpR.1, hpR.2,
        hs4.1, hs4.2]

/-- At progress 0 the binary32 interpolation returns the first intensity as stored in
binary32, whatever the second intensity and the time span. -/
theorem interpolate_at_waypoint (p q : ℚ) (d : Int) (hp0 : 0 ≤ p) (hp1 : p ≤ 1)
    (hq0 : 0 ≤ q) (hq1 : q ≤ 1) (hd : 0 < d) (hd2 : d < 16777216) :
    interpolate p q 0 d = some (roundBinary32 p) := by
  have hd' : (0 : ℚ) < (d : ℚ) := by exact_mod_cast hd
  have hpR := roundBinary32_close p 1 (small_power_le _ (by norm_num))
    (by rw [abs_le]; constructor <;> linarith)
  have hqR := roundBinary32_close q 1 (small_power_le _ (by norm_num))
    (by rw [abs_le]; constructor <;> linarith)
  rw [abs_le] at hpR hqR
  have hx1 : |roundBinary32 q - roundBinary32 p| ≤ 2 := by
    rw [abs_le]; constructor <;> linarith [hpR.1, hpR.2, hqR.1, hqR.2]
  have hs1 := roundBinary32_close _ 2 (small_power_le _ (by norm_num)) hx1
  have ht1 := toFloat_of_bound _ 2 (small_power_le _ (by norm_num)) hx1 (by norm_num)
  rw [abs_le] at hs1 hx1
  have hs1b : |roundBinary32 (roundBinary32 q - roundBinary32 p)| ≤ 2 := by
    rw [abs_le]; constructor <;> linarith [hpR.1, hpR.2, hqR.1, hqR.2, hs1.1, hs1.2]
  have hdR : roundBinary32 (d : ℚ) = (d : ℚ) :=
    roundBinary32_intCast d (by rw [abs_lt]; constructor <;> omega)
  have hB2 : (2 : ℚ) ^ (-126 : Int) ≤ 2 / (d : ℚ) := by
    apply small_power_le
    have hd2' : (d : ℚ) < 16777216 := by exact_mod_cast hd2
    rw [div_le_div_iff₀ (by norm_num) hd']
    linarith
  have hx2 : |roundBinary32 (roundBinary32 q - roundBinary32 p) / (d : ℚ)| ≤ 2 / (d : ℚ) := by
    rw [abs_div, abs_of_pos hd']
    exact div_le_div_of_nonneg_right hs1b (le_of_lt hd')
  have ht2 := toFloat_of_bound _ _ hB2 hx2 (by
    rw [div_le_iff₀ hd']
    have : (1 : ℚ) ≤ (d : ℚ) := by exact_mod_cast hd
    linarith)
  have hx4 : |roundBinary32 p| ≤ 2 := by
    rw [abs_le]; constructor <;> linarith [hpR.1, hpR.2]
  have ht4 := toFloat_of_bound _ 2 (small_power_le _ (by norm_num)) hx4 (by norm_num)
  unfold interpolate floatDiv
  rw [ht1, Option.some_bind, if_neg (by omega), hdR, ht2, Option.some_bind, Int.cast_zero,
    roundBinary32_zero, zero_mul, toFloat_zero, Option.some_bind, add_zero, ht4,
    roundBinary32_idem]

/-- The fade correction and the binary32 level product of an intensity `y` that is within
`2 ^ -20` of an exact intensity `i` of `[0, 1]`: both finite, the corrected intensity within
`2 ^ -18` of `fade(i)` and the product within `1 / 512` of `255 * fade(i)`. -/
theorem level_close (ch : Channel) (y i : ℚ) (hi0 : 0 ≤ i) (hi1 : i ≤ 1)
    (hy : |y - i| ≤ 1 / 1048576) :
    ∃ c z, ch.CorrectForFadeMode y = some c ∧ toFloat (255 * c) = some z ∧
      |c - fadeCurve ch._fadeMode i| ≤ 1 / 262144 ∧
      |z - 255 * fadeCurve ch._fadeMode i| ≤ 1 / 512 := by
  rw [abs_le] at hy
  have hlast : ∀ c f : ℚ, 0 ≤ f → f ≤ 1 → |c - f| ≤ 1 / 262144 →
      toFloat (255 * c) = some (roundBinary32 (255 * c)) ∧
      |roundBinary32 (255 * c) - 255 * f| ≤ 1 / 512 := by
    intro c f hf0 hf1 hcf
    rw [abs_le] at hcf
    have hb : |255 * c| ≤ 256 := by
      rw [abs_le]; constructor <;> linarith [hcf.1, hcf.2]
    have h1 := roundBinary32_close _ 256 (small_power_le _ (by norm_num)) hb
    have h2 := toFloat_of_bound _ 256 (small_power_le _ (by norm_num)) hb (by norm_num)
    rw [abs_le] at h1
    refine ⟨h2, ?_⟩
    rw [abs_le]
    constructor <;> linarith [hcf.1, hcf.2, h1.1, h1.2]
  cases hm : ch._fadeMode with
  | fademode_linear =>
    have hc : ch.CorrectForFadeMode y = some y := by
      unfold Channel.CorrectForFadeMode
      rw [hm]
    have hcl : |y - i| ≤ 1 / 262144 := by
      rw [abs_le]; constructor <;> linarith [hy.1, hy.2]
    obtain ⟨a1, a2⟩ := hlast y i hi0 hi1 hcl
    exact ⟨y, _, hc, a1, hcl, a2⟩
  | fademode_exponential =>
    have hsq : |y * y - i * i| ≤ 3 / 1048576 := by
      rw [abs_le]
      constructor <;> nlinarith [hy.1, hy.2]
    rw [abs_le] at hsq
    have hb : |y * y| ≤ 2 := by
      rw [abs_le]; constructor <;> nlinarith [hsq.1, hsq.2]
    have h1 := roundBinary32_close _ 2 (small_power_le _ (by norm_num)) hb
    have h2 := toFloat_of_bound _ 2 (small_power_le _ (by norm_num)) hb (by norm_num)
    rw [abs_le] at h1
    have hc : ch.CorrectForFadeMode y = some (roundBinary32 (y * y)) := by
      unfold Channel.CorrectForFadeMode
      rw [hm]
      exact h2
    have hcl : |roundBinary32 (y * y) - i * i| ≤ 1 / 262144 := by
      rw [abs_le]; constructor <;> linarith [hsq.1, hsq.2, h1.1, h1.2]
    obtain ⟨a1, a2⟩ := hlast (roundBinary32 (y * y)) (i * i) (mul_nonneg hi0 hi0)
      (by nlinarith) hcl
    exact ⟨_, _, hc, a1, hcl, a2⟩

theorem fadeCurve_bounds (mode : FadeMode) (i : ℚ) (h0 : 0 ≤ i) (h1 : i ≤ 1) :
    0 ≤ fadeCurve mode i ∧ fadeCurve mode i ≤ 1 := by
  cases mode
  · exact ⟨h0, h1⟩
  · exact ⟨mul_nonneg h0 h0, by
      show i * i ≤ 1
      nlinarith⟩

/-- Truncation of a float of `(-1, 256)` gives a level of `[0, 255]`. -/
theorem floatToInt_range (z : ℚ) (h0 : -1 < z) (h1 : z < 256) :
    0 ≤ floatToInt z ∧ floatToInt z ≤ 255 := by
  unfold floatToInt
  split_ifs with hz
  · constructor
    · exact Int.floor_nonneg.mpr hz
    · have h := Int.floor_le z
      have h2 : ((Int.floor z : Int) : ℚ) < ((256 : Int) : ℚ) := by
        push_cast
        linarith
      have h3 : Int.floor z < 256 := by exact_mod_cast h2
      omega
  · have hz' : z < 0 := not_le.mp hz
    have hc1 : Int.ceil z ≤ 0 := by
      rw [Int.ceil_le]
      push_cast
      linarith
    have hc2 : -1 < Int.ceil z := by
      rw [Int.lt_ceil]
      push_cast
      linarith
    omega

/-- The query on a channel whose search ends in `ch1`, in terms of the float values
computed on the final bracket. -/
theorem query_of_search (fuel : Nat) (ch ch1 : Channel) (t : Int) (y c z : ℚ)
    (hgo : ch.GoToCurrentPosition fuel t = some ch1)
    (hy : ch1.currentIntensity t = some y) (hc : ch1.CorrectForFadeMode y = some c)
    (hz : toFloat (255 * c) = some z) :
    ch.GetLightIntensityInt fuel t =
      some ({ ch1 with _lightValue := floatToInt z }, floatToInt z) := by
  have hst : ch1.storeLightValue t = some { ch1 with _lightValue := floatToInt z } := by
    unfold Channel.storeLightValue
    rw [hy]
    dsimp only
    rw [hc]
    dsimp only
    rw [hz]
  simp only [Channel.GetLightIntensityInt, Channel.UpdateCurrentLightValue, hgo, hst]

theorem correctForFadeMode_linear (ch : Channel)
    (h : ch._fadeMode = FadeMode.fademode_linear) (x : ℚ) :
    ch.CorrectForFadeMode x = some x := by
  unfold Channel.CorrectForFadeMode
  rw [h]

theorem correctForFadeMode_exponential (ch : Channel)
    (h : ch._fadeMode = FadeMode.fademode_exponential) (x : ℚ) :
    ch.CorrectForFadeMode x = toFloat (x * x) := by
  unfold Channel.CorrectForFadeMode
  rw [h]

theorem succPos_of_lt (ch : Channel) (c : Int) (h : c < ch._length) :
    ch.succPos c = c + 1 := by
  unfold Channel.succPos
  rw [if_pos h]

theorem succPos_of_ge (ch : Channel) (c : Int) (h : ch._length ≤ c) :
    ch.succPos c = 1 := by
  unfold Channel.succPos
  rw [if_neg (by omega)]

/-- With strictly increasing times in slots `1..length`, the only cyclically adjacent pair
that brackets a time of `[time(i), time(i+1))`, `i < length`, is `(i, i + 1)`. -/
theorem bracket_unique_of_increasing (ch : Channel) (i t : Int)
    (hinc : ∀ j, 1 ≤ j → j < ch._length →
      (ch._storage j).GetTimeSeconds < (ch._storage (j + 1)).GetTimeSeconds)
    (hi1 : 1 ≤ i) (hi2 : i < ch._length)
    (ht1 : (ch._storage i).GetTimeSeconds ≤ t)
    (ht2 : t < (ch._storage (i + 1)).GetTimeSeconds) :
    ∀ j, 1 ≤ j → j ≤ ch._length →
      Channel.inBracket (ch._storage j) (ch._storage (ch.succPos j)) t = true → j = i := by
  have hmono : ∀ a b : Int, 1 ≤ a → a ≤ b → b ≤ ch._length →
      (ch._storage a).GetTimeSeconds ≤ (ch._storage b).GetTimeSeconds := by
    intro a b ha hab hb
    exact mono_of_adjacent (fun j => (ch._storage j).GetTimeSeconds) ch._length
      (fun j h1 h2 => le_of_lt (hinc j h1 h2)) (b - a).toNat a b ha (by omega) hb
  intro j hj1 hj2 hb
  rw [inBracket_iff] at hb
  by_cases hjn : j < ch._length
  · rw [succPos_of_lt ch j hjn] at hb
    have hj := hinc j hj1 hjn
    rcases hb with ⟨b1, b2⟩ | ⟨_, b2⟩ | ⟨_, _, b3⟩
    · by_contra hne
      rcases lt_or_gt_of_ne hne with hlt | hgt
      · have := hmono (j + 1) i (by omega) (by omega) (by omega)
        omega
      · have := hmono (i + 1) j (by omega) (by omega) (by omega)
        omega
    · omega
    · omega
  · have hjn' : j = ch._length := by omega
    rw [succPos_of_ge ch j (by omega)] at hb
    have h1 := hmono 1 i (le_refl _) hi1 (by omega)
    have h2 := hmono (i + 1) j (by omega) (by omega) hj2
    rcases hb with ⟨b1, _⟩ | ⟨b1, _⟩ | ⟨_, b2, _⟩ <;> omega

theorem valid_bounds (p : Point) (h : p.IsValid = true) :
    0 ≤ p.GetTimeSeconds ∧ p.GetTimeSeconds < 86400 ∧ 0 ≤ p.GetIntensity ∧
      p.GetIntensity ≤ 1 := by
  simp only [Point.IsValid, Bool.and_eq_true, decide_eq_true_eq, ge_iff_le] at h
  obtain ⟨⟨⟨h1, h2⟩, h3⟩, h4⟩ := h
  unfold Point.GetTimeSeconds Point.GetIntensity
  refine ⟨by omega, by omega, h3, h4⟩


/-! ## Linear interpolation -/

theorem toFloat_eval (x v : ℚ) (h : roundBinary32 x = v) (hb : |v| < (2 : ℚ) ^ (128 : Nat)) :
    toFloat x = some v := by
  unfold toFloat
  rw [h, if_pos hb]

/-- The binary32 interpolation from intensity `197/255` to `0` at progress 71827 of a span
of 86280 seconds. -/
theorem interpolate_example :
    interpolate (197 / 255) 0 71827 86280 = some (2171169 / 16777216) := by
  have r1 : roundBinary32 (197 / 255) = (6480611 / 8388608 : ℚ) := by
    rw [roundBinary32_eq_pos _ (-1) 12961222 (by decide) (by norm_num) (by norm_num) (by norm_num)
      (by norm_num)]
    norm_num
  have r2 : roundBinary32 (0 - (6480611 / 8388608 : ℚ)) = (-(6480611 / 8388608) : ℚ) := by
    rw [roundBinary32_eq_neg _ (-1) (-12961222) (by decide) (by norm_num) (by norm_num) (by norm_num)
      (by norm_num)]
    norm_num
  have r3 : roundBinary32 ((-(6480611 / 8388608) : ℚ) / 86280) = (-(9845001 / 1099511627776) : ℚ) := by
    rw [roundBinary32_eq_neg _ (-17) (-9845001) (by decide) (by norm_num) (by norm_num) (by norm_num)
      (by norm_num)]
    norm_num
  have r4 : roundBinary32 (71827 * (-(9845001 / 1099511627776) : ℚ)) = (-(10790053 / 16777216) : ℚ) := by
    rw [roundBinary32_eq_neg _ (-1) (-10790053) (by decide) (by norm_num) (by norm_num) (by norm_num)
      (by norm_num)]
    norm_num
  have r5 : roundBinary32 ((6480611 / 8388608 : ℚ) + (-(10790053 / 16777216) : ℚ)) = (2171169 / 16777216 : ℚ) := by
    rw [roundBinary32_eq_pos _ (-3) 8684676 (by decide) (by norm_num) (by norm_num) (by norm_num)
      (by norm_num)]
    norm_num
  have rd : roundBinary32 (((86280 : Int) : ℚ)) = 86280 := by
    rw [roundBinary32_intCast 86280 (by decide)]
    norm_num
  have ra : roundBinary32 (((71827 : Int) : ℚ)) = 71827 := by
    rw [roundBinary32_intCast 71827 (by decide)]
    norm_num
  unfold interpolate floatDiv
  rw [roundBinary32_zero, r1, toFloat_eval _ _ r2 (by norm_num [abs_lt]), Option.some_bind,
    if_neg (by decide), rd, toFloat_eval _ _ r3 (by norm_num [abs_lt]), Option.some_bind,
    ra, toFloat_eval _ _ r4 (by norm_num [abs_lt]), Option.some_bind,
    toFloat_eval _ _ r5 (by norm_num [abs_lt])]

/-- The binary32 level product of that intensity and its truncation. -/
theorem level_example :
    toFloat (255 * (2171169 / 16777216)) = some (8650751 / 262144) ∧
    floatToInt (8650751 / 262144) = 32 := by
  have r6 : roundBinary32 (255 * (2171169 / 16777216 : ℚ)) = (8650751 / 262144 : ℚ) := by
    rw [roundBinary32_eq_pos _ 5 8650751 (by decide) (by norm_num) (by norm_num) (by norm_num)
      (by norm_num)]
    norm_num
  refine ⟨toFloat_eval _ _ r6 (by norm_num [abs_lt]), ?_⟩
  unfold floatToInt
  rw [if_pos (by norm_num), Int.floor_eq_iff]
  constructor <;> norm_num

/-- In a state whose cached waypoints carry intensities of `[0, 1]`, with a positive time
span below `2 ^ 24` and a progress in `[0, timeDiff)`, the three binary32 stages of
`UpdateCurrentLightValue` all produce a value: the interpolated intensity within `2 ^ -20`
of the exact blend, the corrected intensity within `2 ^ -18` of the fade curve of the blend,
and the level product within `1 / 512` of 255 times that; the blend lies in `[0, 1]`. -/
theorem stages_close (ch1 : Channel) (t : Int)
    (hp0 : 0 ≤ ch1._previous.GetIntensity) (hp1 : ch1._previous.GetIntensity ≤ 1)
    (hq0 : 0 ≤ ch1._next.GetIntensity) (hq1 : ch1._next.GetIntensity ≤ 1)
    (hd : 0 < ch1.timeDiff) (hd2 : ch1.timeDiff < 16777216)
    (ha0 : 0 ≤ ch1.progress t) (ha1 : ch1.progress t < ch1.timeDiff) :
    ∃ y c z, ch1.currentIntensity t = some y ∧ ch1.CorrectForFadeMode y = some c ∧
      toFloat (255 * c) = some z ∧
      |y - (ch1._previous.GetIntensity +
          (ch1.progress t : ℚ) * ((ch1._next.GetIntensity - ch1._previous.GetIntensity) /
            (ch1.timeDiff : ℚ)))| ≤ 1 / 1048576 ∧
      |c - fadeCurve ch1._fadeMode (ch1._previous.GetIntensity +
          (ch1.progress t : ℚ) * ((ch1._next.GetIntensity - ch1._previous.GetIntensity) /
            (ch1.timeDiff : ℚ)))| ≤ 1 / 262144 ∧
      |z - 255 * fadeCurve ch1._fadeMode (ch1._previous.GetIntensity +
          (ch1.progress t : ℚ) * ((ch1._next.GetIntensity - ch1._previous.GetIntensity) /
            (ch1.timeDiff : ℚ)))| ≤ 1 / 512 ∧
      0 ≤ ch1._previous.GetIntensity +
          (ch1.progress t : ℚ) * ((ch1._next.GetIntensity - ch1._previous.GetIntensity) /
            (ch1.timeDiff : ℚ)) ∧
      ch1._previous.GetIntensity +
          (ch1.progress t : ℚ) * ((ch1._next.GetIntensity - ch1._previous.GetIntensity) /
            (ch1.timeDiff : ℚ)) ≤ 1 := by
  obtain ⟨y, hy, hclose⟩ := interpolate_close _ _ _ _ hp0 hp1 hq0 hq1 hd ha0 ha1 hd2
  obtain ⟨b0, b1⟩ := blend_bounds _ _ _ _ hp0 hp1 hq0 hq1 hd ha0 ha1
  obtain ⟨c, z, hc, hz, hcc, hzc⟩ := level_close ch1 y _ b0 b1 hclose
  exact ⟨y, c, z, hy, hc, hz, hclose, hcc, hzc, b0, b1⟩

theorem roundingChannel_length : roundingChannel._length = 2 := by
  simp [roundingChannel, Channel.AddPoint, Channel.SetPoint, Channel.init]

theorem roundingChannel_search :
    roundingChannel.GoToCurrentPosition 2 71827 = some roundingChannel.MoveForward := by
  have hf1 : roundingChannel.bracketFound 71827 = false := by
    simp [Channel.bracketFound, Channel.inBracket, roundingChannel, Channel.AddPoint,
      Channel.SetPoint, Channel.init, Point.ofHM, Point.GetTimeSeconds, toByte]
  have hf2 : roundingChannel.MoveForward.bracketFound 71827 = true := by
    simp [Channel.bracketFound, Channel.inBracket, Channel.MoveForward, roundingChannel,
      Channel.AddPoint, Channel.SetPoint, Channel.init, Point.ofHM, Point.GetTimeSeconds,
      toByte]
  unfold Channel.GoToCurrentPosition
  rw [if_neg (by rw [roundingChannel_length]; decide), searchLoop_succ_of_not 1 _ _ hf1]
  exact searchLoop_of_found 1 _ _ hf2

theorem roundingChannel_query :
    roundingChannel.GetLightIntensityInt 2 71827 =
      some ({ roundingChannel.MoveForward with _lightValue := 32 }, 32) := by
  have hy : roundingChannel.MoveForward.currentIntensity 71827
      = some (2171169 / 16777216) := by
    have hd : roundingChannel.MoveForward.timeDiff = 86280 := by
      simp [Channel.timeDiff, Channel.MoveForward, roundingChannel, Channel.AddPoint,
        Channel.SetPoint, Channel.init, Point.ofHM, Point.GetTimeSeconds, toByte]
    have hpr : roundingChannel.MoveForward.progress 71827 = 71827 := by
      simp [Channel.progress, Channel.MoveForward, roundingChannel, Channel.AddPoint,
        Channel.SetPoint, Channel.init, Point.ofHM, Point.GetTimeSeconds, toByte]
    have hp : roundingChannel.MoveForward._previous.GetIntensity = 197 / 255 := by
      simp [Channel.MoveForward, roundingChannel, Channel.AddPoint, Channel.SetPoint,
        Channel.init, Point.ofHM, Point.GetIntensity]
    have hx : roundingChannel.MoveForward._next.GetIntensity = 0 := by
      simp [Channel.MoveForward, roundingChannel, Channel.AddPoint, Channel.SetPoint,
        Channel.init, Point.ofHM, Point.GetIntensity]
    unfold Channel.currentIntensity
    rw [hd, hpr, hp, hx]
    exact interpolate_example
  have hc : roundingChannel.MoveForward.CorrectForFadeMode (2171169 / 16777216)
      = some (2171169 / 16777216) :=
    correctForFadeMode_linear _ (by
      simp [Channel.MoveForward, roundingChannel, Channel.AddPoint, Channel.SetPoint,
        Channel.init]) _
  have hq := query_of_search 2 roundingChannel roundingChannel.MoveForward 71827 _ _ _
    roundingChannel_search hy hc level_example.1
  rw [level_example.2] at hq
  exact hq

/-- C1, counterexample: `roundingChannel` (linear; 0:00 at raw level 197, 23:58 at raw
level 0, provisioned by `AddPoint`, caches in sync) meets every premise of the claim at
`i = 1`, `t = 71827`, and the query returns 32, while 255 times the interpolated
intensity of the claim is `2847241 / 86280`, a little above 33: the binary32 arithmetic of
the code yields a product just below 33, which the conversion truncates to 32, more than
1 away. -/
theorem linear_interpolation_binary32_rounding :
    roundingChannel._fadeMode = FadeMode.fademode_linear ∧ roundingChannel._length = 2 ∧
    (roundingChannel._storage 1).IsValid = true ∧
    (roundingChannel._storage 2).IsValid = true ∧
    (roundingChannel._storage 1).GetTimeSeconds < (roundingChannel._storage 2).GetTimeSeconds ∧
    roundingChannel.CachesInSync ∧
    (roundingChannel._storage 1).GetTimeSeconds ≤ 71827 ∧
    71827 < (roundingChannel._storage 2).GetTimeSeconds ∧
    (roundingChannel.GetLightIntensityInt 2 71827).map Prod.snd = some 32 ∧
    255 * ((roundingChannel._storage 1).GetIntensity +
          ((71827 - (roundingChannel._storage 1).GetTimeSeconds : Int) : ℚ) /
            (((roundingChannel._storage (1 + 1)).GetTimeSeconds
              - (roundingChannel._storage 1).GetTimeSeconds : Int) : ℚ)
          * ((roundingChannel._storage (1 + 1)).GetIntensity
              - (roundingChannel._storage 1).GetIntensity)) = 2847241 / 86280 ∧
    ¬ |((32 : Int) : ℚ) - 2847241 / 86280| ≤ 1 := by
  refine ⟨?_, roundingChannel_length, ?_, ?_, ?_, ?_, ?_, ?_, ?_, ?_, ?_⟩
  · simp [roundingChannel, Channel.AddPoint, Channel.SetPoint, Channel.init]
  · simp [roundingChannel, Channel.AddPoint, Channel.SetPoint, Channel.init, Point.ofHM,
      Point.IsValid, toByte]
    norm_num
  · simp [roundingChannel, Channel.AddPoint, Channel.SetPoint, Channel.init, Point.ofHM,
      Point.IsValid, toByte]
  · simp [roundingChannel, Channel.AddPoint, Channel.SetPoint, Channel.init, Point.ofHM,
      Point.GetTimeSeconds, toByte]
  · simp [Channel.CachesInSync, Channel.succPos, roundingChannel, Channel.AddPoint,
      Channel.SetPoint, Channel.init]
  · simp [roundingChannel, Channel.AddPoint, Channel.SetPoint, Channel.init, Point.ofHM,
      Point.GetTimeSeconds, toByte]
  · simp [roundingChannel, Channel.AddPoint, Channel.SetPoint, Channel.init, Point.ofHM,
      Point.GetTimeSeconds, toByte]
  · rw [roundingChannel_query]
    rfl
  · simp [roundingChannel, Channel.AddPoint, Channel.SetPoint, Channel.init, Point.ofHM,
      Point.GetTimeSeconds, Point.GetIntensity, toByte]
    norm_num
  · rw [abs_le]
    norm_num

/-- C1, amended: linear fade mode, slots `1..length` (`length ≥ 2`) valid with strictly
increasing times, caches in sync or just reset, and `t` in `[time(i), time(i+1))` for some
`1 ≤ i < length`: the query ends (for every fuel of at least `length` advances) and
returns a level within `1 + 1/500` of
`255 * (intensity(i) + (t - time(i)) / (time(i+1) - time(i)) * (intensity(i+1) - intensity(i)))`;
the level is the truncation of a binary32 product that is within `1/512` of that value. -/
theorem linear_interpolation_no_wrap (ch : Channel) (i t : Int)
    (hlin : ch._fadeMode = FadeMode.fademode_linear) (hn : 2 ≤ ch._length)
    (hvalid : ∀ j, 1 ≤ j → j ≤ ch._length → (ch._storage j).IsValid = true)
    (hinc : ∀ j, 1 ≤ j → j < ch._length →
      (ch._storage j).GetTimeSeconds < (ch._storage (j + 1)).GetTimeSeconds)
    (hp : ch.Provisioned) (hi1 : 1 ≤ i) (hi2 : i < ch._length)
    (ht1 : (ch._storage i).GetTimeSeconds ≤ t)
    (ht2 : t < (ch._storage (i + 1)).GetTimeSeconds) :
    ∃ ch' v, (∀ fuel : Nat, ch._length.toNat ≤ fuel →
        ch.GetLightIntensityInt fuel t = some (ch', v)) ∧
      (∃ z : ℚ, v = floatToInt z ∧
        |z - 255 * ((ch._storage i).GetIntensity +
          ((t - (ch._storage i).GetTimeSeconds : Int) : ℚ) /
            (((ch._storage (i + 1)).GetTimeSeconds - (ch._storage i).GetTimeSeconds : Int) : ℚ)
          * ((ch._storage (i + 1)).GetIntensity - (ch._storage i).GetIntensity))| ≤ 1 / 512) ∧
      |(v : ℚ) - 255 * ((ch._storage i).GetIntensity +
          ((t - (ch._storage i).GetTimeSeconds : Int) : ℚ) /
            (((ch._storage (i + 1)).GetTimeSeconds - (ch._storage i).GetTimeSeconds : Int) : ℚ)
          * ((ch._storage (i + 1)).GetIntensity - (ch._storage i).GetIntensity))|
        ≤ 1 + 1 / 500 := by
  have hsucc : ch.succPos i = i + 1 := succPos_of_lt ch i hi2
  have hb : Channel.inBracket (ch._storage i) (ch._storage (ch.succPos i)) t = true := by
    rw [inBracket_iff, hsucc]
    exact Or.inl ⟨ht1, ht2⟩
  obtain ⟨ch1, r1, _, r3, r4, r5, _, _⟩ :=
    search_unique ch t i hp hn hi1 (le_of_lt hi2) hb
      (bracket_unique_of_increasing ch i t hinc hi1 hi2 ht1 ht2)
  rw [hsucc] at r4
  obtain ⟨p1, p2, p3, p4⟩ := valid_bounds _ (hvalid i hi1 (le_of_lt hi2))
  obtain ⟨x1, x2, x3, x4⟩ := valid_bounds _ (hvalid (i + 1) (by omega) (by omega))
  have hdiff : ch1.timeDiff =
      (ch._storage (i + 1)).GetTimeSeconds - (ch._storage i).GetTimeSeconds := by
    unfold Channel.timeDiff
    rw [r3, r4, if_neg (by omega)]
  have hprog : ch1.progress t = t - (ch._storage i).GetTimeSeconds := by
    unfold Channel.progress
    rw [r3, if_pos (by omega)]
  obtain ⟨y, c, z, hy, hc, hz, -, -, hzc, -, -⟩ := stages_close ch1 t
    (by rw [r3]; exact p3) (by rw [r3]; exact p4) (by rw [r4]; exact x3)
    (by rw [r4]; exact x4) (by rw [hdiff]; omega) (by rw [hdiff]; omega)
    (by rw [hprog]; omega) (by rw [hprog, hdiff]; omega)
  refine ⟨_, _, fun fuel hfuel => query_of_search fuel ch ch1 t y c z (r1 fuel hfuel) hy hc hz,
    ?_⟩
  have e : ((t - (ch._storage i).GetTimeSeconds : Int) : ℚ) /
        (((ch._storage (i + 1)).GetTimeSeconds - (ch._storage i).GetTimeSeconds : Int) : ℚ)
        * ((ch._storage (i + 1)).GetIntensity - (ch._storage i).GetIntensity)
      = ((t - (ch._storage i).GetTimeSeconds : Int) : ℚ) *
        (((ch._storage (i + 1)).GetIntensity - (ch._storage i).GetIntensity) /
          (((ch._storage (i + 1)).GetTimeSeconds - (ch._storage i).GetTimeSeconds : Int) : ℚ))
      := by ring
  have hf : fadeCurve ch1._fadeMode = fun x => x := by
    rw [r5, hlin]
    rfl
  rw [hf, hdiff, hprog, r3, r4] at hzc
  dsimp only at hzc
  rw [e]
  have key := floatToInt_within z
  refine ⟨⟨z, rfl, hzc⟩, ?_⟩
  rw [abs_lt] at key
  rw [abs_le] at hzc ⊢
  constructor <;> linarith [hzc.1, hzc.2, key.1, key.2]

theorem dayChannel_length : dayChannel._length = 5 := by
  simp [dayChannel, Channel.AddPoint, Channel.SetPoint, Channel.init]

theorem linear_interpolation_no_wrap_witness :
    ∃ ch' v, (∀ fuel : Nat, 5 ≤ fuel →
        dayChannel.GetLightIntensityInt fuel 25200 = some (ch', v)) ∧
      (v = 127 ∨ v = 128) := by
  obtain ⟨ch', v, h1, -, h2⟩ := linear_interpolation_no_wrap dayChannel 2 25200
    (by simp [dayChannel, Channel.AddPoint, Channel.SetPoint, Channel.init])
    (by rw [dayChannel_length]; decide)
    (by
      intro j hj1 hj2
      rw [dayChannel_length] at hj2
      interval_cases j <;>
        simp [dayChannel, Channel.AddPoint, Channel.SetPoint, Channel.init, Point.ofHM,
          Point.IsValid, toByte])
    (by
      intro j hj1 hj2
      rw [dayChannel_length] at hj2
      interval_cases j <;>
        simp [dayChannel, Channel.AddPoint, Channel.SetPoint, Channel.init, Point.ofHM,
          Point.GetTimeSeconds, toByte])
    (by
      left
      simp [Channel.CachesInSync, Channel.succPos, dayChannel, Channel.AddPoint,
        Channel.SetPoint, Channel.init])
    (by decide) (by rw [dayChannel_length]; decide)
    (by simp [dayChannel, Channel.AddPoint, Channel.SetPoint, Channel.init, Point.ofHM,
          Point.GetTimeSeconds, toByte])
    (by simp [dayChannel, Channel.AddPoint, Channel.SetPoint, Channel.init, Point.ofHM,
          Point.GetTimeSeconds, toByte])
  refine ⟨ch', v, ?_, ?_⟩
  · intro fuel hfuel
    exact h1 fuel (by rw [dayChannel_length]; exact hfuel)
  · have e : (255 : ℚ) * ((dayChannel._storage 2).GetIntensity +
          ((25200 - (dayChannel._storage 2).GetTimeSeconds : Int) : ℚ) /
            (((dayChannel._storage (2 + 1)).GetTimeSeconds
              - (dayChannel._storage 2).GetTimeSeconds : Int) : ℚ)
          * ((dayChannel._storage (2 + 1)).GetIntensity
              - (dayChannel._storage 2).GetIntensity)) = 255 / 2 := by
      simp [dayChannel, Channel.AddPoint, Channel.SetPoint, Channel.init, Point.ofHM,
          Point.GetTimeSeconds, Point.GetIntensity, toByte]
      norm_num
    rw [e, abs_le] at h2
    obtain ⟨l, u⟩ := h2
    have hl : ((126 : Int) : ℚ) < (v : ℚ) := by push_cast; linarith
    have hu : (v : ℚ) < ((129 : Int) : ℚ) := by push_cast; linarith
    have hl' : (126 : Int) < v := by exact_mod_cast hl
    have hu' : v < (129 : Int) := by exact_mod_cast hu
    omega

/-! ## Midnight wraparound -/

/-- Between two waypoints of intensity 0 the binary32 interpolation is 0. -/
theorem interpolate_flat_zero (a d : Int) (hd : d ≠ 0) : interpolate 0 0 a d = some 0 := by
  unfold interpolate floatDiv
  rw [roundBinary32_zero, sub_zero, toFloat_zero, Option.some_bind, if_neg hd, zero_div,
    toFloat_zero, Option.some_bind, mul_zero, toFloat_zero, Option.some_bind, zero_add,
    toFloat_zero]

theorem floatToInt_zero : floatToInt 0 = 0 := by
  unfold floatToInt
  rw [if_pos (le_refl _), Int.floor_zero]

theorem staleChannel_query :
    staleChannel.GetLightIntensityInt 2 86340 =
      some ({ staleChannel with _lightValue := 0 }, 0) := by
  have hgo : staleChannel.GoToCurrentPosition 2 86340 = some staleChannel := by
    simp [Channel.GoToCurrentPosition, Channel.searchLoop, Channel.bracketFound,
      Channel.inBracket, staleChannel, Channel.AddPoint, Channel.SetPoint, Channel.init,
      Point.ofHM, Point.GetTimeSeconds, toByte]
  have hy : staleChannel.currentIntensity 86340 = some 0 := by
    have hd : staleChannel.timeDiff = 60 := by
      simp [Channel.timeDiff, staleChannel, Channel.AddPoint, Channel.SetPoint, Channel.init,
        Point.ofHM, Point.GetTimeSeconds, toByte]
    have hp : staleChannel._previous.GetIntensity = 0 := by
      simp [staleChannel, Channel.AddPoint, Channel.SetPoint, Channel.init, Point.ofHM,
        Point.GetIntensity]
    have hx : staleChannel._next.GetIntensity = 0 := by
      simp [staleChannel, Channel.AddPoint, Channel.SetPoint, Channel.init, Point.ofHM,
        Point.GetIntensity]
    unfold Channel.currentIntensity
    rw [hd, hp, hx]
    exact interpolate_flat_zero _ 60 (by decide)
  have hc : staleChannel.CorrectForFadeMode 0 = some 0 :=
    correctForFadeMode_linear _ (by
      simp [staleChannel, Channel.AddPoint, Channel.SetPoint, Channel.init]) _
  have hz : toFloat (255 * 0) = some 0 := by
    rw [mul_zero, toFloat_zero]
  have hq := query_of_search 2 staleChannel staleChannel 86340 _ _ _ hgo hy hc hz
  rw [floatToInt_zero] at hq
  exact hq

theorem wrapRoundingChannel_length : wrapRoundingChannel._length = 2 := by
  simp [wrapRoundingChannel, Channel.AddPoint, Channel.SetPoint, Channel.init]

theorem wrapRoundingChannel_search :
    wrapRoundingChannel.GoToCurrentPosition 2 71947 = some wrapRoundingChannel.MoveForward := by
  have hf1 : wrapRoundingChannel.bracketFound 71947 = false := by
    simp [Channel.bracketFound, Channel.inBracket, wrapRoundingChannel, Channel.AddPoint,
      Channel.SetPoint, Channel.init, Point.ofHM, Point.GetTimeSeconds, toByte]
  have hf2 : wrapRoundingChannel.MoveForward.bracketFound 71947 = true := by
    simp [Channel.bracketFound, Channel.inBracket, Channel.MoveForward, wrapRoundingChannel,
      Channel.AddPoint, Channel.SetPoint, Channel.init, Point.ofHM, Point.GetTimeSeconds,
      toByte]
  unfold Channel.GoToCurrentPosition
  rw [if_neg (by rw [wrapRoundingChannel_length]; decide), searchLoop_succ_of_not 1 _ _ hf1]
  exact searchLoop_of_found 1 _ _ hf2

theorem wrapRoundingChannel_query :
    wrapRoundingChannel.GetLightIntensityInt 2 71947 =
      some ({ wrapRoundingChannel.MoveForward with _lightValue := 32 }, 32) := by
  have hy : wrapRoundingChannel.MoveForward.currentIntensity 71947
      = some (2171169 / 16777216) := by
    have hd : wrapRoundingChannel.MoveForward.timeDiff = 86280 := by
      simp [Channel.timeDiff, Channel.MoveForward, wrapRoundingChannel, Channel.AddPoint,
        Channel.SetPoint, Channel.init, Point.ofHM, Point.GetTimeSeconds, toByte]
    have hpr : wrapRoundingChannel.MoveForward.progress 71947 = 71827 := by
      simp [Channel.progress, Channel.MoveForward, wrapRoundingChannel, Channel.AddPoint,
        Channel.SetPoint, Channel.init, Point.ofHM, Point.GetTimeSeconds, toByte]
    have hp : wrapRoundingChannel.MoveForward._previous.GetIntensity = 197 / 255 := by
      simp [Channel.MoveForward, wrapRoundingChannel, Channel.AddPoint, Channel.SetPoint,
        Channel.init, Point.ofHM, Point.GetIntensity]
    have hx : wrapRoundingChannel.MoveForward._next.GetIntensity = 0 := by
      simp [Channel.MoveForward, wrapRoundingChannel, Channel.AddPoint, Channel.SetPoint,
        Channel.init, Point.ofHM, Point.GetIntensity]
    unfold Channel.currentIntensity
    rw [hd, hpr, hp, hx]
    exact interpolate_example
  have hc : wrapRoundingChannel.MoveForward.CorrectForFadeMode (2171169 / 16777216)
      = some (2171169 / 16777216) :=
    correctForFadeMode_linear _ (by
      simp [Channel.MoveForward, wrapRoundingChannel, Channel.AddPoint, Channel.SetPoint,
        Channel.init]) _
  have hq := query_of_search 2 wrapRoundingChannel wrapRoundingChannel.MoveForward 71947 _ _ _
    wrapRoundingChannel_search hy hc level_example.1
  rw [level_example.2] at hq
  exact hq

/-- C2, counterexamples. First, `staleChannel`: a linear channel with length 2 whose valid
slots are 22:00 100% and 2:00 0%, but whose bracket caches are stale, answers the query at
23:59:00 from the stale bracket: the level is 0, more than 1 away from the interpolated
level. Second, `wrapRoundingChannel` (0:02 at raw level 197, 0:00 at raw level 0,
provisioned by `AddPoint`, caches in sync) queried at 71947 s: the bracket is (slot 1,
slot 2), 255 times the interpolated intensity of the claim is `2847241 / 86280`, a little
above 33, and the query returns 32, more than 1 away, because the binary32 product falls
just below 33 and is truncated. -/
theorem midnight_wraparound_counterexamples :
    (staleChannel._fadeMode = FadeMode.fademode_linear ∧ staleChannel._length = 2 ∧
      (staleChannel._storage 1).IsValid = true ∧ (staleChannel._storage 2).IsValid = true ∧
      (staleChannel._storage 2).GetTimeSeconds < (staleChannel._storage 1).GetTimeSeconds ∧
      (staleChannel._storage 1).GetTimeSeconds ≤ 86340 ∧
      (staleChannel.GetLightIntensityInt 2 86340).map Prod.snd = some 0 ∧
      (staleChannel.GetLightIntensityInt 2 86340).map (fun r => r.1._previous)
        ≠ some (staleChannel._storage 1) ∧
      ¬ |(((0 : Int) : ℚ)) - 255 * ((staleChannel._storage 1).GetIntensity +
          ((86340 - (staleChannel._storage 1).GetTimeSeconds : Int) : ℚ) /
            (((staleChannel._storage 2).GetTimeSeconds + 86400
              - (staleChannel._storage 1).GetTimeSeconds : Int) : ℚ)
          * ((staleChannel._storage 2).GetIntensity
              - (staleChannel._storage 1).GetIntensity))| ≤ 1) ∧
    (wrapRoundingChannel._fadeMode = FadeMode.fademode_linear ∧
      wrapRoundingChannel._length = 2 ∧
      (wrapRoundingChannel._storage 1).IsValid = true ∧
      (wrapRoundingChannel._storage 2).IsValid = true ∧
      (wrapRoundingChannel._storage 2).GetTimeSeconds
        < (wrapRoundingChannel._storage 1).GetTimeSeconds ∧
      wrapRoundingChannel.CachesInSync ∧
      (wrapRoundingChannel._storage 1).GetTimeSeconds ≤ 71947 ∧
      (wrapRoundingChannel.GetLightIntensityInt 2 71947).map Prod.snd = some 32 ∧
      (wrapRoundingChannel.GetLightIntensityInt 2 71947).map (fun r => r.1._previous)
        = some (wrapRoundingChannel._storage 1) ∧
      (wrapRoundingChannel.GetLightIntensityInt 2 71947).map (fun r => r.1._next)
        = some (wrapRoundingChannel._storage 2) ∧
      255 * ((wrapRoundingChannel._storage 1).GetIntensity +
          ((71947 - (wrapRoundingChannel._storage 1).GetTimeSeconds : Int) : ℚ) /
            (((wrapRoundingChannel._storage 2).GetTimeSeconds + 86400
              - (wrapRoundingChannel._storage 1).GetTimeSeconds : Int) : ℚ)
          * ((wrapRoundingChannel._storage 2).GetIntensity
              - (wrapRoundingChannel._storage 1).GetIntensity)) = 2847241 / 86280 ∧
      ¬ |((32 : Int) : ℚ) - 2847241 / 86280| ≤ 1) := by
  constructor
  · rw [staleChannel_query]
    refine ⟨?_, ?_, ?_, ?_, ?_, ?_, rfl, ?_, ?_⟩
    · simp [staleChannel, Channel.AddPoint, Channel.SetPoint, Channel.init]
    · simp [staleChannel, Channel.AddPoint, Channel.SetPoint, Channel.init]
    · simp [staleChannel, Channel.AddPoint, Channel.SetPoint, Channel.init, Point.ofHM,
        Point.IsValid, toByte]
    · simp [staleChannel, Channel.AddPoint, Channel.SetPoint, Channel.init, Point.ofHM,
        Point.IsValid, toByte]
    · simp [staleChannel, Channel.AddPoint, Channel.SetPoint, Channel.init, Point.ofHM,
        Point.GetTimeSeconds, toByte]
    · simp [staleChannel, Channel.AddPoint, Channel.SetPoint, Channel.init, Point.ofHM,
        Point.GetTimeSeconds, toByte]
    · simp [staleChannel, Channel.AddPoint, Channel.SetPoint, Channel.init, Point.ofHM, toByte]
    · simp [staleChannel, Channel.AddPoint, Channel.SetPoint, Channel.init, Point.ofHM,
        Point.GetTimeSeconds, Point.GetIntensity, toByte]
      rw [abs_of_pos (by norm_num)]
      norm_num
  · rw [wrapRoundingChannel_query]
    refine ⟨?_, wrapRoundingChannel_length, ?_, ?_, ?_, ?_, ?_, rfl, ?_, ?_, ?_, ?_⟩
    · simp [wrapRoundingChannel, Channel.AddPoint, Channel.SetPoint, Channel.init]
    · simp [wrapRoundingChannel, Channel.AddPoint, Channel.SetPoint, Channel.init,
        Point.ofHM, Point.IsValid, toByte]
      norm_num
    · simp [wrapRoundingChannel, Channel.AddPoint, Channel.SetPoint, Channel.init,
        Point.ofHM, Point.IsValid, toByte]
    · simp [wrapRoundingChannel, Channel.AddPoint, Channel.SetPoint, Channel.init,
        Point.ofHM, Point.GetTimeSeconds, toByte]
    · simp [Channel.CachesInSync, Channel.succPos, wrapRoundingChannel, Channel.AddPoint,
        Channel.SetPoint, Channel.init]
    · simp [wrapRoundingChannel, Channel.AddPoint, Channel.SetPoint, Channel.init,
        Point.ofHM, Point.GetTimeSeconds, toByte]
    · simp [Channel.MoveForward, wrapRoundingChannel, Channel.AddPoint, Channel.SetPoint,
        Channel.init]
    · simp [Channel.MoveForward, wrapRoundingChannel, Channel.AddPoint, Channel.SetPoint,
        Channel.init]
    · simp [wrapRoundingChannel, Channel.AddPoint, Channel.SetPoint, Channel.init,
        Point.ofHM, Point.GetTimeSeconds, Point.GetIntensity, toByte]
      norm_num
    · rw [abs_le]
      norm_num

/-- C2, amended: linear channel with length 2, valid slots with slot 1 later in the day
than slot 2, bracket caches in a provisioned state (in sync or just reset), `t` in
`[0, 86400)` with `t ≥ time(1)` or `t < time(2)`: the query ends (for every fuel of at
least 2 advances) with the bracket (slot 1, slot 2) and returns a level within `1 + 1/500`
of `255 * (intensity(1) + elapsed / span * (intensity(2) - intensity(1)))`,
`span = time(2) + 86400 - time(1)`, `elapsed = t - time(1)` if `t ≥ time(1)`, else
`t + 86400 - time(1)`; the level is the truncation of a binary32 product that is within
`1/512` of that value. -/
theorem midnight_wraparound (ch : Channel) (t : Int)
    (hlin : ch._fadeMode = FadeMode.fademode_linear) (hlen : ch._length = 2)
    (hv1 : (ch._storage 1).IsValid = true) (hv2 : (ch._storage 2).IsValid = true)
    (hlate : (ch._storage 2).GetTimeSeconds < (ch._storage 1).GetTimeSeconds)
    (hp : ch.Provisioned) (ht0 : 0 ≤ t) (ht3 : t < 86400)
    (ht : (ch._storage 1).GetTimeSeconds ≤ t ∨ t < (ch._storage 2).GetTimeSeconds) :
    ∃ ch' v, (∀ fuel : Nat, 2 ≤ fuel → ch.GetLightIntensityInt fuel t = some (ch', v)) ∧
      ch'._previous = ch._storage 1 ∧ ch'._next = ch._storage 2 ∧
      (∃ z : ℚ, v = floatToInt z ∧
        |z - 255 * ((ch._storage 1).GetIntensity +
          (((if (ch._storage 1).GetTimeSeconds ≤ t then t - (ch._storage 1).GetTimeSeconds
              else t + 86400 - (ch._storage 1).GetTimeSeconds : Int)) : ℚ) /
            (((ch._storage 2).GetTimeSeconds + 86400 - (ch._storage 1).GetTimeSeconds : Int) : ℚ)
          * ((ch._storage 2).GetIntensity - (ch._storage 1).GetIntensity))| ≤ 1 / 512) ∧
      |(v : ℚ) - 255 * ((ch._storage 1).GetIntensity +
          (((if (ch._storage 1).GetTimeSeconds ≤ t then t - (ch._storage 1).GetTimeSeconds
              else t + 86400 - (ch._storage 1).GetTimeSeconds : Int)) : ℚ) /
            (((ch._storage 2).GetTimeSeconds + 86400 - (ch._storage 1).GetTimeSeconds : Int) : ℚ)
          * ((ch._storage 2).GetIntensity - (ch._storage 1).GetIntensity))| ≤ 1 + 1 / 500 := by
  have hsucc1 : ch.succPos 1 = 2 := by
    rw [succPos_of_lt ch 1 (by omega)]; rfl
  have hsucc2 : ch.succPos 2 = 1 := succPos_of_ge ch 2 (by omega)
  have hb : Channel.inBracket (ch._storage 1) (ch._storage (ch.succPos 1)) t = true := by
    rw [inBracket_iff, hsucc1]
    rcases ht with h | h
    · exact Or.inr (Or.inl ⟨h, hlate⟩)
    · exact Or.inr (Or.inr ⟨by omega, h, hlate⟩)
  have huniq : ∀ j, 1 ≤ j → j ≤ ch._length →
      Channel.inBracket (ch._storage j) (ch._storage (ch.succPos j)) t = true → j = 1 := by
    intro j hj1 hj2 hj
    by_contra hne
    have hj' : j = 2 := by omega
    rw [hj', hsucc2, inBracket_iff] at hj
    omega
  obtain ⟨ch1, r1, _, r3, r4, r5, _, _⟩ :=
    search_unique ch t 1 hp (by omega) (le_refl _) (by omega) hb huniq
  rw [hsucc1] at r4
  obtain ⟨p1, p2, p3, p4⟩ := valid_bounds _ hv1
  obtain ⟨x1, x2, x3, x4⟩ := valid_bounds _ hv2
  have hdiff : ch1.timeDiff =
      (ch._storage 2).GetTimeSeconds + 86400 - (ch._storage 1).GetTimeSeconds := by
    unfold Channel.timeDiff
    rw [r3, r4, if_pos (by omega)]
    rfl
  have hprog : ch1.progress t =
      if (ch._storage 1).GetTimeSeconds ≤ t then t - (ch._storage 1).GetTimeSeconds
      else t + 86400 - (ch._storage 1).GetTimeSeconds := by
    unfold Channel.progress
    rw [r3]
    rfl
  have hpr0 : 0 ≤ ch1.progress t := by
    rw [hprog]
    split_ifs <;> omega
  have hpr1 : ch1.progress t < ch1.timeDiff := by
    rw [hprog, hdiff]
    split_ifs <;> omega
  obtain ⟨y, c, z, hy, hc, hz, -, -, hzc, -, -⟩ := stages_close ch1 t
    (by rw [r3]; exact p3) (by rw [r3]; exact p4) (by rw [r4]; exact x3)
    (by rw [r4]; exact x4) (by rw [hdiff]; omega) (by rw [hdiff]; omega) hpr0 hpr1
  refine ⟨_, _, fun fuel hfuel =>
    query_of_search fuel ch ch1 t y c z (r1 fuel (by rw [hlen]; exact hfuel)) hy hc hz,
    r3, r4, ?_⟩
  have e : ∀ a b c : ℚ, a / c * b = a * (b / c) := by
    intro a b c; ring
  have hf : fadeCurve ch1._fadeMode = fun x => x := by
    rw [r5, hlin]
    rfl
  rw [hf, hdiff, hprog, r3, r4] at hzc
  dsimp only at hzc
  rw [e]
  have key := floatToInt_within z
  refine ⟨⟨z, rfl, hzc⟩, ?_⟩
  rw [abs_lt] at key
  rw [abs_le] at hzc ⊢
  constructor <;> linarith [hzc.1, hzc.2, key.1, key.2]

theorem midnight_wraparound_witness :
    ∃ ch' v, (∀ fuel : Nat, 2 ≤ fuel →
        wrapChannel.GetLightIntensityInt fuel 0 = some (ch', v)) ∧
      ch'._previous = wrapChannel._storage 1 ∧ ch'._next = wrapChannel._storage 2 ∧
      (v = 127 ∨ v = 128) := by
  obtain ⟨ch', v, h1, h2, h3, -, h4⟩ := midnight_wraparound wrapChannel 0
    (by simp [wrapChannel, Channel.AddPoint, Channel.SetPoint, Channel.init])
    (by simp [wrapChannel, Channel.AddPoint, Channel.SetPoint, Channel.init])
    (by simp [wrapChannel, Channel.AddPoint, Channel.SetPoint, Channel.init, Point.ofHM,
      Point.IsValid, toByte])
    (by simp [wrapChannel, Channel.AddPoint, Channel.SetPoint, Channel.init, Point.ofHM,
      Point.IsValid, toByte])
    (by simp [wrapChannel, Channel.AddPoint, Channel.SetPoint, Channel.init, Point.ofHM,
      Point.GetTimeSeconds, toByte])
    (by
      left
      simp [Channel.CachesInSync, Channel.succPos, wrapChannel, Channel.AddPoint,
        Channel.SetPoint, Channel.init])
    (by decide) (by decide)
    (by
      right
      simp [wrapChannel, Channel.AddPoint, Channel.SetPoint, Channel.init, Point.ofHM,
        Point.GetTimeSeconds, toByte])
  refine ⟨ch', v, h1, h2, h3, ?_⟩
  have e : (255 : ℚ) * ((wrapChannel._storage 1).GetIntensity +
        (((if (wrapChannel._storage 1).GetTimeSeconds ≤ 0
            then 0 - (wrapChannel._storage 1).GetTimeSeconds
            else 0 + 86400 - (wrapChannel._storage 1).GetTimeSeconds : Int)) : ℚ) /
          (((wrapChannel._storage 2).GetTimeSeconds + 86400
            - (wrapChannel._storage 1).GetTimeSeconds : Int) : ℚ)
        * ((wrapChannel._storage 2).GetIntensity
            - (wrapChannel._storage 1).GetIntensity)) = 255 / 2 := by
    simp [wrapChannel, Channel.AddPoint, Channel.SetPoint, Channel.init, Point.ofHM,
        Point.GetTimeSeconds, Point.GetIntensity, toByte]
    norm_num
  rw [e, abs_le] at h4
  obtain ⟨l, u⟩ := h4
  have hl : ((126 : Int) : ℚ) < (v : ℚ) := by push_cast; linarith
  have hu : (v : ℚ) < ((129 : Int) : ℚ) := by push_cast; linarith
  have hl' : (126 : Int) < v := by exact_mod_cast hl
  have hu' : v < (129 : Int) := by exact_mod_cast hu
  omega

/-! ## Termination of the search -/

/-- When every slot of `1..length` has the same time of day, no pair of cached waypoints
ever satisfies a `break` condition: the loop runs out of every fuel. -/
theorem searchLoop_diverges (t T : Int) :
    ∀ (fuel : Nat) (ch : Channel), 2 ≤ ch._length →
      (∀ j, 1 ≤ j → j ≤ ch._length → (ch._storage j).GetTimeSeconds = T) →
      1 ≤ ch._currentPosition → ch._currentPosition ≤ ch._length →
      ch._previous.GetTimeSeconds = T → ch._next.GetTimeSeconds = T →
      Channel.searchLoop fuel ch t = none := by
  intro fuel
  induction fuel with
  | zero =>
    intro ch _ _ _ _ hp hx
    apply searchLoop_zero_of_not
    cases h : ch.bracketFound t
    · rfl
    · unfold Channel.bracketFound at h
      rw [inBracket_iff] at h
      omega
  | succ fuel ih =>
    intro ch hn hall h1 h2 hp hx
    have hf : ch.bracketFound t = false := by
      cases h : ch.bracketFound t
      · rfl
      · unfold Channel.bracketFound at h
        rw [inBracket_iff] at h
        omega
    rw [searchLoop_succ_of_not fuel ch t hf]
    obtain ⟨hs, hc⟩ := moveForward_sync ch h1 h2 hn
    obtain ⟨f1, f2, -, -, -, -⟩ := moveForward_frame ch
    obtain ⟨s1, s2, s3, s4⟩ := hs
    have hsucc : 1 ≤ ch.MoveForward.succPos ch.MoveForward._currentPosition ∧
        ch.MoveForward.succPos ch.MoveForward._currentPosition ≤ ch._length := by
      unfold Channel.succPos
      split_ifs <;> omega
    apply ih ch.MoveForward (by omega)
    · intro j hj1 hj2
      rw [f1]
      exact hall j hj1 (by omega)
    · exact s1
    · exact s2
    · rw [s3, f1]
      exact hall _ s1 (by omega)
    · rw [s4, f1]
      exact hall _ hsucc.1 hsucc.2

/-- C3 (failing input): slots 1 and 2 hold 6:00 0% and 6:00 100%; `validate()` computes
length 2, and after `reset()` the bracket search finds no bracket for any time, whatever
the number of advances allowed. -/
theorem bracket_search_diverges_on_equal_times :
    stepChannel._length = 2 ∧
      ∀ (fuel : Nat) (t : Int), stepChannel.GoToCurrentPosition fuel t = none := by
  have hlen : stepChannel._length = 2 := by
    simp [stepChannel, Channel.Reset, Channel.UpdateData, Channel.init, Channel.scanFrom,
      storageOf, Point.ofHM, Point.IsValid, Point.IsZero, Point.GetTimeSeconds, Point.zero,
      toByte]
  refine ⟨hlen, ?_⟩
  intro fuel t
  unfold Channel.GoToCurrentPosition
  rw [if_neg (by rw [hlen]; decide)]
  apply searchLoop_diverges t 21600 fuel stepChannel (by rw [hlen])
  · intro j hj1 hj2
    rw [hlen] at hj2
    interval_cases j <;>
      simp [stepChannel, Channel.Reset, Channel.UpdateData, Channel.init, storageOf,
        Point.ofHM, Point.GetTimeSeconds, toByte]
  · simp [stepChannel, Channel.Reset]
  · rw [hlen]
    simp [stepChannel, Channel.Reset]
  · simp [stepChannel, Channel.Reset, Channel.GetPoint, Channel.UpdateData, Channel.init,
      storageOf, Point.ofHM, Point.GetTimeSeconds, toByte]
  · simp [stepChannel, Channel.Reset, Channel.GetPoint, Channel.UpdateData, Channel.init,
      storageOf, Point.ofHM, Point.GetTimeSeconds, toByte]


/-! ## The zero time span -/

/-- With a zero time span the division `intensityDiff / timeDiff` is a division by zero:
no finite intensity is produced. -/
theorem interpolate_zero_span (p q : ℚ) (a : Int) : interpolate p q a 0 = none := by
  unfold interpolate
  cases toFloat (roundBinary32 q - roundBinary32 p) with
  | none => rfl
  | some x => simp [floatDiv]

/-- With a zero time span the division `intensityDiff / timeDiff` is a division by zero:
no finite intensity and no level is produced. -/
theorem storeLightValue_zero_span (ch : Channel) (t : Int) (h : ch.timeDiff = 0) :
    ch.storeLightValue t = none := by
  unfold Channel.storeLightValue Channel.currentIntensity
  rw [h, interpolate_zero_span]

/-- C10 (failing inputs): on a freshly constructed channel with no points, and on a
channel with a single point after `reset()`, both cached waypoints have the same time; the
query divides by the zero time span and produces no level, for every time. -/
theorem query_zero_span_division :
    (∀ (fuel : Nat) (t : Int), emptyChannel.GetLightIntensityInt fuel t = none) ∧
    (∀ (fuel : Nat) (t : Int), singleChannel.GetLightIntensityInt fuel t = none) := by
  constructor
  · intro fuel t
    have hgo : emptyChannel.GoToCurrentPosition fuel t = some emptyChannel := by
      simp [Channel.GoToCurrentPosition, emptyChannel, Channel.init]
    have hz : emptyChannel.timeDiff = 0 := by
      simp [Channel.timeDiff, emptyChannel, Channel.init]
    unfold Channel.GetLightIntensityInt Channel.UpdateCurrentLightValue
    rw [hgo]
    simp only []
    rw [storeLightValue_zero_span _ t hz]
  · intro fuel t
    have hgo : singleChannel.GoToCurrentPosition fuel t = some singleChannel := by
      simp [Channel.GoToCurrentPosition, singleChannel, Channel.Reset, Channel.AddPoint,
        Channel.SetPoint, Channel.init]
    have hz : singleChannel.timeDiff = 0 := by
      simp [Channel.timeDiff, singleChannel, Channel.Reset, Channel.GetPoint]
    unfold Channel.GetLightIntensityInt Channel.UpdateCurrentLightValue
    rw [hgo]
    simp only []
    rw [storeLightValue_zero_span _ t hz]


/-! ## The output range -/

/-- In a state that satisfies a `break` condition on valid cached waypoints, for a time of
`[0, 86400)`, the time span is positive and the progress lies in `[0, timeDiff)`. -/
theorem bracket_progress_bounds (ch : Channel) (t : Int)
    (hb : ch.bracketFound t = true) (hp : ch._previous.IsValid = true)
    (hx : ch._next.IsValid = true) (ht0 : 0 ≤ t) (ht1 : t < 86400) :
    0 < ch.timeDiff ∧ 0 ≤ ch.progress t ∧ ch.progress t < ch.timeDiff := by
  obtain ⟨p1, p2, -, -⟩ := valid_bounds _ hp
  obtain ⟨x1, x2, -, -⟩ := valid_bounds _ hx
  unfold Channel.bracketFound at hb
  rw [inBracket_iff] at hb
  unfold Channel.timeDiff Channel.progress
  split_ifs <;> omega

/-- With non-decreasing times in slots `1..length` that are not all equal, some cyclically
adjacent pair brackets every time. -/
theorem exists_bracket (ch : Channel) (t : Int) (hn : 2 ≤ ch._length)
    (hmono : ∀ j, 1 ≤ j → j < ch._length →
      (ch._storage j).GetTimeSeconds ≤ (ch._storage (j + 1)).GetTimeSeconds)
    (hne : ∃ a b, 1 ≤ a ∧ a ≤ ch._length ∧ 1 ≤ b ∧ b ≤ ch._length ∧
      (ch._storage a).GetTimeSeconds ≠ (ch._storage b).GetTimeSeconds) :
    ∃ i, 1 ≤ i ∧ i ≤ ch._length ∧
      Channel.inBracket (ch._storage i) (ch._storage (ch.succPos i)) t = true := by
  have hm : ∀ a b : Int, 1 ≤ a → a ≤ b → b ≤ ch._length →
      (ch._storage a).GetTimeSeconds ≤ (ch._storage b).GetTimeSeconds := by
    intro a b ha hab hb
    exact mono_of_adjacent (fun j => (ch._storage j).GetTimeSeconds) ch._length
      hmono (b - a).toNat a b ha (by omega) hb
  have hends : (ch._storage 1).GetTimeSeconds < (ch._storage ch._length).GetTimeSeconds := by
    obtain ⟨a, b, a1, a2, b1, b2, hab⟩ := hne
    have h1 := hm 1 a (le_refl _) a1 a2
    have h2 := hm a ch._length a1 a2 (le_refl _)
    have h3 := hm 1 b (le_refl _) b1 b2
    have h4 := hm b ch._length b1 b2 (le_refl _)
    omega
  by_cases hlo : t < (ch._storage 1).GetTimeSeconds
  · refine ⟨ch._length, by omega, le_refl _, ?_⟩
    rw [succPos_of_ge ch _ (le_refl _), inBracket_iff]
    right; right
    exact ⟨by omega, hlo, hends⟩
  · by_cases hhi : (ch._storage ch._length).GetTimeSeconds ≤ t
    · refine ⟨ch._length, by omega, le_refl _, ?_⟩
      rw [succPos_of_ge ch _ (le_refl _), inBracket_iff]
      right; left
      exact ⟨hhi, hends⟩
    · have hlo' : (ch._storage 1).GetTimeSeconds ≤ t := by omega
      have hhi' : t < (ch._storage ch._length).GetTimeSeconds := by omega
      obtain ⟨i, i1, i2, i3, i4⟩ :=
        exists_adjacent_bracket (fun j => (ch._storage j).GetTimeSeconds) t
          (ch._length - 1).toNat ch._length (by omega) hlo' hhi'
      refine ⟨i, i1, le_of_lt i2, ?_⟩
      rw [succPos_of_lt ch i i2, inBracket_iff]
      left
      exact ⟨i3, i4⟩

theorem succPos_range (ch : Channel) (c : Int) (hn : 2 ≤ ch._length) (h1 : 1 ≤ c) :
    1 ≤ ch.succPos c ∧ ch.succPos c ≤ ch._length := by
  unfold Channel.succPos
  split_ifs <;> omega


/-- The time span of two valid cached waypoints is below two days. -/
theorem timeDiff_lt (ch : Channel) (hp : ch._previous.IsValid = true)
    (hx : ch._next.IsValid = true) : ch.timeDiff < 16777216 := by
  obtain ⟨p1, p2, -, -⟩ := valid_bounds _ hp
  obtain ⟨x1, x2, -, -⟩ := valid_bounds _ hx
  unfold Channel.timeDiff
  split_ifs <;> omega

/-- C7: either fade mode, slots `1..length` (`length ≥ 2`) valid with non-decreasing times
that are not all equal, cursor in `1..length` with the caches in sync, `t` in `[0, 86400)`:
the query ends (for every fuel of at least `length` advances) and returns a level of
`[0, 255]`; the interpolation fraction `progress / timeDiff` of the final bracket lies in
`[0, 1)`. -/
theorem output_range (ch : Channel) (t : Int) (hn : 2 ≤ ch._length)
    (hvalid : ∀ j, 1 ≤ j → j ≤ ch._length → (ch._storage j).IsValid = true)
    (hmono : ∀ j, 1 ≤ j → j < ch._length →
      (ch._storage j).GetTimeSeconds ≤ (ch._storage (j + 1)).GetTimeSeconds)
    (hne : ∃ a b, 1 ≤ a ∧ a ≤ ch._length ∧ 1 ≤ b ∧ b ≤ ch._length ∧
      (ch._storage a).GetTimeSeconds ≠ (ch._storage b).GetTimeSeconds)
    (hs : ch.CachesInSync) (ht0 : 0 ≤ t) (ht1 : t < 86400) :
    ∃ ch' v, (∀ fuel : Nat, ch._length.toNat ≤ fuel →
        ch.GetLightIntensityInt fuel t = some (ch', v)) ∧
      0 ≤ v ∧ v ≤ 255 ∧
      0 ≤ (ch'.progress t : ℚ) / (ch'.timeDiff : ℚ) ∧
      (ch'.progress t : ℚ) / (ch'.timeDiff : ℚ) < 1 := by
  obtain ⟨i, i1, i2, hb⟩ := exists_bracket ch t hn hmono hne
  obtain ⟨ch1, r1, r2, r3, r4, r5, _⟩ :=
    search_from_provisioned ch t i (Or.inl hs) hn i1 i2 hb
  obtain ⟨s1, s2, s3, s4⟩ := r2
  have hsr := succPos_range ch1 ch1._currentPosition (by omega) s1
  have hpv : ch1._previous.IsValid = true := by
    rw [s3, r4]
    exact hvalid _ s1 (by omega)
  have hxv : ch1._next.IsValid = true := by
    rw [s4, r4]
    exact hvalid _ hsr.1 (by omega)
  obtain ⟨d0, a0, a1⟩ := bracket_progress_bounds ch1 t r3 hpv hxv ht0 ht1
  obtain ⟨-, -, p0, p1⟩ := valid_bounds _ hpv
  obtain ⟨-, -, q0, q1⟩ := valid_bounds _ hxv
  obtain ⟨y, c, z, hy, hc, hz, -, -, hzc, b0, b1⟩ :=
    stages_close ch1 t p0 p1 q0 q1 d0 (timeDiff_lt ch1 hpv hxv) a0 a1
  obtain ⟨f0, f1⟩ := fadeCurve_bounds ch1._fadeMode _ b0 b1
  rw [abs_le] at hzc
  have hv := floatToInt_range z (by linarith [hzc.1]) (by linarith [hzc.2])
  have hd' : (0 : ℚ) < (ch1.timeDiff : ℚ) := by exact_mod_cast d0
  have ha0' : (0 : ℚ) ≤ (ch1.progress t : ℚ) := by exact_mod_cast a0
  have ha1' : (ch1.progress t : ℚ) < (ch1.timeDiff : ℚ) := by exact_mod_cast a1
  refine ⟨_, _, fun fuel hfuel =>
    query_of_search fuel ch ch1 t y c z (r1 fuel hfuel) hy hc hz, hv.1, hv.2, ?_, ?_⟩
  · exact div_nonneg ha0' (le_of_lt hd')
  · have e : Channel.progress { ch1 with _lightValue := floatToInt z } t
        = ch1.progress t := rfl
    have e2 : Channel.timeDiff { ch1 with _lightValue := floatToInt z }
        = ch1.timeDiff := rfl
    rw [e, e2, div_lt_one hd']
    exact ha1'

theorem expChannel_length : expChannel._length = 2 := by
  simp [expChannel, Channel.AddPoint, Channel.SetPoint, Channel.init]

theorem expChannel_sync : expChannel.CachesInSync := by
  simp [Channel.CachesInSync, Channel.succPos, expChannel, Channel.AddPoint,
    Channel.SetPoint, Channel.init]

theorem output_range_witness :
    ∃ ch' v, (∀ fuel : Nat, 2 ≤ fuel →
        expChannel.GetLightIntensityInt fuel 0 = some (ch', v)) ∧
      0 ≤ v ∧ v ≤ 255 ∧
      0 ≤ (ch'.progress 0 : ℚ) / (ch'.timeDiff : ℚ) ∧
      (ch'.progress 0 : ℚ) / (ch'.timeDiff : ℚ) < 1 := by
  obtain ⟨ch', v, h1, h2⟩ := output_range expChannel 0
    (by rw [expChannel_length])
    (by
      intro j hj1 hj2
      rw [expChannel_length] at hj2
      interval_cases j <;>
        simp [expChannel, Channel.AddPoint, Channel.SetPoint, Channel.init, Point.ofHM,
          Point.IsValid, toByte])
    (by
      intro j hj1 hj2
      rw [expChannel_length] at hj2
      interval_cases j
      simp [expChannel, Channel.AddPoint, Channel.SetPoint, Channel.init, Point.ofHM,
          Point.GetTimeSeconds, toByte])
    ⟨1, 2, by decide, by rw [expChannel_length]; decide, by decide,
      by rw [expChannel_length], by
        simp [expChannel, Channel.AddPoint, Channel.SetPoint, Channel.init, Point.ofHM,
          Point.GetTimeSeconds, toByte]⟩
    expChannel_sync (by decide) (by decide)
  exact ⟨ch', v, fun fuel hfuel => h1 fuel (by rw [expChannel_length]; exact hfuel), h2⟩

theorem searchLoop_frame (t : Int) :
    ∀ (k : Nat) (ch ch' : Channel), Channel.searchLoop k ch t = some ch' →
      ch'._length = ch._length ∧ ch'._fadeMode = ch._fadeMode ∧
      ch'._storage = ch._storage := by
  intro k
  induction k with
  | zero =>
    intro ch ch' h
    cases hb : ch.bracketFound t
    · rw [searchLoop_zero_of_not ch t hb] at h
      exact Option.noConfusion h
    · rw [searchLoop_of_found _ ch t hb] at h
      cases h
      exact ⟨rfl, rfl, rfl⟩
  | succ k ih =>
    intro ch ch' h
    cases hb : ch.bracketFound t
    · rw [searchLoop_succ_of_not k ch t hb] at h
      obtain ⟨r1, r2, r3⟩ := ih _ _ h
      obtain ⟨f1, f2, f3, -, -, -⟩ := moveForward_frame ch
      exact ⟨by rw [r1, f2], by rw [r2, f3], by rw [r3, f1]⟩
    · rw [searchLoop_of_found _ ch t hb] at h
      cases h
      exact ⟨rfl, rfl, rfl⟩

/-- The state in which `GoToCurrentPosition` ends needs no further advance. -/
theorem goToCurrentPosition_result (fuel : Nat) (ch ch1 : Channel) (t : Int)
    (h : ch.GoToCurrentPosition fuel t = some ch1) :
    (ch1._length ≤ 1 ∨ ch1.bracketFound t = true) ∧ ch1._fadeMode = ch._fadeMode := by
  unfold Channel.GoToCurrentPosition at h
  split_ifs at h with hl
  · cases h
    exact ⟨Or.inl hl, rfl⟩
  · exact ⟨Or.inr (searchLoop_found t fuel ch ch1 h), (searchLoop_frame t fuel ch ch1 h).2.1⟩


/-- A query that returns decomposes into the search, the binary32 interpolated intensity
of the final bracket, its fade correction, the binary32 level product and the stored
truncation. -/
theorem query_some (fuel : Nat) (ch ch' : Channel) (t v : Int)
    (hq : ch.GetLightIntensityInt fuel t = some (ch', v)) :
    ∃ ch1 y c z, ch.GoToCurrentPosition fuel t = some ch1 ∧
      ch1.currentIntensity t = some y ∧ ch1.CorrectForFadeMode y = some c ∧
      toFloat (255 * c) = some z ∧
      ch' = { ch1 with _lightValue := floatToInt z } ∧ v = floatToInt z := by
  cases hgo : ch.GoToCurrentPosition fuel t with
  | none =>
    simp [Channel.GetLightIntensityInt, Channel.UpdateCurrentLightValue, hgo] at hq
  | some ch1 =>
    have hnone : ch1.storeLightValue t = none → False := by
      intro hst
      simp [Channel.GetLightIntensityInt, Channel.UpdateCurrentLightValue, hgo, hst] at hq
    cases hci : ch1.currentIntensity t with
    | none =>
      exfalso
      apply hnone
      unfold Channel.storeLightValue
      rw [hci]
    | some y =>
      cases hc : ch1.CorrectForFadeMode y with
      | none =>
        exfalso
        apply hnone
        unfold Channel.storeLightValue
        rw [hci]
        dsimp only
        rw [hc]
      | some c =>
        cases hz : toFloat (255 * c) with
        | none =>
          exfalso
          apply hnone
          unfold Channel.storeLightValue
          rw [hci]
          dsimp only
          rw [hc]
          dsimp only
          rw [hz]
        | some z =>
          have h2 := query_of_search fuel ch ch1 t y c z hgo hci hc hz
          rw [hq] at h2
          simp only [Option.some.injEq, Prod.mk.injEq] at h2
          exact ⟨ch1, y, c, z, rfl, hci, hc, hz, h2.1, h2.2⟩

/-- C8: when `query(t)` returns, a second `query(t)` on the resulting state returns the
same level and leaves the whole channel state (cursor, both cached waypoints, stored
level) as the first call left it; its search ends without any `MoveForward` call (fuel 0
suffices). -/
theorem query_idempotent (fuel : Nat) (ch ch' : Channel) (t v : Int)
    (hq : ch.GetLightIntensityInt fuel t = some (ch', v)) :
    ch'.GoToCurrentPosition 0 t = some ch' ∧
      ∀ fuel' : Nat, ch'.GetLightIntensityInt fuel' t = some (ch', v) := by
  obtain ⟨ch1, y, c, z, hgo, hci, hc, hz, hch, hv⟩ := query_some fuel ch ch' t v hq
  obtain ⟨hres, -⟩ := goToCurrentPosition_result fuel ch ch1 t hgo
  have hgo' : ∀ fuel' : Nat, ch'.GoToCurrentPosition fuel' t = some ch' := by
    intro fuel'
    unfold Channel.GoToCurrentPosition
    by_cases hl : ch'._length ≤ 1
    · rw [if_pos hl]
    · rw [if_neg hl]
      apply searchLoop_of_found
      rcases hres with h | h
      · rw [hch] at hl
        exact absurd h hl
      · rw [hch]
        exact h
  refine ⟨hgo' 0, ?_⟩
  intro fuel'
  have hci' : ch'.currentIntensity t = some y := by
    rw [hch]
    exact hci
  have hc' : ch'.CorrectForFadeMode y = some c := by
    rw [hch]
    exact hc
  have hlv : ch'._lightValue = v := by
    rw [hch, hv]
  have e : ({ ch' with _lightValue := floatToInt z } : Channel) = ch' := by
    rw [← hv, ← hlv]
  rw [query_of_search fuel' ch' ch' t y c z (hgo' fuel') hci' hc' hz, e, ← hv]

theorem expChannel_search :
    expChannel.GoToCurrentPosition 2 25200 = some expChannel.MoveForward := by
  have hf1 : expChannel.bracketFound 25200 = false := by
    simp [Channel.bracketFound, Channel.inBracket, expChannel, Channel.AddPoint,
      Channel.SetPoint, Channel.init, Point.ofHM, Point.GetTimeSeconds, toByte]
  have hf2 : expChannel.MoveForward.bracketFound 25200 = true := by
    simp [Channel.bracketFound, Channel.inBracket, Channel.MoveForward, expChannel,
      Channel.AddPoint, Channel.SetPoint, Channel.init, Point.ofHM, Point.GetTimeSeconds,
      toByte]
  unfold Channel.GoToCurrentPosition
  rw [if_neg (by rw [expChannel_length]; decide), searchLoop_succ_of_not 1 _ _ hf1]
  exact searchLoop_of_found 1 _ _ hf2


/-- The binary32 interpolation from intensity 0 to intensity 1 at progress 3600 of a span
of 7200 seconds is exactly one half. -/
theorem interpolate_half : interpolate 0 1 3600 7200 = some (1 / 2) := by
  have r1 : roundBinary32 (1) = (1 : ℚ) := by
    rw [roundBinary32_eq_pos _ 0 8388608 (by decide) (by norm_num) (by norm_num) (by norm_num)
      (by norm_num)]
    norm_num
  have r2 : roundBinary32 (1 - 0) = (1 : ℚ) := by
    rw [roundBinary32_eq_pos _ 0 8388608 (by decide) (by norm_num) (by norm_num) (by norm_num)
      (by norm_num)]
    norm_num
  have r3 : roundBinary32 (1 / 7200) = (2386093 / 17179869184 : ℚ) := by
    rw [roundBinary32_eq_pos _ (-13) 9544372 (by decide) (by norm_num) (by norm_num) (by norm_num)
      (by norm_num)]
    norm_num
  have r4 : roundBinary32 (3600 * (2386093 / 17179869184 : ℚ)) = (1 / 2 : ℚ) := by
    rw [roundBinary32_eq_pos _ (-1) 8388608 (by decide) (by norm_num) (by norm_num) (by norm_num)
      (by norm_num)]
    norm_num
  have r5 : roundBinary32 (0 + (1 / 2 : ℚ)) = (1 / 2 : ℚ) := by
    rw [roundBinary32_eq_pos _ (-1) 8388608 (by decide) (by norm_num) (by norm_num) (by norm_num)
      (by norm_num)]
    norm_num
  have rd : roundBinary32 (((7200 : Int) : ℚ)) = 7200 := by
    rw [roundBinary32_intCast 7200 (by decide)]
    norm_num
  have ra : roundBinary32 (((3600 : Int) : ℚ)) = 3600 := by
    rw [roundBinary32_intCast 3600 (by decide)]
    norm_num
  unfold interpolate floatDiv
  rw [roundBinary32_zero, r1, toFloat_eval _ _ r2 (by norm_num [abs_lt]), Option.some_bind,
    if_neg (by decide), rd, toFloat_eval _ _ r3 (by norm_num [abs_lt]), Option.some_bind,
    ra, toFloat_eval _ _ r4 (by norm_num [abs_lt]), Option.some_bind,
    toFloat_eval _ _ r5 (by norm_num [abs_lt])]

/-- The binary32 square of one half, its level product and the truncation of that. -/
theorem level_quarter :
    toFloat (1 / 2 * (1 / 2)) = some (1 / 4) ∧ toFloat (255 * (1 / 4)) = some (255 / 4) ∧
    floatToInt (255 / 4) = 63 := by
  have r6 : roundBinary32 (1 / 2 * (1 / 2)) = (1 / 4 : ℚ) := by
    rw [roundBinary32_eq_pos _ (-2) 8388608 (by decide) (by norm_num) (by norm_num) (by norm_num)
      (by norm_num)]
    norm_num
  have r7 : roundBinary32 (255 * (1 / 4 : ℚ)) = (255 / 4 : ℚ) := by
    rw [roundBinary32_eq_pos _ 5 16711680 (by decide) (by norm_num) (by norm_num) (by norm_num)
      (by norm_num)]
    norm_num
  refine ⟨toFloat_eval _ _ r6 (by norm_num [abs_lt]),
    toFloat_eval _ _ r7 (by norm_num [abs_lt]), ?_⟩
  unfold floatToInt
  rw [if_pos (by norm_num), Int.floor_eq_iff]
  constructor <;> norm_num

/-- The query of `expChannel` at 7:00:00: the interpolated intensity is `1/2`, the
corrected intensity `1/4`, the level product `255/4` and the level 63. -/
theorem expChannel_query :
    expChannel.GetLightIntensityInt 2 25200 =
        some ({ expChannel.MoveForward with _lightValue := 63 }, 63) ∧
      expChannel.MoveForward.currentIntensity 25200 = some (1 / 2) ∧
      expChannel.MoveForward.CorrectForFadeMode (1 / 2) = some (1 / 4) ∧
      expChannel.MoveForward._previous.GetIntensity = 0 ∧
      expChannel.MoveForward._next.GetIntensity = 1 ∧
      2 * expChannel.MoveForward.progress 25200 = expChannel.MoveForward.timeDiff := by
  have hd : expChannel.MoveForward.timeDiff = 7200 := by
    simp [Channel.timeDiff, Channel.MoveForward, expChannel, Channel.AddPoint,
      Channel.SetPoint, Channel.init, Point.ofHM, Point.GetTimeSeconds, toByte]
  have hpr : expChannel.MoveForward.progress 25200 = 3600 := by
    simp [Channel.progress, Channel.MoveForward, expChannel, Channel.AddPoint,
      Channel.SetPoint, Channel.init, Point.ofHM, Point.GetTimeSeconds, toByte]
  have hp : expChannel.MoveForward._previous.GetIntensity = 0 := by
    simp [Channel.MoveForward, expChannel, Channel.AddPoint, Channel.SetPoint, Channel.init,
      Point.ofHM, Point.GetIntensity]
  have hx : expChannel.MoveForward._next.GetIntensity = 1 := by
    simp [Channel.MoveForward, expChannel, Channel.AddPoint, Channel.SetPoint, Channel.init,
      Point.ofHM, Point.GetIntensity]
  have hm : expChannel.MoveForward._fadeMode = FadeMode.fademode_exponential := by
    simp [Channel.MoveForward, expChannel, Channel.AddPoint, Channel.SetPoint, Channel.init]
  have hy : expChannel.MoveForward.currentIntensity 25200 = some (1 / 2) := by
    unfold Channel.currentIntensity
    rw [hd, hpr, hp, hx]
    exact interpolate_half
  have hc : expChannel.MoveForward.CorrectForFadeMode (1 / 2) = some (1 / 4) := by
    rw [correctForFadeMode_exponential _ hm]
    exact level_quarter.1
  have hq := query_of_search 2 expChannel expChannel.MoveForward 25200 _ _ _
    expChannel_search hy hc level_quarter.2.1
  rw [level_quarter.2.2] at hq
  exact ⟨hq, hy, hc, hp, hx, by rw [hd, hpr]; rfl⟩

theorem query_idempotent_witness :
    ∃ ch', expChannel.GetLightIntensityInt 2 25200 = some (ch', 63) ∧
      ch'.GoToCurrentPosition 0 25200 = some ch' ∧
      ∀ fuel' : Nat, ch'.GetLightIntensityInt fuel' 25200 = some (ch', 63) :=
  ⟨_, expChannel_query.1, query_idempotent 2 expChannel _ 25200 63 expChannel_query.1⟩

/-! ## Fade correction -/

/-- The binary32 interpolation from intensity 0 to intensity 1 at progress 660 of a span of
1320 seconds falls one unit in the last place short of one half. -/
theorem interpolate_short_half :
    interpolate 0 1 660 1320 = some (16777215 / 33554432) := by
  have r1 : roundBinary32 (1) = (1 : ℚ) := by
    rw [roundBinary32_eq_pos _ 0 8388608 (by decide) (by norm_num) (by norm_num) (by norm_num)
      (by norm_num)]
    norm_num
  have r2 : roundBinary32 (1 - 0) = (1 : ℚ) := by
    rw [roundBinary32_eq_pos _ 0 8388608 (by decide) (by norm_num) (by norm_num) (by norm_num)
      (by norm_num)]
    norm_num
  have r3 : roundBinary32 (1 / 1320) = (3253763 / 4294967296 : ℚ) := by
    rw [roundBinary32_eq_pos _ (-11) 13015052 (by decide) (by norm_num) (by norm_num) (by norm_num)
      (by norm_num)]
    norm_num
  have r4 : roundBinary32 (660 * (3253763 / 4294967296 : ℚ)) = (16777215 / 33554432 : ℚ) := by
    rw [roundBinary32_eq_pos _ (-2) 16777215 (by decide) (by norm_num) (by norm_num) (by norm_num)
      (by norm_num)]
    norm_num
  have r5 : roundBinary32 (0 + (16777215 / 33554432 : ℚ)) = (16777215 / 33554432 : ℚ) := by
    rw [roundBinary32_eq_pos _ (-2) 16777215 (by decide) (by norm_num) (by norm_num) (by norm_num)
      (by norm_num)]
    norm_num
  have rd : roundBinary32 (((1320 : Int) : ℚ)) = 1320 := by
    rw [roundBinary32_intCast 1320 (by decide)]
    norm_num
  have ra : roundBinary32 (((660 : Int) : ℚ)) = 660 := by
    rw [roundBinary32_intCast 660 (by decide)]
    norm_num
  unfold interpolate floatDiv
  rw [roundBinary32_zero, r1, toFloat_eval _ _ r2 (by norm_num [abs_lt]), Option.some_bind,
    if_neg (by decide), rd, toFloat_eval _ _ r3 (by norm_num [abs_lt]), Option.some_bind,
    ra, toFloat_eval _ _ r4 (by norm_num [abs_lt]), Option.some_bind,
    toFloat_eval _ _ r5 (by norm_num [abs_lt])]

/-- The binary32 square of that intensity, its level product and the truncation. -/
theorem level_short_half :
    toFloat ((16777215 / 33554432) * (16777215 / 33554432)) = some (8388607 / 33554432) ∧
    toFloat (255 * (8388607 / 33554432)) = some (8355839 / 131072) ∧
    floatToInt (8355839 / 131072) = 63 := by
  have r6 : roundBinary32 ((16777215 / 33554432 : ℚ) * (16777215 / 33554432 : ℚ)) = (8388607 / 33554432 : ℚ) := by
    rw [roundBinary32_eq_pos _ (-3) 16777214 (by decide) (by norm_num) (by norm_num) (by norm_num)
      (by norm_num)]
    norm_num
  have r7 : roundBinary32 (255 * (8388607 / 33554432 : ℚ)) = (8355839 / 131072 : ℚ) := by
    rw [roundBinary32_eq_pos _ 5 16711678 (by decide) (by norm_num) (by norm_num) (by norm_num)
      (by norm_num)]
    norm_num
  refine ⟨toFloat_eval _ _ r6 (by norm_num [abs_lt]),
    toFloat_eval _ _ r7 (by norm_num [abs_lt]), ?_⟩
  unfold floatToInt
  rw [if_pos (by norm_num), Int.floor_eq_iff]
  constructor <;> norm_num

theorem shortFadeChannel_search :
    shortFadeChannel.GoToCurrentPosition 2 22260 = some shortFadeChannel.MoveForward := by
  have hf1 : shortFadeChannel.bracketFound 22260 = false := by
    simp [Channel.bracketFound, Channel.inBracket, shortFadeChannel, Channel.AddPoint,
      Channel.SetPoint, Channel.init, Point.ofHM, Point.GetTimeSeconds, toByte]
  have hf2 : shortFadeChannel.MoveForward.bracketFound 22260 = true := by
    simp [Channel.bracketFound, Channel.inBracket, Channel.MoveForward, shortFadeChannel,
      Channel.AddPoint, Channel.SetPoint, Channel.init, Point.ofHM, Point.GetTimeSeconds,
      toByte]
  unfold Channel.GoToCurrentPosition
  rw [if_neg (by
    simp [shortFadeChannel, Channel.AddPoint, Channel.SetPoint, Channel.init]),
    searchLoop_succ_of_not 1 _ _ hf1]
  exact searchLoop_of_found 1 _ _ hf2

/-- C9, counterexample: `shortFadeChannel` (exponential; 6:00 at 0%, 6:22 at 100%, provisioned
by `AddPoint`) queried at 6:11:00, half of the time span of the bracket from intensity 0 to
intensity 1. The binary32 interpolation gives `16777215 / 33554432`, not `1/2`, and
`CorrectForFadeMode` returns for it `8388607 / 33554432`, which is neither its exact square nor
`1/4`. -/
theorem fade_correction_binary32_rounding :
    shortFadeChannel._fadeMode = FadeMode.fademode_exponential ∧
    shortFadeChannel.GetLightIntensityInt 2 22260 =
      some ({ shortFadeChannel.MoveForward with _lightValue := 63 }, 63) ∧
    shortFadeChannel.MoveForward._previous.GetIntensity = 0 ∧
    shortFadeChannel.MoveForward._next.GetIntensity = 1 ∧
    2 * shortFadeChannel.MoveForward.progress 22260
      = shortFadeChannel.MoveForward.timeDiff ∧
    shortFadeChannel.MoveForward.currentIntensity 22260 = some (16777215 / 33554432) ∧
    shortFadeChannel.CorrectForFadeMode (16777215 / 33554432) = some (8388607 / 33554432) ∧
    shortFadeChannel.CorrectForFadeMode (16777215 / 33554432)
      ≠ some ((16777215 / 33554432) * (16777215 / 33554432)) ∧
    shortFadeChannel.CorrectForFadeMode (16777215 / 33554432) ≠ some (1 / 4) ∧
    (16777215 / 33554432 : ℚ) ≠ 1 / 2 := by
  have hd : shortFadeChannel.MoveForward.timeDiff = 1320 := by
    simp [Channel.timeDiff, Channel.MoveForward, shortFadeChannel, Channel.AddPoint,
      Channel.SetPoint, Channel.init, Point.ofHM, Point.GetTimeSeconds, toByte]
  have hpr : shortFadeChannel.MoveForward.progress 22260 = 660 := by
    simp [Channel.progress, Channel.MoveForward, shortFadeChannel, Channel.AddPoint,
      Channel.SetPoint, Channel.init, Point.ofHM, Point.GetTimeSeconds, toByte]
  have hp : shortFadeChannel.MoveForward._previous.GetIntensity = 0 := by
    simp [Channel.MoveForward, shortFadeChannel, Channel.AddPoint, Channel.SetPoint,
      Channel.init, Point.ofHM, Point.GetIntensity]
  have hx : shortFadeChannel.MoveForward._next.GetIntensity = 1 := by
    simp [Channel.MoveForward, shortFadeChannel, Channel.AddPoint, Channel.SetPoint,
      Channel.init, Point.ofHM, Point.GetIntensity]
  have hm0 : shortFadeChannel._fadeMode = FadeMode.fademode_exponential := by
    simp [shortFadeChannel, Channel.AddPoint, Channel.SetPoint, Channel.init]
  have hm : shortFadeChannel.MoveForward._fadeMode = FadeMode.fademode_exponential := by
    simp [Channel.MoveForward, shortFadeChannel, Channel.AddPoint, Channel.SetPoint,
      Channel.init]
  have hy : shortFadeChannel.MoveForward.currentIntensity 22260
      = some (16777215 / 33554432) := by
    unfold Channel.currentIntensity
    rw [hd, hpr, hp, hx]
    exact interpolate_short_half
  have hc : shortFadeChannel.MoveForward.CorrectForFadeMode (16777215 / 33554432)
      = some (8388607 / 33554432) := by
    rw [correctForFadeMode_exponential _ hm]
    exact level_short_half.1
  have hc0 : shortFadeChannel.CorrectForFadeMode (16777215 / 33554432)
      = some (8388607 / 33554432) := by
    rw [correctForFadeMode_exponential _ hm0]
    exact level_short_half.1
  have hq := query_of_search 2 shortFadeChannel shortFadeChannel.MoveForward 22260 _ _ _
    shortFadeChannel_search hy hc level_short_half.2.1
  rw [level_short_half.2.2] at hq
  refine ⟨hm0, hq, hp, hx, by rw [hd, hpr]; rfl, hy, hc0, ?_, ?_, by norm_num⟩
  · rw [hc0]
    norm_num
  · rw [hc0]
    norm_num

/-- C9, amended: `CorrectForFadeMode` returns `x` for a linear channel and the binary32
product `x * x` for an exponential one, and a query that returns applies it to the binary32
interpolated intensity `y` of the final bracket: with `c` the corrected intensity and `z`
the binary32 product `255 * c`, the level is the truncation of `z`.  For a bracket from
intensity 0 to intensity 1 at half of a positive time span below `2 ^ 24` seconds, `y` is
within `2 ^ -20` of `1/2`, and the corrected intensity is within `2 ^ -18` of `1/4` under
exponential and equal to `y` under linear. -/
theorem fade_correction (fuel : Nat) (ch ch' : Channel) (t v : Int) (x : ℚ)
    (hq : ch.GetLightIntensityInt fuel t = some (ch', v)) :
    (ch._fadeMode = FadeMode.fademode_linear → ch.CorrectForFadeMode x = some x) ∧
    (ch._fadeMode = FadeMode.fademode_exponential →
      ch.CorrectForFadeMode x = toFloat (x * x)) ∧
    ∃ y c z, ch'.currentIntensity t = some y ∧ ch.CorrectForFadeMode y = some c ∧
      toFloat (255 * c) = some z ∧ v = floatToInt z ∧
      (ch'._previous.GetIntensity = 0 → ch'._next.GetIntensity = 1 →
        2 * ch'.progress t = ch'.timeDiff → 0 < ch'.timeDiff → ch'.timeDiff < 16777216 →
        |y - 1 / 2| ≤ 1 / 1048576 ∧
        (ch._fadeMode = FadeMode.fademode_exponential → |c - 1 / 4| ≤ 1 / 262144) ∧
        (ch._fadeMode = FadeMode.fademode_linear → c = y)) := by
  refine ⟨fun h => correctForFadeMode_linear ch h x,
    fun h => correctForFadeMode_exponential ch h x, ?_⟩
  obtain ⟨ch1, y, c, z, hgo, hci, hc, hz, hch, hv⟩ := query_some fuel ch ch' t v hq
  obtain ⟨-, hmode⟩ := goToCurrentPosition_result fuel ch ch1 t hgo
  have hcorr : ∀ w, ch1.CorrectForFadeMode w = ch.CorrectForFadeMode w := by
    intro w
    unfold Channel.CorrectForFadeMode
    rw [hmode]
  have hci' : ch'.currentIntensity t = some y := by
    rw [hch]
    exact hci
  have hmode' : ch'._fadeMode = ch._fadeMode := by
    rw [hch]
    exact hmode
  have hc' : ch.CorrectForFadeMode y = some c := by
    rw [← hcorr]
    exact hc
  refine ⟨y, c, z, hci', hc', hz, hv, ?_⟩
  intro hp hx hhalf hd hd2
  obtain ⟨y2, c2, z2, hy2, hc2, -, hyc, hcc, -, -, -⟩ := stages_close ch' t
    (by rw [hp]) (by rw [hp]; norm_num) (by rw [hx]; norm_num) (by rw [hx])
    hd hd2 (by omega) (by omega)
  have ey : y2 = y := by
    rw [hci'] at hy2
    exact (Option.some.inj hy2).symm
  have hc3 : ch'.CorrectForFadeMode y = some c := by
    rw [hch]
    exact hc
  have ec : c2 = c := by
    rw [ey, hc3] at hc2
    exact (Option.some.inj hc2).symm
  have hd' : (ch'.timeDiff : ℚ) ≠ 0 := by
    have : (0 : ℚ) < (ch'.timeDiff : ℚ) := by exact_mod_cast hd
    exact ne_of_gt this
  have hblend : ch'._previous.GetIntensity + (ch'.progress t : ℚ) *
      ((ch'._next.GetIntensity - ch'._previous.GetIntensity) / (ch'.timeDiff : ℚ))
      = 1 / 2 := by
    have hh : (ch'.timeDiff : ℚ) = 2 * (ch'.progress t : ℚ) := by
      rw [← hhalf]
      push_cast
      rfl
    rw [hp, hx]
    field_simp
    rw [hh]
    ring
  rw [hblend, ey] at hyc
  rw [hblend, ec, hmode'] at hcc
  refine ⟨hyc, ?_, ?_⟩
  · intro h
    rw [h] at hcc
    have e : fadeCurve FadeMode.fademode_exponential (1 / 2) = 1 / 4 := by
      unfold fadeCurve
      norm_num
    rw [e] at hcc
    exact hcc
  · intro h
    rw [correctForFadeMode_linear ch h] at hc'
    exact (Option.some.inj hc').symm

theorem fade_correction_witness :
    (expChannel._fadeMode = FadeMode.fademode_exponential →
      expChannel.CorrectForFadeMode (1 / 2) = toFloat (1 / 2 * (1 / 2))) ∧
    ∃ y c z, Channel.currentIntensity
        { expChannel.MoveForward with _lightValue := 63 } 25200 = some y ∧
      expChannel.CorrectForFadeMode y = some c ∧
      toFloat (255 * c) = some z ∧ (63 : Int) = floatToInt z ∧ y = 1 / 2 ∧ c = 1 / 4 := by
  obtain ⟨-, h2, y, c, z, hy, hc, hz, hv, -⟩ :=
    fade_correction 2 expChannel _ 25200 63 (1 / 2) expChannel_query.1
  have ey : y = 1 / 2 := by
    have h := expChannel_query.2.1
    have hy2 : expChannel.MoveForward.currentIntensity 25200 = some y := hy
    rw [h] at hy2
    exact (Option.some.inj hy2).symm
  have hm : expChannel._fadeMode = FadeMode.fademode_exponential := by
    simp [expChannel, Channel.AddPoint, Channel.SetPoint, Channel.init]
  have ec : c = 1 / 4 := by
    rw [ey, correctForFadeMode_exponential _ hm, level_quarter.1] at hc
    exact (Option.some.inj hc).symm
  exact ⟨h2, y, c, z, hy, hc, hz, hv, ey, ec⟩

/-! ## Waypoints -/

theorem toByte_of_range (x : Int) (h0 : 0 ≤ x) (h1 : x < 256) : toByte x = x := by
  unfold toByte
  omega

/-- The level of a waypoint built from a raw level of `[0, 255]` is the integer part of
that level. -/
theorem ofHM_intensityInt (h m : Int) (l : ℚ) (hl0 : 0 ≤ l) (hl1 : l ≤ 255) :
    (Point.ofHM h m l).GetIntensityInt = Int.floor l := by
  have e : (255 : ℚ) * (Point.ofHM h m l)._intensity = l := by
    unfold Point.ofHM
    by_cases hpos : l > 0
    · simp only [if_pos hpos]
      field_simp
    · have hz : l = 0 := le_antisymm (not_lt.mp hpos) hl0
      simp [hz]
  unfold Point.GetIntensityInt
  rw [e, floatToInt_of_nonneg l hl0]
  apply toByte_of_range
  · exact Int.floor_nonneg.mpr hl0
  · have h1 := Int.floor_le l
    have h2 : ((Int.floor l : Int) : ℚ) < ((256 : Int) : ℚ) := by
      push_cast
      linarith
    exact_mod_cast h2

/-- C13: for `h` in `[0, 23]`, `m` in `[0, 59]` and a raw level `l` in `[0, 255]`, the
waypoint built from `(h, m, l)` has `GetHours = h`, `GetMinutes = m`,
`GetTimeSeconds = 3600 * h + 60 * m`, and `GetIntensityInt` within 1 of `l`. -/
theorem round_trip_construction (h m : Int) (l : ℚ) (hh0 : 0 ≤ h) (hh1 : h ≤ 23)
    (hm0 : 0 ≤ m) (hm1 : m ≤ 59) (hl0 : 0 ≤ l) (hl1 : l ≤ 255) :
    (Point.ofHM h m l).GetHours = h ∧ (Point.ofHM h m l).GetMinutes = m ∧
    (Point.ofHM h m l).GetTimeSeconds = 3600 * h + 60 * m ∧
    |(((Point.ofHM h m l).GetIntensityInt : Int) : ℚ) - l| ≤ 1 := by
  have hmin : (Point.ofHM h m l)._minutes = 60 * h + m := by
    unfold Point.ofHM
    simp only
    rw [toByte_of_range h hh0 (by omega), toByte_of_range m hm0 (by omega)]
  refine ⟨?_, ?_, ?_, ?_⟩
  · unfold Point.GetHours
    rw [hmin, Int.tdiv_eq_ediv (by omega) (by decide)]
    apply (toByte_of_range _ (by omega) (by omega)).trans
    omega
  · unfold Point.GetMinutes
    rw [hmin, Int.tmod_eq_emod (by omega) (by decide)]
    apply (toByte_of_range _ (by omega) (by omega)).trans
    omega
  · unfold Point.GetTimeSeconds
    rw [hmin]
    ring
  · rw [ofHM_intensityInt h m l hl0 hl1, abs_le]
    have h1 := Int.floor_le l
    have h2 := Int.lt_floor_add_one l
    constructor <;> linarith

theorem round_trip_construction_witness :
    (Point.ofHM 23 59 200).GetHours = 23 ∧ (Point.ofHM 23 59 200).GetMinutes = 59 ∧
    (Point.ofHM 23 59 200).GetTimeSeconds = 3600 * 23 + 60 * 59 ∧
    |(((Point.ofHM 23 59 200).GetIntensityInt : Int) : ℚ) - 200| ≤ 1 :=
  round_trip_construction 23 59 200 (by decide) (by decide) (by decide) (by decide)
    (by norm_num) (by norm_num)

/-- C14: `IsValid` holds exactly when `0 ≤ GetTimeSeconds < 86400` and
`0 ≤ intensity ≤ 1`; for a waypoint built from bytes `h`, `m` and a raw level `l` this is
exactly `60 * h + m < 1440` and `0 ≤ l ≤ 255`. -/
theorem validity_boundary (p : Point) (h m : Int) (l : ℚ) (hh0 : 0 ≤ h) (hh1 : h < 256)
    (hm0 : 0 ≤ m) (hm1 : m < 256) :
    (p.IsValid = true ↔
      (0 ≤ p.GetTimeSeconds ∧ p.GetTimeSeconds < 86400 ∧
        0 ≤ p.GetIntensity ∧ p.GetIntensity ≤ 1)) ∧
    ((Point.ofHM h m l).IsValid = true ↔ (60 * h + m < 1440 ∧ 0 ≤ l ∧ l ≤ 255)) := by
  constructor
  · simp only [Point.IsValid, Point.GetTimeSeconds, Point.GetIntensity, Bool.and_eq_true,
      decide_eq_true_eq, ge_iff_le]
    constructor
    · rintro ⟨⟨⟨h1, h2⟩, h3⟩, h4⟩
      exact ⟨by omega, by omega, h3, h4⟩
    · rintro ⟨h1, h2, h3, h4⟩
      exact ⟨⟨⟨by omega, by omega⟩, h3⟩, h4⟩
  · simp only [Point.IsValid, Point.ofHM, Bool.and_eq_true, decide_eq_true_eq, ge_iff_le]
    rw [toByte_of_range h hh0 hh1, toByte_of_range m hm0 hm1]
    by_cases hpos : l > 0
    · simp only [if_pos hpos]
      constructor
      · rintro ⟨⟨⟨_, h2⟩, _⟩, h4⟩
        refine ⟨h2, le_of_lt hpos, ?_⟩
        rw [div_le_one (by norm_num)] at h4
        exact h4
      · rintro ⟨h1, _, h3⟩
        refine ⟨⟨⟨by omega, h1⟩, ?_⟩, ?_⟩
        · exact div_nonneg (le_of_lt hpos) (by norm_num)
        · rw [div_le_one (by norm_num)]
          exact h3
    · simp only [if_neg hpos]
      have hle : l ≤ 0 := not_lt.mp hpos
      constructor
      · rintro ⟨⟨⟨_, h2⟩, h3⟩, _⟩
        exact ⟨h2, h3, by linarith⟩
      · rintro ⟨h1, h2, _⟩
        exact ⟨⟨⟨by omega, h1⟩, h2⟩, by linarith⟩

theorem validity_boundary_witness :
    (Point.ofHM 23 59 255).IsValid = true ∧ ¬ (Point.ofHM 24 0 255).IsValid = true ∧
    ¬ (Point.ofHM 23 60 255).IsValid = true ∧ ¬ (Point.ofHM 12 0 256).IsValid = true ∧
    ¬ (Point.ofHM 12 0 (-1)).IsValid = true := by
  refine ⟨?_, ?_, ?_, ?_, ?_⟩
  · exact (validity_boundary Point.zero 23 59 255 (by decide) (by decide) (by decide)
      (by decide)).2.mpr ⟨by decide, by norm_num, by norm_num⟩
  · intro hv
    have := ((validity_boundary Point.zero 24 0 255 (by decide) (by decide) (by decide)
      (by decide)).2.mp hv).1
    omega
  · intro hv
    have := ((validity_boundary Point.zero 23 60 255 (by decide) (by decide) (by decide)
      (by decide)).2.mp hv).1
    omega
  · intro hv
    have := ((validity_boundary Point.zero 12 0 256 (by decide) (by decide) (by decide)
      (by decide)).2.mp hv).2.2
    norm_num at this
  · intro hv
    have := ((validity_boundary Point.zero 12 0 (-1) (by decide) (by decide) (by decide)
      (by decide)).2.mp hv).2.1
    norm_num at this

/-! ## More on the scan of `UpdateData` -/

theorem not_stopCondition (storage : Int → Point) (L : Int)
    (h : ¬ StopCondition storage L) :
    (storage L).IsValid = true ∧ (storage (L + 1)).IsValid = true ∧
    (storage L).GetTimeSeconds ≤ (storage (L + 1)).GetTimeSeconds ∧
    ¬ ((storage L).IsZero = true ∧ (storage (L + 1)).IsZero = true) := by
  unfold StopCondition at h
  push_neg at h
  obtain ⟨h1, h2, h3, h4⟩ := h
  refine ⟨by simpa using h1, by simpa using h2, h3, ?_⟩
  rintro ⟨a, b⟩
  exact h4 a b

/-- C19: after `validate()`, `1 ≤ length ≤ max(1, capacity)`, and for every `i` with
`1 ≤ i < length` the waypoints in slots `i` and `i + 1` are both valid,
`time(i) ≤ time(i + 1)`, and they are not both the zero sentinel; so the times in slots
`1..length` are non-decreasing. -/
theorem validate_postcondition (ch : Channel) :
    1 ≤ ch.UpdateData._length ∧ ch.UpdateData._length ≤ max 1 ch._maxLength ∧
    (∀ i, 1 ≤ i → i < ch.UpdateData._length →
      (ch._storage i).IsValid = true ∧ (ch._storage (i + 1)).IsValid = true ∧
      (ch._storage i).GetTimeSeconds ≤ (ch._storage (i + 1)).GetTimeSeconds ∧
      ¬ ((ch._storage i).IsZero = true ∧ (ch._storage (i + 1)).IsZero = true)) ∧
    ∀ a b, 1 ≤ a → a ≤ b → b ≤ ch.UpdateData._length →
      (ch._storage a).GetTimeSeconds ≤ (ch._storage b).GetTimeSeconds := by
  obtain ⟨h1, h2, h3, -⟩ :=
    scanFrom_spec ch._storage ch._maxLength (ch._maxLength - 1).toNat 1 rfl
  rw [← updateData_length] at h1 h2 h3
  refine ⟨h1, ?_, ?_, ?_⟩
  · rcases h2 with h | h
    · exact le_trans h (le_max_right _ _)
    · rw [h]
      exact le_max_left _ _
  · intro i hi1 hi2
    exact not_stopCondition _ _ (h3 i hi1 hi2)
  · intro a b ha hab hb
    exact mono_of_adjacent (fun j => (ch._storage j).GetTimeSeconds) ch.UpdateData._length
      (fun j hj1 hj2 => (not_stopCondition _ _ (h3 j hj1 hj2)).2.2.1)
      (b - a).toNat a b ha (by omega) hb

theorem emptyChannel_validate_length : emptyChannel.UpdateData._length = 1 := by
  simp [Channel.UpdateData, emptyChannel, Channel.init, Channel.scanFrom, storageOf,
    Point.IsValid, Point.IsZero, Point.GetTimeSeconds, Point.zero]

theorem validate_postcondition_witness :
    emptyChannel.UpdateData._length = 1 ∧
    1 ≤ emptyChannel.UpdateData._length ∧
    emptyChannel.UpdateData._length ≤ max 1 emptyChannel._maxLength := by
  obtain ⟨h1, h2, -⟩ := validate_postcondition emptyChannel
  exact ⟨emptyChannel_validate_length, h1, h2⟩

/-- C15 (as stated, refuted): with 6:00 100% in slot 1, the zero sentinel in slot 2 and
8:00 100% in slot 3 (capacity 10), the hypotheses hold for `L = 1`, yet the scan of
`validate()` stops at position 1: the single zero slot ends the schedule. -/
theorem validate_stops_at_single_zero_slot :
    (1 : Int) < (Channel.init 0 10 FadeMode.fademode_linear (storageOf gapSchedule))._maxLength
      - 1 ∧
    (storageOf gapSchedule 1).IsValid = true ∧ (storageOf gapSchedule 1).IsZero = false ∧
    (storageOf gapSchedule 2).IsZero = true ∧
    (storageOf gapSchedule 3).IsValid = true ∧ (storageOf gapSchedule 3).IsZero = false ∧
    (Channel.init 0 10 FadeMode.fademode_linear (storageOf gapSchedule)).UpdateData._length
      = 1 := by
  refine ⟨by decide, ?_, ?_, ?_, ?_, ?_, ?_⟩
  · simp [storageOf, gapSchedule, Point.ofHM, Point.IsValid, toByte]
  · simp [storageOf, gapSchedule, Point.ofHM, Point.IsZero, toByte]
  · simp [storageOf, gapSchedule, Point.IsZero, Point.zero]
  · simp [storageOf, gapSchedule, Point.ofHM, Point.IsValid, toByte]
  · simp [storageOf, gapSchedule, Point.ofHM, Point.IsZero, toByte]
  · simp [Channel.UpdateData, Channel.init, Channel.scanFrom, storageOf, gapSchedule,
      Point.ofHM, Point.IsValid, Point.IsZero, Point.GetTimeSeconds, Point.zero, toByte]

/-- C15 (amended): the default-constructed waypoint is zero and valid.  When the scan
reaches position `L < capacity - 1`, slot `L` is valid and non-zero, slot `L + 1` is the
zero sentinel and slot `L + 2` is valid and non-zero, the scan stops at `L` if
`time(L) > 0` (the zero slot is earlier in the day), and passes `L` and `L + 1` if
`time(L) = 0`. -/
theorem zero_sentinel (ch : Channel) (L : Int) (h1 : 1 ≤ L) (hL : L < ch._maxLength - 1)
    (hreach : ∀ j, 1 ≤ j → j < L → ¬ StopCondition ch._storage j)
    (hv : (ch._storage L).IsValid = true) (hnz : (ch._storage L).IsZero = false)
    (hz : (ch._storage (L + 1)).IsZero = true)
    (hv2 : (ch._storage (L + 2)).IsValid = true)
    (hnz2 : (ch._storage (L + 2)).IsZero = false) :
    Point.zero.IsZero = true ∧ Point.zero.IsValid = true ∧
    (0 < (ch._storage L).GetTimeSeconds → ch.UpdateData._length = L) ∧
    ((ch._storage L).GetTimeSeconds = 0 → L + 2 ≤ ch.UpdateData._length) := by
  obtain ⟨r1, r2, r3, r4⟩ :=
    scanFrom_spec ch._storage ch._maxLength (ch._maxLength - 1).toNat 1 rfl
  rw [← updateData_length] at r1 r2 r3 r4
  have hzt : (ch._storage (L + 1)).GetTimeSeconds = 0 ∧
      (ch._storage (L + 1)).IsValid = true := by
    simp only [Point.IsZero, Bool.and_eq_true, decide_eq_true_eq] at hz
    simp [Point.GetTimeSeconds, Point.IsValid, hz.1, hz.2]
  have hv2t := (valid_bounds _ hv2).1
  refine ⟨by simp [Point.IsZero, Point.zero], by simp [Point.IsValid, Point.zero], ?_, ?_⟩
  · intro hpos
    have hstop : StopCondition ch._storage L := by
      right; right; left
      omega
    by_contra hne
    rcases lt_or_gt_of_ne hne with hlt | hgt
    · exact hreach _ r1 hlt (r4 (by omega))
    · exact r3 L h1 hgt hstop
  · intro ht0
    have hns1 : ¬ StopCondition ch._storage L := by
      rintro (h | h | h | ⟨h, -⟩)
      · rw [hv] at h; exact Bool.noConfusion h
      · rw [hzt.2] at h; exact Bool.noConfusion h
      · omega
      · rw [hnz] at h; exact Bool.noConfusion h
    have e : L + 1 + 1 = L + 2 := by ring
    have hns2 : ¬ StopCondition ch._storage (L + 1) := by
      rw [StopCondition, e]
      rintro (h | h | h | ⟨-, h⟩)
      · rw [hzt.2] at h; exact Bool.noConfusion h
      · rw [hv2] at h; exact Bool.noConfusion h
      · omega
      · rw [hnz2] at h; exact Bool.noConfusion h
    by_contra hlt
    have hlt' : ch.UpdateData._length < L + 2 := not_le.mp hlt
    have hstop := r4 (by omega)
    by_cases c1 : ch.UpdateData._length < L
    · exact hreach _ r1 c1 hstop
    · by_cases c2 : ch.UpdateData._length = L
      · rw [c2] at hstop; exact hns1 hstop
      · have c3 : ch.UpdateData._length = L + 1 := by omega
        rw [c3] at hstop; exact hns2 hstop

theorem zero_sentinel_witness :
    (Channel.init 0 10 FadeMode.fademode_linear (storageOf gapSchedule)).UpdateData._length
      = 1 :=
  (zero_sentinel (Channel.init 0 10 FadeMode.fademode_linear (storageOf gapSchedule)) 1
    (by decide) (by decide) (fun j h1 h2 => absurd h2 (by omega))
    (by simp [Channel.init, storageOf, gapSchedule, Point.ofHM, Point.IsValid, toByte])
    (by simp [Channel.init, storageOf, gapSchedule, Point.ofHM, Point.IsZero, toByte])
    (by simp [Channel.init, storageOf, gapSchedule, Point.IsZero, Point.zero])
    (by simp [Channel.init, storageOf, gapSchedule, Point.ofHM, Point.IsValid, toByte])
    (by simp [Channel.init, storageOf, gapSchedule, Point.ofHM, Point.IsZero,
      toByte])).2.2.1
    (by simp [Channel.init, storageOf, gapSchedule, Point.ofHM, Point.GetTimeSeconds, toByte])

/-! ## The cursor cycle -/

/-- From a state whose caches are in sync, `k ≤ length` advances keep the caches in sync,
change nothing else, and put the cursor `k` positions further on the cycle `1..length`. -/
theorem iterate_moveForward (ch : Channel) (hs : ch.CachesInSync) (hn : 2 ≤ ch._length) :
    ∀ k : Nat, (k : Int) ≤ ch._length →
      (Channel.MoveForward^[k] ch).CachesInSync ∧
      (Channel.MoveForward^[k] ch)._storage = ch._storage ∧
      (Channel.MoveForward^[k] ch)._length = ch._length ∧
      (Channel.MoveForward^[k] ch)._currentPosition =
        (if ch._currentPosition + k ≤ ch._length then ch._currentPosition + k
          else ch._currentPosition + k - ch._length) := by
  intro k
  induction k with
  | zero =>
    intro _
    refine ⟨hs, rfl, rfl, ?_⟩
    have h2 := hs.2.1
    simp only [Function.iterate_zero, id_eq, Nat.cast_zero, add_zero]
    rw [if_pos h2]
  | succ k ih =>
    intro hk
    obtain ⟨s1, s2, s3, s4⟩ := ih (by omega)
    rw [Function.iterate_succ_apply']
    obtain ⟨m1, m2⟩ := moveForward_sync (Channel.MoveForward^[k] ch) s1.1 s1.2.1
      (by rw [s3]; exact hn)
    obtain ⟨f1, f2, -, -, -, -⟩ := moveForward_frame (Channel.MoveForward^[k] ch)
    refine ⟨m1, by rw [f1, s2], by rw [f2, s3], ?_⟩
    rw [m2]
    unfold Channel.succPos
    rw [s3, s4]
    have c1 := hs.1
    have c2 := hs.2.1
    push_cast
    split_ifs <;> omega

/-- C18: for `length ≥ 2` and a cursor `c` in `1..length`, one `MoveForward` sets the
cursor to `(c mod length) + 1`, again in `1..length`, the cache `_previous` to the
waypoint at the new cursor and `_next` to the waypoint at `(new cursor mod length) + 1`,
and changes neither storage nor length; `length` further advances bring the cursor and
both caches back to the values they had after that first advance, and `length` advances
bring the cursor itself back to `c`. -/
theorem advance_cursor_circular (ch : Channel) (hn : 2 ≤ ch._length)
    (h1 : 1 ≤ ch._currentPosition) (h2 : ch._currentPosition ≤ ch._length) :
    ch.MoveForward._currentPosition = ch._currentPosition % ch._length + 1 ∧
    1 ≤ ch.MoveForward._currentPosition ∧ ch.MoveForward._currentPosition ≤ ch._length ∧
    ch.MoveForward._previous = ch._storage ch.MoveForward._currentPosition ∧
    ch.MoveForward._next =
      ch._storage (ch.MoveForward._currentPosition % ch._length + 1) ∧
    ch.MoveForward._storage = ch._storage ∧ ch.MoveForward._length = ch._length ∧
    (Channel.MoveForward^[ch._length.toNat] ch.MoveForward)._currentPosition
      = ch.MoveForward._currentPosition ∧
    (Channel.MoveForward^[ch._length.toNat] ch.MoveForward)._previous
      = ch.MoveForward._previous ∧
    (Channel.MoveForward^[ch._length.toNat] ch.MoveForward)._next
      = ch.MoveForward._next ∧
    (Channel.MoveForward^[ch._length.toNat] ch)._currentPosition = ch._currentPosition := by
  obtain ⟨hs, hc⟩ := moveForward_sync ch h1 h2 hn
  obtain ⟨f1, f2, -, -, -, -⟩ := moveForward_frame ch
  have hmod : ∀ c : Int, 1 ≤ c → c ≤ ch._length → ch.succPos c = c % ch._length + 1 := by
    intro c c1 c2
    unfold Channel.succPos
    by_cases hlt : c < ch._length
    · rw [if_pos hlt, Int.emod_eq_of_lt (by omega) hlt]
    · have e : c = ch._length := by omega
      rw [if_neg hlt, e, Int.emod_self]
      rfl
  obtain ⟨s1, s2, s3, s4⟩ := hs
  have hn' : 2 ≤ ch.MoveForward._length := by rw [f2]; exact hn
  have hlen : ((ch.MoveForward._length.toNat : Nat) : Int) = ch.MoveForward._length := by
    omega
  obtain ⟨i1, i2, i3, i4⟩ := iterate_moveForward ch.MoveForward ⟨s1, s2, s3, s4⟩ hn'
    ch.MoveForward._length.toNat (by omega)
  rw [hlen, if_neg (by omega)] at i4
  have i4' : (Channel.MoveForward^[ch.MoveForward._length.toNat]
      ch.MoveForward)._currentPosition = ch.MoveForward._currentPosition := by
    rw [i4]; ring
  rw [f2] at i1 i2 i3 i4'
  have hprev : (Channel.MoveForward^[ch._length.toNat] ch.MoveForward)._previous
      = ch.MoveForward._previous := by
    rw [i1.2.2.1, i2, i4', s3]
  have hnext : (Channel.MoveForward^[ch._length.toNat] ch.MoveForward)._next
      = ch.MoveForward._next := by
    rw [i1.2.2.2, i2, s4, succPos_congr ch.MoveForward _ (by rw [i3, f2]), i4']
  have hback : (Channel.MoveForward^[ch._length.toNat] ch)._currentPosition
      = ch._currentPosition := by
    obtain ⟨k, hk⟩ : ∃ k : Nat, ch._length.toNat = k + 1 := ⟨ch._length.toNat - 1, by omega⟩
    rw [hk, Function.iterate_succ_apply]
    obtain ⟨-, -, -, j4⟩ := iterate_moveForward ch.MoveForward ⟨s1, s2, s3, s4⟩ hn' k
      (by rw [f2]; omega)
    rw [j4, f2, hc]
    unfold Channel.succPos
    split_ifs <;> omega
  refine ⟨by rw [hc]; exact hmod _ h1 h2, s1, by rw [← f2]; exact s2,
    by rw [s3, f1], ?_, f1, f2, i4', hprev, hnext, hback⟩
  rw [s4, f1, succPos_congr ch ch.MoveForward f2]
  congr 1
  exact hmod _ s1 (by rw [← f2]; exact s2)

theorem advance_cursor_circular_witness :
    dayChannel.MoveForward._currentPosition = 1 ∧
    (Channel.MoveForward^[5] dayChannel.MoveForward)._currentPosition = 1 ∧
    (Channel.MoveForward^[5] dayChannel)._currentPosition = 5 := by
  have hc : dayChannel._currentPosition = 5 := by
    simp [dayChannel, Channel.AddPoint, Channel.SetPoint, Channel.init]
  obtain ⟨a1, -, -, -, -, -, -, a8, -, -, a11⟩ := advance_cursor_circular dayChannel
    (by rw [dayChannel_length]; decide) (by rw [hc]; decide)
    (by rw [hc, dayChannel_length])
  rw [dayChannel_length, hc] at a1
  rw [dayChannel_length] at a8 a11
  have e : (5 : Int).toNat = 5 := rfl
  rw [e] at a8 a11
  have a1' : dayChannel.MoveForward._currentPosition = 1 := by rw [a1]; decide
  exact ⟨a1', by rw [a8, a1'], by rw [a11, hc]⟩

/-! ## Queries at the waypoint times -/

/-- With strictly increasing times in slots `1..length`, the only cyclically adjacent pair
that brackets `time(length)` is the wrap pair `(length, 1)`. -/
theorem bracket_unique_at_last (ch : Channel) (hn : 2 ≤ ch._length)
    (hinc : ∀ j, 1 ≤ j → j < ch._length →
      (ch._storage j).GetTimeSeconds < (ch._storage (j + 1)).GetTimeSeconds) :
    Channel.inBracket (ch._storage ch._length) (ch._storage (ch.succPos ch._length))
        (ch._storage ch._length).GetTimeSeconds = true ∧
    (∀ j, 1 ≤ j → j ≤ ch._length →
      Channel.inBracket (ch._storage j) (ch._storage (ch.succPos j))
        (ch._storage ch._length).GetTimeSeconds = true → j = ch._length) ∧
    (ch._storage 1).GetTimeSeconds < (ch._storage ch._length).GetTimeSeconds := by
  have hmono : ∀ a b : Int, 1 ≤ a → a ≤ b → b ≤ ch._length →
      (ch._storage a).GetTimeSeconds ≤ (ch._storage b).GetTimeSeconds := by
    intro a b ha hab hb
    exact mono_of_adjacent (fun j => (ch._storage j).GetTimeSeconds) ch._length
      (fun j h1 h2 => le_of_lt (hinc j h1 h2)) (b - a).toNat a b ha (by omega) hb
  have hends : (ch._storage 1).GetTimeSeconds < (ch._storage ch._length).GetTimeSeconds := by
    have h1 := hinc 1 (le_refl _) (by omega)
    have h2 := hmono (1 + 1) ch._length (by omega) (by omega) (le_refl _)
    omega
  refine ⟨?_, ?_, hends⟩
  · rw [succPos_of_ge ch _ (le_refl _), inBracket_iff]
    right; left
    exact ⟨le_refl _, hends⟩
  · intro j hj1 hj2 hb
    by_contra hne
    have hjn : j < ch._length := by omega
    rw [succPos_of_lt ch j hjn, inBracket_iff] at hb
    have h1 := hinc j hj1 hjn
    have h2 := hmono (j + 1) ch._length (by omega) (by omega) (le_refl _)
    omega


theorem roundBinary32_one : roundBinary32 1 = 1 := by
  have h := roundBinary32_intCast 1 (by decide)
  simpa using h

/-- The stored binary32 intensity of raw level `105657 / 512`, its binary32 square, the
level product and the truncation of that. -/
theorem level_fractional :
    roundBinary32 (35219 / 43520) = 3394283 / 4194304 ∧
    toFloat ((3394283 / 4194304) * (3394283 / 4194304)) = some (1373429 / 2097152) ∧
    toFloat (255 * (1373429 / 2097152)) = some 167 ∧ floatToInt 167 = 167 := by
  have r1 : roundBinary32 (35219 / 43520) = (3394283 / 4194304 : ℚ) := by
    rw [roundBinary32_eq_pos _ (-1) 13577132 (by decide) (by norm_num) (by norm_num) (by norm_num)
      (by norm_num)]
    norm_num
  have r2 : roundBinary32 ((3394283 / 4194304 : ℚ) * (3394283 / 4194304 : ℚ)) = (1373429 / 2097152 : ℚ) := by
    rw [roundBinary32_eq_pos _ (-1) 10987432 (by decide) (by norm_num) (by norm_num) (by norm_num)
      (by norm_num)]
    norm_num
  have r3 : roundBinary32 (255 * (1373429 / 2097152 : ℚ)) = (167 : ℚ) := by
    rw [roundBinary32_eq_pos _ 7 10944512 (by decide) (by norm_num) (by norm_num) (by norm_num)
      (by norm_num)]
    norm_num
  refine ⟨r1, toFloat_eval _ _ r2 (by norm_num [abs_lt]),
    toFloat_eval _ _ r3 (by norm_num [abs_lt]), ?_⟩
  unfold floatToInt
  rw [if_pos (by norm_num), Int.floor_eq_iff]
  constructor <;> norm_num

theorem fractionalChannel_search :
    fractionalChannel.GoToCurrentPosition 2 21600 = some fractionalChannel.MoveForward := by
  have hf1 : fractionalChannel.bracketFound 21600 = false := by
    simp [Channel.bracketFound, Channel.inBracket, fractionalChannel, Channel.AddPoint,
      Channel.SetPoint, Channel.init, Point.ofHM, Point.GetTimeSeconds, toByte]
  have hf2 : fractionalChannel.MoveForward.bracketFound 21600 = true := by
    simp [Channel.bracketFound, Channel.inBracket, Channel.MoveForward, fractionalChannel,
      Channel.AddPoint, Channel.SetPoint, Channel.init, Point.ofHM, Point.GetTimeSeconds,
      toByte]
  unfold Channel.GoToCurrentPosition
  rw [if_neg (by
    simp [fractionalChannel, Channel.AddPoint, Channel.SetPoint, Channel.init]),
    searchLoop_succ_of_not 1 _ _ hf1]
  exact searchLoop_of_found 1 _ _ hf2

theorem fractionalChannel_query :
    fractionalChannel.GetLightIntensityInt 2 21600 =
      some ({ fractionalChannel.MoveForward with _lightValue := 167 }, 167) := by
  have hy : fractionalChannel.MoveForward.currentIntensity 21600
      = some (3394283 / 4194304) := by
    have hd : fractionalChannel.MoveForward.timeDiff = 7200 := by
      simp [Channel.timeDiff, Channel.MoveForward, fractionalChannel, Channel.AddPoint,
        Channel.SetPoint, Channel.init, Point.ofHM, Point.GetTimeSeconds, toByte]
    have hpr : fractionalChannel.MoveForward.progress 21600 = 0 := by
      simp [Channel.progress, Channel.MoveForward, fractionalChannel, Channel.AddPoint,
        Channel.SetPoint, Channel.init, Point.ofHM, Point.GetTimeSeconds, toByte]
    have hp : fractionalChannel.MoveForward._previous.GetIntensity = 35219 / 43520 := by
      simp [Channel.MoveForward, fractionalChannel, Channel.AddPoint, Channel.SetPoint,
        Channel.init, Point.ofHM, Point.GetIntensity]
      norm_num
    have hx : fractionalChannel.MoveForward._next.GetIntensity = 0 := by
      simp [Channel.MoveForward, fractionalChannel, Channel.AddPoint, Channel.SetPoint,
        Channel.init, Point.ofHM, Point.GetIntensity]
    unfold Channel.currentIntensity
    rw [hd, hpr, hp, hx, interpolate_at_waypoint _ _ _ (by norm_num) (by norm_num)
      (le_refl _) (by norm_num) (by decide) (by decide), level_fractional.1]
  have hc : fractionalChannel.MoveForward.CorrectForFadeMode (3394283 / 4194304)
      = some (1373429 / 2097152) := by
    rw [correctForFadeMode_exponential _ (by
      simp [Channel.MoveForward, fractionalChannel, Channel.AddPoint, Channel.SetPoint,
        Channel.init])]
    exact level_fractional.2.1
  have hq := query_of_search 2 fractionalChannel fractionalChannel.MoveForward 21600 _ _ _
    fractionalChannel_search hy hc level_fractional.2.2.1
  rw [level_fractional.2.2.2] at hq
  exact hq

/-- C20, counterexample: `fractionalChannel` (exponential; 6:00 at raw level
`206.361328125`, 8:00 at raw level 0, provisioned by `AddPoint`, caches in sync) meets every
premise of the claim at `i = 1`. The query at `time(1)` = 6:00:00 ends with `_previous` equal
to slot 1 and returns 167, while the integer part of `255 * intensity(1)²` is 166, both
for the intensity `raw / 255` and for its stored binary32 value: the binary32 square and
product round up to exactly 167. -/
theorem waypoint_level_binary32_rounding :
    fractionalChannel._fadeMode = FadeMode.fademode_exponential ∧
    fractionalChannel._length = 2 ∧
    (fractionalChannel._storage 1).IsValid = true ∧
    (fractionalChannel._storage 2).IsValid = true ∧
    (fractionalChannel._storage 1).GetTimeSeconds
      < (fractionalChannel._storage 2).GetTimeSeconds ∧
    fractionalChannel.CachesInSync ∧
    (fractionalChannel._storage 1).GetTimeSeconds = 21600 ∧
    (fractionalChannel.GetLightIntensityInt 2 21600).map Prod.snd = some 167 ∧
    (fractionalChannel.GetLightIntensityInt 2 21600).map (fun r => r.1._previous)
      = some (fractionalChannel._storage 1) ∧
    Int.floor (255 * fadeCurve FadeMode.fademode_exponential
      (fractionalChannel._storage 1).GetIntensity) = 166 ∧
    Int.floor (255 * fadeCurve FadeMode.fademode_exponential
      (roundBinary32 (fractionalChannel._storage 1).GetIntensity)) = 166 := by
  have hp : (fractionalChannel._storage 1).GetIntensity = 35219 / 43520 := by
    simp [fractionalChannel, Channel.AddPoint, Channel.SetPoint, Channel.init, Point.ofHM,
      Point.GetIntensity]
    norm_num
  rw [fractionalChannel_query, hp, level_fractional.1]
  refine ⟨?_, ?_, ?_, ?_, ?_, ?_, ?_, rfl, ?_, ?_, ?_⟩
  · simp [fractionalChannel, Channel.AddPoint, Channel.SetPoint, Channel.init]
  · simp [fractionalChannel, Channel.AddPoint, Channel.SetPoint, Channel.init]
  · simp [fractionalChannel, Channel.AddPoint, Channel.SetPoint, Channel.init, Point.ofHM,
      Point.IsValid, toByte]
    norm_num
  · simp [fractionalChannel, Channel.AddPoint, Channel.SetPoint, Channel.init, Point.ofHM,
      Point.IsValid, toByte]
  · simp [fractionalChannel, Channel.AddPoint, Channel.SetPoint, Channel.init, Point.ofHM,
      Point.GetTimeSeconds, toByte]
  · simp [Channel.CachesInSync, Channel.succPos, fractionalChannel, Channel.AddPoint,
      Channel.SetPoint, Channel.init]
  · simp [fractionalChannel, Channel.AddPoint, Channel.SetPoint, Channel.init, Point.ofHM,
      Point.GetTimeSeconds, toByte]
  · simp [Channel.MoveForward, fractionalChannel, Channel.AddPoint, Channel.SetPoint,
      Channel.init]
  · unfold fadeCurve
    rw [Int.floor_eq_iff]
    constructor <;> norm_num
  · unfold fadeCurve
    rw [Int.floor_eq_iff]
    constructor <;> norm_num

/-- C20, amended: `length ≥ 2`, valid waypoints with strictly increasing times in slots
`1..length`, caches in sync, `i` in `1..length`: the query at `time(i)` ends (for every
fuel of at least `length` advances) with `_previous` equal to the waypoint in slot `i`.
The level it returns is the truncation of the binary32 product `255 * c`, where `c` is
`CorrectForFadeMode` of the binary32 value of `intensity(i)`; that product is within
`1/512` of `255 * fade(intensity(i))` and the level within `1 + 1/500` of it, `fade`
being the identity for linear and the square for exponential. -/
theorem schedule_passes_through_waypoints (ch : Channel) (i : Int) (hn : 2 ≤ ch._length)
    (hvalid : ∀ j, 1 ≤ j → j ≤ ch._length → (ch._storage j).IsValid = true)
    (hinc : ∀ j, 1 ≤ j → j < ch._length →
      (ch._storage j).GetTimeSeconds < (ch._storage (j + 1)).GetTimeSeconds)
    (hs : ch.CachesInSync) (hi1 : 1 ≤ i) (hi2 : i ≤ ch._length) :
    ∃ ch' v, (∀ fuel : Nat, ch._length.toNat ≤ fuel →
        ch.GetLightIntensityInt fuel (ch._storage i).GetTimeSeconds = some (ch', v)) ∧
      ch'._previous = ch._storage i ∧
      (∃ c z, ch.CorrectForFadeMode (roundBinary32 (ch._storage i).GetIntensity) = some c ∧
        toFloat (255 * c) = some z ∧ v = floatToInt z ∧
        |z - 255 * fadeCurve ch._fadeMode (ch._storage i).GetIntensity| ≤ 1 / 512) ∧
      |(v : ℚ) - 255 * fadeCurve ch._fadeMode (ch._storage i).GetIntensity|
        ≤ 1 + 1 / 500 := by
  have hfacts : Channel.inBracket (ch._storage i) (ch._storage (ch.succPos i))
        (ch._storage i).GetTimeSeconds = true ∧
      (∀ j, 1 ≤ j → j ≤ ch._length →
        Channel.inBracket (ch._storage j) (ch._storage (ch.succPos j))
          (ch._storage i).GetTimeSeconds = true → j = i) ∧
      ((ch._storage i).GetTimeSeconds < (ch._storage (ch.succPos i)).GetTimeSeconds ∨
        ((ch._storage (ch.succPos i)).GetTimeSeconds < (ch._storage i).GetTimeSeconds ∧
          (ch._storage i).GetTimeSeconds
            < 86400 + (ch._storage (ch.succPos i)).GetTimeSeconds)) := by
    by_cases hin : i < ch._length
    · have hlt := hinc i hi1 hin
      refine ⟨?_, bracket_unique_of_increasing ch i _ hinc hi1 hin (le_refl _) hlt, ?_⟩
      · rw [inBracket_iff, succPos_of_lt ch i hin]
        exact Or.inl ⟨le_refl _, hlt⟩
      · rw [succPos_of_lt ch i hin]
        exact Or.inl hlt
    · have hi : i = ch._length := by omega
      obtain ⟨b1, b2, b3⟩ := bracket_unique_at_last ch hn hinc
      rw [hi]
      refine ⟨b1, b2, Or.inr ?_⟩
      rw [succPos_of_ge ch _ (le_refl _)]
      have v1 := (valid_bounds _ (hvalid ch._length (by omega) (le_refl _))).2.1
      have v2 := (valid_bounds _ (hvalid 1 (le_refl _) (by omega))).1
      omega
  obtain ⟨hb, huniq, hspan⟩ := hfacts
  obtain ⟨ch1, r1, _, r3, r4, r5, _, _⟩ :=
    search_unique ch (ch._storage i).GetTimeSeconds i (Or.inl hs) hn hi1 hi2 hb huniq
  have hsr := succPos_range ch i hn hi1
  have hpv : ch1._previous.IsValid = true := by
    rw [r3]
    exact hvalid i hi1 hi2
  have hxv : ch1._next.IsValid = true := by
    rw [r4]
    exact hvalid _ hsr.1 hsr.2
  obtain ⟨-, -, p0, p1⟩ := valid_bounds _ (hvalid i hi1 hi2)
  obtain ⟨-, -, q0, q1⟩ := valid_bounds _ (hvalid _ hsr.1 hsr.2)
  have hd : 0 < ch1.timeDiff := by
    unfold Channel.timeDiff
    rw [r3, r4]
    split_ifs <;> omega
  have hprog : ch1.progress (ch._storage i).GetTimeSeconds = 0 := by
    unfold Channel.progress
    rw [r3, if_pos (le_refl _)]
    omega
  have hy : ch1.currentIntensity (ch._storage i).GetTimeSeconds
      = some (roundBinary32 (ch._storage i).GetIntensity) := by
    unfold Channel.currentIntensity
    rw [hprog, r3, r4]
    exact interpolate_at_waypoint _ _ _ p0 p1 q0 q1 hd (timeDiff_lt ch1 hpv hxv)
  have hclose : |roundBinary32 (ch._storage i).GetIntensity - (ch._storage i).GetIntensity|
      ≤ 1 / 1048576 := by
    have h := roundBinary32_close (ch._storage i).GetIntensity 1
      (small_power_le _ (by norm_num)) (by rw [abs_le]; constructor <;> linarith)
    rw [abs_le] at h ⊢
    constructor <;> linarith [h.1, h.2]
  obtain ⟨c, z, hc, hz, -, hzc⟩ := level_close ch1 _ _ p0 p1 hclose
  have hc' : ch.CorrectForFadeMode (roundBinary32 (ch._storage i).GetIntensity) = some c := by
    rw [← hc]
    unfold Channel.CorrectForFadeMode
    rw [r5]
  rw [r5] at hzc
  refine ⟨_, _, fun fuel hfuel => query_of_search fuel ch ch1 _ _ c z (r1 fuel hfuel) hy hc hz,
    r3, ⟨c, z, hc', hz, rfl, hzc⟩, ?_⟩
  have key := floatToInt_within z
  rw [abs_lt] at key
  rw [abs_le] at hzc ⊢
  constructor <;> linarith [hzc.1, hzc.2, key.1, key.2]

theorem schedule_passes_through_waypoints_witness :
    ∃ ch' v, (∀ fuel : Nat, 2 ≤ fuel →
        expChannel.GetLightIntensityInt fuel 28800 = some (ch', v)) ∧
      ch'._previous = expChannel._storage 2 ∧ v = 255 := by
  have ht : (expChannel._storage 2).GetTimeSeconds = 28800 := by
    simp [expChannel, Channel.AddPoint, Channel.SetPoint, Channel.init, Point.ofHM,
      Point.GetTimeSeconds, toByte]
  have hp : (expChannel._storage 2).GetIntensity = 1 := by
    simp [expChannel, Channel.AddPoint, Channel.SetPoint, Channel.init, Point.ofHM,
      Point.GetIntensity]
  have hm : expChannel._fadeMode = FadeMode.fademode_exponential := by
    simp [expChannel, Channel.AddPoint, Channel.SetPoint, Channel.init]
  obtain ⟨ch', v, h1, h2, ⟨c, z, hc, hz, hv, -⟩, -⟩ :=
    schedule_passes_through_waypoints expChannel 2
    (by rw [expChannel_length])
    (by
      intro j hj1 hj2
      rw [expChannel_length] at hj2
      interval_cases j <;>
        simp [expChannel, Channel.AddPoint, Channel.SetPoint, Channel.init, Point.ofHM,
          Point.IsValid, toByte])
    (by
      intro j hj1 hj2
      rw [expChannel_length] at hj2
      interval_cases j
      simp [expChannel, Channel.AddPoint, Channel.SetPoint, Channel.init, Point.ofHM,
          Point.GetTimeSeconds, toByte])
    expChannel_sync (by decide) (by rw [expChannel_length])
  rw [ht, expChannel_length] at h1
  refine ⟨ch', v, h1, h2, ?_⟩
  have e255 : roundBinary32 255 = 255 := by
    have h := roundBinary32_intCast 255 (by decide)
    simpa using h
  rw [hp, roundBinary32_one, correctForFadeMode_exponential _ hm, one_mul,
    toFloat_eval _ _ roundBinary32_one (by norm_num [abs_lt])] at hc
  have ec : c = 1 := (Option.some.inj hc).symm
  rw [ec, mul_one, toFloat_eval _ _ e255 (by norm_num [abs_lt])] at hz
  have ez : z = 255 := (Option.some.inj hz).symm
  rw [hv, ez]
  unfold floatToInt
  rw [if_pos (by norm_num), Int.floor_eq_iff]
  constructor <;> norm_num

/-! ## Scale and store -/

/-- The stored level does not enter the interpolation. -/
theorem currentIntensity_lightValue (ch : Channel) (v t : Int) :
    Channel.currentIntensity { ch with _lightValue := v } t = ch.currentIntensity t := rfl

/-- C16, counterexample: on the exponential channel 6:00 0%, 8:00 100% the query at
7:00:00 has interpolated intensity `1/2` and corrected intensity `1/4`, both exact in
binary32; the binary32 product `255 * 1/4` is exactly `63.75`, which rounds to 64, but the
level returned and stored is 63. -/
theorem query_level_not_rounded :
    (expChannel.GetLightIntensityInt 2 25200).map Prod.snd = some 63 ∧
    (expChannel.GetLightIntensityInt 2 25200).map (fun r => r.1._lightValue) = some 63 ∧
    (expChannel.GetLightIntensityInt 2 25200).bind (fun r => r.1.currentIntensity 25200)
      = some (1 / 2) ∧
    expChannel.CorrectForFadeMode (1 / 2) = some (1 / 4) ∧
    toFloat (255 * (1 / 4)) = some (255 / 4) ∧
    round ((255 / 4 : ℚ)) = 64 ∧ (63 : Int) ≠ 64 := by
  have hm : expChannel._fadeMode = FadeMode.fademode_exponential := by
    simp [expChannel, Channel.AddPoint, Channel.SetPoint, Channel.init]
  have hq := expChannel_query.1
  refine ⟨?_, ?_, ?_, ?_, level_quarter.2.1, ?_, by decide⟩
  · rw [hq, Option.map_some']
  · rw [hq, Option.map_some']
  · rw [hq, Option.some_bind]
    dsimp only
    rw [currentIntensity_lightValue]
    exact expChannel_query.2.1
  · rw [correctForFadeMode_exponential expChannel hm]
    exact level_quarter.1
  · rw [round_eq]
    norm_num [Int.floor_eq_iff]

/-- C16, amended: a query that returns gives the level it stores, and that level is the
binary32 product `z` of 255 and the corrected intensity `c` (the fade correction of the
binary32 interpolated intensity `y`), truncated toward zero, not rounded: it is the floor
of `z` for a non-negative product and the ceiling for a non-positive one. -/
theorem query_level_truncated (fuel : Nat) (ch ch' : Channel) (t v : Int)
    (hq : ch.GetLightIntensityInt fuel t = some (ch', v)) :
    ch'._lightValue = v ∧
    ∃ y c z, ch'.currentIntensity t = some y ∧ ch.CorrectForFadeMode y = some c ∧
      toFloat (255 * c) = some z ∧ z = roundBinary32 (255 * c) ∧
      v = floatToInt z ∧ (0 ≤ z → v = Int.floor z) ∧ (z ≤ 0 → v = Int.ceil z) := by
  obtain ⟨ch1, y, c, z, hgo, hci, hc, hz, hch, hv⟩ := query_some fuel ch ch' t v hq
  obtain ⟨-, hmode⟩ := goToCurrentPosition_result fuel ch ch1 t hgo
  have hc' : ch.CorrectForFadeMode y = some c := by
    rw [← hc]
    unfold Channel.CorrectForFadeMode
    rw [hmode]
  refine ⟨by rw [hch, hv], y, c, z, by rw [hch]; exact hci, hc', hz,
    toFloat_eq_some _ _ hz, hv, ?_, ?_⟩
  · intro h0
    rw [hv, floatToInt_of_nonneg _ h0]
  · intro h0
    rw [hv]
    unfold floatToInt
    split_ifs with hc0
    · have hz0 : z = 0 := le_antisymm h0 hc0
      rw [hz0]
      simp
    · rfl

theorem query_level_truncated_witness :
    Channel._lightValue { expChannel.MoveForward with _lightValue := 63 } = 63 ∧
    ∃ y c z, Channel.currentIntensity
        { expChannel.MoveForward with _lightValue := 63 } 25200 = some y ∧
      expChannel.CorrectForFadeMode y = some c ∧
      toFloat (255 * c) = some z ∧ z = roundBinary32 (255 * c) ∧
      (63 : Int) = floatToInt z ∧ (0 ≤ z → (63 : Int) = Int.floor z) ∧
      (z ≤ 0 → (63 : Int) = Int.ceil z) :=
  query_level_truncated 2 expChannel _ 25200 63 expChannel_query.1

/-! ## Levels of the example schedules -/

/-- The binary32 interpolation from intensity 1 to intensity 0 at progress 2400 of a span of
7200 seconds, its level product and the truncation of that. -/
theorem interpolate_evening :
    interpolate 1 0 2400 7200 = some (5592405 / 8388608) ∧
    toFloat (255 * (5592405 / 8388608)) = some (11141119 / 65536) ∧ floatToInt (11141119 / 65536) = 169 := by
  have r1 : roundBinary32 (1) = (1 : ℚ) := by
    rw [roundBinary32_eq_pos _ 0 8388608 (by decide) (by norm_num) (by norm_num) (by norm_num)
      (by norm_num)]
    norm_num
  have r2 : roundBinary32 (0 - 1) = (-1 : ℚ) := by
    rw [roundBinary32_eq_neg _ 0 (-8388608) (by decide) (by norm_num) (by norm_num) (by norm_num)
      (by norm_num)]
    norm_num
  have r3 : roundBinary32 ((-1 : ℚ) / 7200) = (-(2386093 / 17179869184) : ℚ) := by
    rw [roundBinary32_eq_neg _ (-13) (-9544372) (by decide) (by norm_num) (by norm_num) (by norm_num)
      (by norm_num)]
    norm_num
  have r4 : roundBinary32 (2400 * (-(2386093 / 17179869184) : ℚ)) = (-(11184811 / 33554432) : ℚ) := by
    rw [roundBinary32_eq_neg _ (-2) (-11184811) (by decide) (by norm_num) (by norm_num) (by norm_num)
      (by norm_num)]
    norm_num
  have r5 : roundBinary32 (1 + (-(11184811 / 33554432) : ℚ)) = (5592405 / 8388608 : ℚ) := by
    rw [roundBinary32_eq_tie_pos _ (-1) 11184810 (by decide) (by norm_num) (by norm_num)
      (by norm_num) (by decide)]
    norm_num
  have r6 : roundBinary32 (255 * (5592405 / 8388608)) = (11141119 / 65536 : ℚ) := by
    rw [roundBinary32_eq_pos _ 7 11141119 (by decide) (by norm_num) (by norm_num) (by norm_num)
      (by norm_num)]
    norm_num
  have rd : roundBinary32 (((7200 : Int) : ℚ)) = 7200 := by
    rw [roundBinary32_intCast 7200 (by decide)]
    norm_num
  have ra : roundBinary32 (((2400 : Int) : ℚ)) = 2400 := by
    rw [roundBinary32_intCast 2400 (by decide)]
    norm_num
  refine ⟨?_, toFloat_eval _ _ r6 (by norm_num [abs_lt]), ?_⟩
  · unfold interpolate floatDiv
    rw [roundBinary32_zero, r1, toFloat_eval _ _ r2 (by norm_num [abs_lt]), Option.some_bind,
      if_neg (by decide), rd, toFloat_eval _ _ r3 (by norm_num [abs_lt]), Option.some_bind,
      ra, toFloat_eval _ _ r4 (by norm_num [abs_lt]), Option.some_bind,
      toFloat_eval _ _ r5 (by norm_num [abs_lt])]
  · unfold floatToInt
    rw [if_pos (by norm_num), Int.floor_eq_iff]
    constructor <;> norm_num

/-- The five-point day schedule queried at 20:40:00, a third of the way from 20:00 100% to
22:00 0%: the query returns 169, where `255 * 2/3 = 170`. -/
theorem dayChannel_query_evening :
    ∀ fuel : Nat, 5 ≤ fuel →
      (dayChannel.GetLightIntensityInt fuel 74400).map Prod.snd = some 169 := by
  have hinc : ∀ j, 1 ≤ j → j < dayChannel._length →
      (dayChannel._storage j).GetTimeSeconds < (dayChannel._storage (j + 1)).GetTimeSeconds := by
    intro j hj1 hj2
    rw [dayChannel_length] at hj2
    interval_cases j <;>
      simp [dayChannel, Channel.AddPoint, Channel.SetPoint, Channel.init, Point.ofHM,
        Point.GetTimeSeconds, toByte]
  have ht4 : (dayChannel._storage 4).GetTimeSeconds = 72000 := by
    simp [dayChannel, Channel.AddPoint, Channel.SetPoint, Channel.init, Point.ofHM,
      Point.GetTimeSeconds, toByte]
  have ht5 : (dayChannel._storage (4 + 1)).GetTimeSeconds = 79200 := by
    simp [dayChannel, Channel.AddPoint, Channel.SetPoint, Channel.init, Point.ofHM,
      Point.GetTimeSeconds, toByte]
  have hi4 : (dayChannel._storage 4).GetIntensity = 1 := by
    simp [dayChannel, Channel.AddPoint, Channel.SetPoint, Channel.init, Point.ofHM,
      Point.GetIntensity]
  have hi5 : (dayChannel._storage (4 + 1)).GetIntensity = 0 := by
    simp [dayChannel, Channel.AddPoint, Channel.SetPoint, Channel.init, Point.ofHM,
      Point.GetIntensity]
  have hsucc : dayChannel.succPos 4 = 4 + 1 :=
    succPos_of_lt dayChannel 4 (by rw [dayChannel_length]; decide)
  have hb : Channel.inBracket (dayChannel._storage 4)
      (dayChannel._storage (dayChannel.succPos 4)) 74400 = true := by
    rw [inBracket_iff, hsucc, ht4, ht5]
    exact Or.inl ⟨by decide, by decide⟩
  obtain ⟨ch1, r1, _, r3, r4, r5, _, _⟩ :=
    search_unique dayChannel 74400 4
      (Or.inl (by
        simp [Channel.CachesInSync, Channel.succPos, dayChannel, Channel.AddPoint,
          Channel.SetPoint, Channel.init]))
      (by rw [dayChannel_length]; decide) (by decide) (by rw [dayChannel_length]; decide) hb
      (bracket_unique_of_increasing dayChannel 4 74400 hinc (by decide)
        (by rw [dayChannel_length]; decide) (by rw [ht4]; decide) (by rw [ht5]; decide))
  rw [hsucc] at r4
  have hd : ch1.timeDiff = 7200 := by
    unfold Channel.timeDiff
    rw [r3, r4, ht4, ht5]
    rfl
  have hpr : ch1.progress 74400 = 2400 := by
    unfold Channel.progress
    rw [r3, ht4]
    rfl
  have hy : ch1.currentIntensity 74400 = some (5592405 / 8388608) := by
    unfold Channel.currentIntensity
    rw [hd, hpr, r3, r4, hi4, hi5]
    exact interpolate_evening.1
  have hc : ch1.CorrectForFadeMode (5592405 / 8388608) = some (5592405 / 8388608) :=
    correctForFadeMode_linear _ (by
      rw [r5]
      simp [dayChannel, Channel.AddPoint, Channel.SetPoint, Channel.init]) _
  intro fuel hfuel
  rw [query_of_search fuel dayChannel ch1 74400 _ _ _
    (r1 fuel (by rw [dayChannel_length]; exact hfuel)) hy hc interpolate_evening.2.1,
    interpolate_evening.2.2, Option.map_some']

/-- The binary32 interpolation from intensity 1 to intensity 0 at progress 7680 of a span of
14400 seconds, its level product and the truncation of that. -/
theorem interpolate_night :
    interpolate 1 0 7680 14400 = some (7829367 / 16777216) ∧
    toFloat (255 * (7829367 / 16777216)) = some (15597567 / 131072) ∧ floatToInt (15597567 / 131072) = 118 := by
  have r1 : roundBinary32 (1) = (1 : ℚ) := by
    rw [roundBinary32_eq_pos _ 0 8388608 (by decide) (by norm_num) (by norm_num) (by norm_num)
      (by norm_num)]
    norm_num
  have r2 : roundBinary32 (0 - 1) = (-1 : ℚ) := by
    rw [roundBinary32_eq_neg _ 0 (-8388608) (by decide) (by norm_num) (by norm_num) (by norm_num)
      (by norm_num)]
    norm_num
  have r3 : roundBinary32 ((-1 : ℚ) / 14400) = (-(2386093 / 34359738368) : ℚ) := by
    rw [roundBinary32_eq_neg _ (-14) (-9544372) (by decide) (by norm_num) (by norm_num) (by norm_num)
      (by norm_num)]
    norm_num
  have r4 : roundBinary32 (7680 * (-(2386093 / 34359738368) : ℚ)) = (-(8947849 / 16777216) : ℚ) := by
    rw [roundBinary32_eq_neg _ (-1) (-8947849) (by decide) (by norm_num) (by norm_num) (by norm_num)
      (by norm_num)]
    norm_num
  have r5 : roundBinary32 (1 + (-(8947849 / 16777216) : ℚ)) = (7829367 / 16777216 : ℚ) := by
    rw [roundBinary32_eq_pos _ (-2) 15658734 (by decide) (by norm_num) (by norm_num) (by norm_num)
      (by norm_num)]
    norm_num
  have r6 : roundBinary32 (255 * (7829367 / 16777216)) = (15597567 / 131072 : ℚ) := by
    rw [roundBinary32_eq_pos _ 6 15597567 (by decide) (by norm_num) (by norm_num) (by norm_num)
      (by norm_num)]
    norm_num
  have rd : roundBinary32 (((14400 : Int) : ℚ)) = 14400 := by
    rw [roundBinary32_intCast 14400 (by decide)]
    norm_num
  have ra : roundBinary32 (((7680 : Int) : ℚ)) = 7680 := by
    rw [roundBinary32_intCast 7680 (by decide)]
    norm_num
  refine ⟨?_, toFloat_eval _ _ r6 (by norm_num [abs_lt]), ?_⟩
  · unfold interpolate floatDiv
    rw [roundBinary32_zero, r1, toFloat_eval _ _ r2 (by norm_num [abs_lt]), Option.some_bind,
      if_neg (by decide), rd, toFloat_eval _ _ r3 (by norm_num [abs_lt]), Option.some_bind,
      ra, toFloat_eval _ _ r4 (by norm_num [abs_lt]), Option.some_bind,
      toFloat_eval _ _ r5 (by norm_num [abs_lt])]
  · unfold floatToInt
    rw [if_pos (by norm_num), Int.floor_eq_iff]
    constructor <;> norm_num

theorem wrapChannel_search :
    wrapChannel.GoToCurrentPosition 2 480 = some wrapChannel.MoveForward := by
  have hf1 : wrapChannel.bracketFound 480 = false := by
    simp [Channel.bracketFound, Channel.inBracket, wrapChannel, Channel.AddPoint,
      Channel.SetPoint, Channel.init, Point.ofHM, Point.GetTimeSeconds, toByte]
  have hf2 : wrapChannel.MoveForward.bracketFound 480 = true := by
    simp [Channel.bracketFound, Channel.inBracket, Channel.MoveForward, wrapChannel,
      Channel.AddPoint, Channel.SetPoint, Channel.init, Point.ofHM, Point.GetTimeSeconds,
      toByte]
  unfold Channel.GoToCurrentPosition
  rw [if_neg (by
    simp [wrapChannel, Channel.AddPoint, Channel.SetPoint, Channel.init]),
    searchLoop_succ_of_not 1 _ _ hf1]
  exact searchLoop_of_found 1 _ _ hf2

/-- The wrap schedule 22:00 100%, 2:00 0% queried at 0:08:00, past midnight inside the
wrapped bracket (progress 7680 of span 14400): the query returns 118, where
`255 * (1 - 7680 / 14400) = 119`. -/
theorem wrapChannel_query_night :
    (wrapChannel.GetLightIntensityInt 2 480).map Prod.snd = some 118 := by
  have hd : wrapChannel.MoveForward.timeDiff = 14400 := by
    simp [Channel.timeDiff, Channel.MoveForward, wrapChannel, Channel.AddPoint,
      Channel.SetPoint, Channel.init, Point.ofHM, Point.GetTimeSeconds, toByte]
  have hpr : wrapChannel.MoveForward.progress 480 = 7680 := by
    simp [Channel.progress, Channel.MoveForward, wrapChannel, Channel.AddPoint,
      Channel.SetPoint, Channel.init, Point.ofHM, Point.GetTimeSeconds, toByte]
  have hp : wrapChannel.MoveForward._previous.GetIntensity = 1 := by
    simp [Channel.MoveForward, wrapChannel, Channel.AddPoint, Channel.SetPoint,
      Channel.init, Point.ofHM, Point.GetIntensity]
  have hx : wrapChannel.MoveForward._next.GetIntensity = 0 := by
    simp [Channel.MoveForward, wrapChannel, Channel.AddPoint, Channel.SetPoint,
      Channel.init, Point.ofHM, Point.GetIntensity]
  have hy : wrapChannel.MoveForward.currentIntensity 480 = some (7829367 / 16777216) := by
    unfold Channel.currentIntensity
    rw [hd, hpr, hp, hx]
    exact interpolate_night.1
  have hc : wrapChannel.MoveForward.CorrectForFadeMode (7829367 / 16777216) = some (7829367 / 16777216) :=
    correctForFadeMode_linear _ (by
      simp [Channel.MoveForward, wrapChannel, Channel.AddPoint, Channel.SetPoint,
        Channel.init]) _
  rw [query_of_search 2 wrapChannel wrapChannel.MoveForward 480 _ _ _
    wrapChannel_search hy hc interpolate_night.2.1, interpolate_night.2.2, Option.map_some']

/-! ## Adding points -/

/-- What `AddPoint` does to the storage, the length and the capacity, on every channel. -/
theorem addPoint_effect (ch : Channel) (h m : Int) (x : ℚ) :
    (ch.AddPoint h m x)._storage ch.addPosition = Point.ofHM h m x ∧
    (∀ j, j ≠ ch.addPosition → (ch.AddPoint h m x)._storage j = ch._storage j) ∧
    (ch.AddPoint h m x)._maxLength = ch._maxLength ∧
    (ch.AddPoint h m x)._length = (if ch._length = 0 then 1 else ch._length + 1) := by
  by_cases h0 : ch._length = 0
  · refine ⟨?_, ?_, ?_, ?_⟩
    · simp [Channel.AddPoint, Channel.addPosition, Channel.SetPoint, h0]
    · intro j hj
      simp only [Channel.addPosition, h0, if_true] at hj
      simp [Channel.AddPoint, Channel.SetPoint, h0, hj]
    · simp [Channel.AddPoint, Channel.SetPoint, h0]
    · simp [Channel.AddPoint, Channel.SetPoint, h0]
  · refine ⟨?_, ?_, ?_, ?_⟩
    · simp [Channel.AddPoint, Channel.addPosition, Channel.SetPoint, h0]
    · intro j hj
      simp only [Channel.addPosition, h0, if_false] at hj
      simp [Channel.AddPoint, Channel.SetPoint, h0, hj]
    · simp [Channel.AddPoint, Channel.SetPoint, h0]
    · simp [Channel.AddPoint, Channel.SetPoint, h0]

/-- C11 (as stated, refuted): on a channel of capacity 2 whose length is already 2,
`AddPoint` writes the new waypoint to position 3, outside `1..capacity`, and sets the
length to 3. -/
theorem addPoint_writes_beyond_capacity :
    fullChannel._length = fullChannel._maxLength ∧ fullChannel._maxLength = 2 ∧
    (fullChannel.AddPoint 12 0 255)._storage 3 = Point.ofHM 12 0 255 ∧
    (fullChannel.AddPoint 12 0 255)._storage 3 ≠ fullChannel._storage 3 ∧
    (fullChannel.AddPoint 12 0 255)._length = 3 := by
  have hlen : fullChannel._length = 2 := by
    simp [fullChannel, Channel.AddPoint, Channel.SetPoint, Channel.init]
  have hcur : fullChannel._currentPosition = 2 := by
    simp [fullChannel, Channel.AddPoint, Channel.SetPoint, Channel.init]
  have hcap : fullChannel._maxLength = 2 := by
    simp [fullChannel, Channel.AddPoint, Channel.SetPoint, Channel.init]
  have hpos : fullChannel.addPosition = 3 := by
    unfold Channel.addPosition
    rw [hlen, hcur]
    decide
  obtain ⟨e1, -, -, e4⟩ := addPoint_effect fullChannel 12 0 255
  rw [hpos] at e1
  rw [hlen] at e4
  have hold : fullChannel._storage 3 = Point.zero := by
    simp [fullChannel, Channel.AddPoint, Channel.SetPoint, Channel.init, storageOf]
  refine ⟨by rw [hlen, hcap], hcap, e1, ?_, by rw [e4]; decide⟩
  rw [e1, hold]
  simp [Point.ofHM, Point.zero, toByte]

/-- When the cursor is on the last counted slot, as `AddPoint` calls on a fresh channel
leave it, `AddPoint` appends: it writes position `length + 1` and leaves slots
`1..length` unchanged. -/
theorem addPoint_appends_at_end (ch : Channel) (h m : Int) (x : ℚ)
    (hcur : ch._length ≠ 0 → ch._currentPosition = ch._length) :
    (ch.AddPoint h m x)._storage (ch._length + 1) = Point.ofHM h m x ∧
    (∀ j, 1 ≤ j → j ≤ ch._length → (ch.AddPoint h m x)._storage j = ch._storage j) ∧
    (ch.AddPoint h m x)._length = ch._length + 1 := by
  obtain ⟨e1, e2, -, e4⟩ := addPoint_effect ch h m x
  have hpos : ch.addPosition = ch._length + 1 := by
    unfold Channel.addPosition
    by_cases h0 : ch._length = 0
    · rw [if_pos h0, h0]; rfl
    · rw [if_neg h0, hcur h0]
  rw [hpos] at e1 e2
  refine ⟨e1, fun j _ hj2 => e2 j (by omega), ?_⟩
  rw [e4]
  split_ifs with h0
  · rw [h0]; rfl
  · rfl

/-- C11 (amended): `AddPoint` has no capacity guard and reports nothing.  On a channel whose
length equals the capacity, with the cursor on the last counted slot as `AddPoint` calls
leave it, it writes the new waypoint to position `capacity + 1`, leaves every slot of
`1..capacity` unmodified, leaves the capacity unchanged and sets the length to
`capacity + 1`. -/
theorem addPoint_no_capacity_guard (ch : Channel) (h m : Int) (x : ℚ)
    (hfull : ch._length = ch._maxLength)
    (hcur : ch._length ≠ 0 → ch._currentPosition = ch._length) :
    (ch.AddPoint h m x)._storage (ch._maxLength + 1) = Point.ofHM h m x ∧
    (∀ j, 1 ≤ j → j ≤ ch._maxLength → (ch.AddPoint h m x)._storage j = ch._storage j) ∧
    (ch.AddPoint h m x)._maxLength = ch._maxLength ∧
    (ch.AddPoint h m x)._length = ch._maxLength + 1 := by
  obtain ⟨a1, a2, a3⟩ := addPoint_appends_at_end ch h m x hcur
  obtain ⟨-, -, e3, -⟩ := addPoint_effect ch h m x
  rw [hfull] at a1 a2 a3
  exact ⟨a1, a2, e3, a3⟩

theorem addPoint_no_capacity_guard_witness :
    (fullChannel.AddPoint 12 0 255)._storage (fullChannel._maxLength + 1)
      = Point.ofHM 12 0 255 ∧
    (∀ j, 1 ≤ j → j ≤ fullChannel._maxLength →
      (fullChannel.AddPoint 12 0 255)._storage j = fullChannel._storage j) ∧
    (fullChannel.AddPoint 12 0 255)._maxLength = fullChannel._maxLength ∧
    (fullChannel.AddPoint 12 0 255)._length = fullChannel._maxLength + 1 :=
  addPoint_no_capacity_guard fullChannel 12 0 255
    (by simp [fullChannel, Channel.AddPoint, Channel.SetPoint, Channel.init])
    (by
      intro _
      simp [fullChannel, Channel.AddPoint, Channel.SetPoint, Channel.init])

/-- C12 (failing input): after `Reset` the cursor of the five-point day channel is 1;
`AddPoint(23, 0, 0)` then writes position 2, replacing the waypoint 6:00 0%, leaves the
free position 6 empty, and still counts the length up to 6. -/
theorem addPoint_after_reset_overwrites :
    dayChannel.Reset._length = 5 ∧ dayChannel.Reset._length < dayChannel.Reset._maxLength ∧
    dayChannel.Reset._storage 2 = Point.ofHM 6 0 0 ∧
    (dayChannel.Reset.AddPoint 23 0 0)._storage 2 = Point.ofHM 23 0 0 ∧
    (dayChannel.Reset.AddPoint 23 0 0)._storage 2 ≠ dayChannel.Reset._storage 2 ∧
    (dayChannel.Reset.AddPoint 23 0 0)._storage 6 = Point.zero ∧
    (dayChannel.Reset.AddPoint 23 0 0)._length = 6 := by
  have hlen : dayChannel.Reset._length = 5 := dayChannel_length
  have hcap : dayChannel.Reset._maxLength = 10 := by
    simp [Channel.Reset, dayChannel, Channel.AddPoint, Channel.SetPoint, Channel.init]
  have hpos : dayChannel.Reset.addPosition = 2 := by
    unfold Channel.addPosition
    rw [hlen]
    simp [Channel.Reset]
  have hold : dayChannel.Reset._storage 2 = Point.ofHM 6 0 0 := by
    simp [Channel.Reset, dayChannel, Channel.AddPoint, Channel.SetPoint, Channel.init]
  have h6 : dayChannel.Reset._storage 6 = Point.zero := by
    simp [Channel.Reset, dayChannel, Channel.AddPoint, Channel.SetPoint, Channel.init,
      storageOf]
  obtain ⟨e1, e2, -, e4⟩ := addPoint_effect dayChannel.Reset 23 0 0
  rw [hpos] at e1 e2
  rw [hlen] at e4
  refine ⟨hlen, by rw [hlen, hcap]; decide, hold, e1, ?_, ?_, by rw [e4]; decide⟩
  · rw [e1, hold]
    simp [Point.ofHM, toByte]
  · rw [e2 6 (by decide), h6]

/-! ## How many pairs bracket a time -/

/-- With non-decreasing times in slots `1..length`, at most one cyclically adjacent pair
brackets a time. -/
theorem bracket_at_most_one (ch : Channel) (t : Int)
    (hmono : ∀ j, 1 ≤ j → j < ch._length →
      (ch._storage j).GetTimeSeconds ≤ (ch._storage (j + 1)).GetTimeSeconds) :
    ∀ i j, 1 ≤ i → i ≤ ch._length → 1 ≤ j → j ≤ ch._length →
      Channel.inBracket (ch._storage i) (ch._storage (ch.succPos i)) t = true →
      Channel.inBracket (ch._storage j) (ch._storage (ch.succPos j)) t = true → i = j := by
  have hm : ∀ a b : Int, 1 ≤ a → a ≤ b → b ≤ ch._length →
      (ch._storage a).GetTimeSeconds ≤ (ch._storage b).GetTimeSeconds := by
    intro a b ha hab hb
    exact mono_of_adjacent (fun j => (ch._storage j).GetTimeSeconds) ch._length
      hmono (b - a).toNat a b ha (by omega) hb
  have key : ∀ i j, 1 ≤ i → i < j → j ≤ ch._length →
      Channel.inBracket (ch._storage i) (ch._storage (ch.succPos i)) t = true →
      Channel.inBracket (ch._storage j) (ch._storage (ch.succPos j)) t = true → False := by
    intro i j hi1 hij hj2 bi bj
    have hin : i < ch._length := by omega
    rw [succPos_of_lt ch i hin, inBracket_iff] at bi
    have a1 := hmono i hi1 hin
    have a2 := hm (i + 1) j (by omega) (by omega) hj2
    have a3 := hm 1 i (le_refl _) hi1 (by omega)
    by_cases hjn : j < ch._length
    · rw [succPos_of_lt ch j hjn, inBracket_iff] at bj
      have a4 := hmono j (by omega) hjn
      omega
    · have hj : j = ch._length := by omega
      rw [succPos_of_ge ch j (by omega), inBracket_iff] at bj
      omega
  intro i j hi1 hi2 hj1 hj2 bi bj
  by_contra hne
  rcases lt_or_gt_of_ne hne with h | h
  · exact key i j hi1 h hj2 bi bj
  · exact key j i hj1 h hi2 bj bi

/-- For a schedule counted by `validate()` with `length ≥ 2`: when the counted times are
not all equal exactly one cyclically adjacent pair brackets a time, and when they are all
equal none does. -/
theorem validated_bracket_count (ch : Channel) (t : Int) (hn : 2 ≤ ch.UpdateData._length) :
    ((∃ a b, 1 ≤ a ∧ a ≤ ch.UpdateData._length ∧ 1 ≤ b ∧ b ≤ ch.UpdateData._length ∧
        (ch._storage a).GetTimeSeconds ≠ (ch._storage b).GetTimeSeconds) →
      ∃ i, 1 ≤ i ∧ i ≤ ch.UpdateData._length ∧
        Channel.inBracket (ch._storage i) (ch._storage (ch.UpdateData.succPos i)) t = true ∧
        ∀ j, 1 ≤ j → j ≤ ch.UpdateData._length →
          Channel.inBracket (ch._storage j) (ch._storage (ch.UpdateData.succPos j)) t = true →
          j = i) ∧
    ((∀ a b, 1 ≤ a → a ≤ ch.UpdateData._length → 1 ≤ b → b ≤ ch.UpdateData._length →
        (ch._storage a).GetTimeSeconds = (ch._storage b).GetTimeSeconds) →
      ∀ i, 1 ≤ i → i ≤ ch.UpdateData._length →
        Channel.inBracket (ch._storage i) (ch._storage (ch.UpdateData.succPos i)) t
          = false) := by
  obtain ⟨-, -, h3, -⟩ :=
    scanFrom_spec ch._storage ch._maxLength (ch._maxLength - 1).toNat 1 rfl
  rw [← updateData_length] at h3
  have hmono : ∀ j, 1 ≤ j → j < ch.UpdateData._length →
      (ch.UpdateData._storage j).GetTimeSeconds
        ≤ (ch.UpdateData._storage (j + 1)).GetTimeSeconds := by
    intro j hj1 hj2
    exact (not_stopCondition _ _ (h3 j hj1 hj2)).2.2.1
  constructor
  · intro hne
    obtain ⟨i, i1, i2, hb⟩ := exists_bracket ch.UpdateData t hn hmono hne
    refine ⟨i, i1, i2, hb, ?_⟩
    intro j hj1 hj2 bj
    exact bracket_at_most_one ch.UpdateData t hmono j i hj1 hj2 i1 i2 bj hb
  · intro hall i hi1 hi2
    cases hb : Channel.inBracket (ch._storage i) (ch._storage (ch.UpdateData.succPos i)) t
    · rfl
    · rw [inBracket_iff] at hb
      have hr := succPos_range ch.UpdateData i hn hi1
      have e := hall i (ch.UpdateData.succPos i) hi1 hi2 hr.1 hr.2
      omega

/-- C17 (failing input): slots 1 and 2 hold 6:00 0% and 6:00 100%; `validate()` counts
length 2, and for no time does either of the two cyclically adjacent pairs, (slot 1,
slot 2) or (slot 2, slot 1), satisfy the bracket relation. -/
theorem no_bracket_on_equal_times :
    stepChannel._length = 2 ∧
    ∀ t : Int,
      Channel.inBracket (stepChannel._storage 1) (stepChannel._storage 2) t = false ∧
      Channel.inBracket (stepChannel._storage 2) (stepChannel._storage 1) t = false := by
  have hlen : stepChannel._length = 2 := by
    simp [stepChannel, Channel.Reset, Channel.UpdateData, Channel.init, Channel.scanFrom,
      storageOf, Point.ofHM, Point.IsValid, Point.IsZero, Point.GetTimeSeconds, Point.zero,
      toByte]
  have h1 : (stepChannel._storage 1).GetTimeSeconds = 21600 := by
    simp [stepChannel, Channel.Reset, Channel.UpdateData, Channel.init, storageOf,
      Point.ofHM, Point.GetTimeSeconds, toByte]
  have h2 : (stepChannel._storage 2).GetTimeSeconds = 21600 := by
    simp [stepChannel, Channel.Reset, Channel.UpdateData, Channel.init, storageOf,
      Point.ofHM, Point.GetTimeSeconds, toByte]
  refine ⟨hlen, fun t => ⟨?_, ?_⟩⟩
  · cases hb : Channel.inBracket (stepChannel._storage 1) (stepChannel._storage 2) t
    · rfl
    · rw [inBracket_iff] at hb
      omega
  · cases hb : Channel.inBracket (stepChannel._storage 2) (stepChannel._storage 1) t
    · rfl
    · rw [inBracket_iff] at hb
      omega

end LightController
